import Mathlib

/-!
# message-webhook: the read path, the durable store, the cache and the dispatch scheduler

A shallow embedding of

* `internal/services/message.go` (`messageService.ListSentMessages`) with the data types it
  reads (`internal/models`, `internal/resources/response`);
* `internal/repository/message.go` (the four operations on table `messages`) and
  `internal/repository/message_cache.go` (`CacheSentMessage`, `GetAllSentMessages`);
* `internal/services/message_scheduler.go` (`tick`, `Start`, `Stop`, `loop`);
* `internal/services/message_sender.go` (`Send`).

Modelling conventions

* Go `int` / `int64` values are `Int`; slices are `List`.
* `time.Time` is an instant together with the offset of its zone; `After` compares instants
  only.  The database driver stores a time as the text of its wall-clock reading followed by
  the offset, and `ORDER BY` compares these texts (`Time.storedLE`).
* The two repositories are interfaces in the source.  They are taken as functions from the
  argument of the call to its outcome, and every call made is recorded in a log.
* `sort.Slice` and `time.Time.Format` belong to the Go standard library.  They are taken as
  parameters; `sort.Slice` comes with its documented contract (`SortSliceSpec`), and
  `insertionSort` — the routine the standard library runs on slices of at most twelve
  elements — is a concrete sorter that meets it.
* A Go run-time panic (negative `make` length, index out of range) is the outcome `panic`.
* The database is the list of rows of `messages`; what the driver, the dispatch client, the
  clock and the cache backend answer is given to each operation from outside, so that every
  failure the code handles can occur.
* Calls of `Start` and `Stop` made one after the other are functions on the guarded fields;
  `Stop` calls racing with the loop are a step relation with one step per channel operation,
  dispatch or critical section.
-/

namespace MessageWebhook

/-! ## Data model -/

/-- Go `error` values, identified by their message. -/
abbrev Error := String

/-- A `time.Time`: the instant (nanoseconds since the epoch) and the offset of its zone
(seconds east of UTC). -/
structure Time where
  instant : Int
  zone : Int
deriving DecidableEq, Repr

/-- The wall-clock reading of a time in its zone, in nanoseconds. -/
def Time.wall (t : Time) : Int := t.instant + t.zone * 1000000000

/-- The minutes written in the zone offset of a formatted time (`-07:00`): the offset in
seconds divided by 60, rounded towards zero. -/
def Time.offsetMinutes (t : Time) : Int := t.zone.tdiv 60

/-- The rank of the sign written in the zone offset: `+` sorts before `-`. -/
def Time.offsetSign (t : Time) : Int := if t.offsetMinutes < 0 then 1 else 0

/-- The hours and minutes written in the zone offset, as a number of minutes. -/
def Time.offsetSize (t : Time) : Int :=
  if t.offsetMinutes < 0 then -t.offsetMinutes else t.offsetMinutes

/-- The order of the texts the database driver stores for two times.  A `time.Time` bound to a
statement is written as `2006-01-02 15:04:05.999999999-07:00`, and SQLite compares two such
texts byte by byte: first the wall-clock reading in the zone of the time, then the sign of the
offset, then its hours and minutes.  (For years 0000 to 9999 and offsets below 100 hours,
where the fields of the text have a fixed width.) -/
def Time.storedLE (t u : Time) : Prop :=
  t.wall < u.wall ∨
  (t.wall = u.wall ∧
    (t.offsetSign < u.offsetSign ∨
     (t.offsetSign = u.offsetSign ∧ t.offsetSize ≤ u.offsetSize)))

instance : DecidableRel Time.storedLE := fun t u => by
  unfold Time.storedLE
  infer_instance

/-- The method `t.After(u)`: the instant of `t` is strictly later than the instant of `u`. -/
def Time.After (t u : Time) : Bool := decide (u.instant < t.instant)

/-- The type `models.Status`, a string type. -/
abbrev Status := String

def StatusPending : Status := "PENDING"
def StatusSent : Status := "SENT"
def StatusFailed : Status := "FAILED"

/-- The type `models.Message`, a record of the durable store. -/
structure Message where
  ID : Int
  To : String
  Content : String
  Status : Status
  ExternalMessageID : String
  SentAt : Time
  CreatedAt : Time
  UpdatedAt : Time
deriving DecidableEq, Repr

/-- The type `models.SentMessageCache`, an entry of the recent-sent cache. -/
structure SentMessageCache where
  MessageID : Int
  ExternalMessageID : String
  To : String
  Content : String
  SentAt : Time
deriving DecidableEq, Repr

/-- The type `response.SentMessageResponse`, the view returned to the caller. -/
structure SentMessageResponse where
  MessageID : Int
  ExternalMessageID : String
  To : String
  Content : String
  SentAt : String
deriving DecidableEq, Repr

/-- The type `services.sortableMessage`: a view paired with the time it is sorted by. -/
structure sortableMessage where
  response : SentMessageResponse
  sentAt : Time
deriving DecidableEq, Repr

/-! ## Outcomes and the call log -/

/-- What a Go call that returns `(value, error)` can end in. -/
inductive Result (α : Type) where
  | ok : α → Result α
  | err : Error → Result α
  | panic : Result α
deriving DecidableEq, Repr

/-- Applies a function to the value of a successful outcome. -/
def Result.map {α β : Type} (f : α → β) : Result α → Result β
  | .ok a => .ok (f a)
  | .err e => .err e
  | .panic => .panic

/-- A call made on one of the two repositories, with its `limit` argument. -/
inductive Call where
  | GetAllSentMessages : Int → Call
  | GetSentMessages : Int → Call
deriving DecidableEq, Repr

/-- The outcome of a service call and the repository calls it made, in order. -/
structure Run (α : Type) where
  result : Result α
  calls : List Call

/-- The method `MessageCacheRepository.GetAllSentMessages`, as seen by the service. -/
abbrev CacheRepo := Int → Except Error (List SentMessageCache)

/-- The method `MessageRepository.GetSentMessages`, as seen by the service. -/
abbrev StoreRepo := Int → Except Error (List Message)

/-! ## Standard-library parameters -/

/-- The type of `sort.Slice` at `[]sortableMessage`: a `less` function and the slice. -/
abbrev SortFn :=
  (sortableMessage → sortableMessage → Bool) → List sortableMessage → List sortableMessage

/-- A `less` function that `sort.Slice` accepts: asymmetric, with transitive incomparability. -/
def StrictWeak (less : sortableMessage → sortableMessage → Bool) : Prop :=
  (∀ a b, less a b = true → less b a = false) ∧
  (∀ a b c, less a b = false → less b c = false → less a c = false)

/-- The contract of `sort.Slice`: the slice is rearranged (nothing added, dropped or repeated)
so that no element is `less` than one placed before it.  Ties may come out in any order. -/
def SortSliceSpec (sortSlice : SortFn) : Prop :=
  ∀ less xs, StrictWeak less →
    (sortSlice less xs).Perm xs ∧
    (sortSlice less xs).Pairwise (fun a b => less b a = false)

/-- The inner loop of the standard library's insertion sort, on the already sorted prefix held
last element first: `x` moves left past every element it is `less` than. -/
def insertLeft (less : sortableMessage → sortableMessage → Bool) (x : sortableMessage) :
    List sortableMessage → List sortableMessage
  | [] => [x]
  | y :: ys => if less x y then y :: insertLeft less x ys else x :: y :: ys

/-- The standard library's insertion sort: what `sort.Slice` runs on short slices. -/
def insertionSort : SortFn :=
  fun less xs => (xs.foldl (fun sorted x => insertLeft less x sorted) []).reverse

/-! ## `messageService.ListSentMessages` -/

/-- The comparison handed to `sort.Slice`: `sortable[i].sentAt.After(sortable[j].sentAt)`. -/
def lessAfter (a b : sortableMessage) : Bool := a.sentAt.After b.sentAt

/-- The `sortableMessage` built from a cache entry (lines 67-76). -/
def fromCache (format : Time → String) (cached : SentMessageCache) : sortableMessage :=
  { response :=
      { MessageID := cached.MessageID
        ExternalMessageID := cached.ExternalMessageID
        To := cached.To
        Content := cached.Content
        SentAt := format cached.SentAt }
    sentAt := cached.SentAt }

/-- The `sortableMessage` built from a store record (lines 125-134). -/
def fromStore (format : Time → String) (msg : Message) : sortableMessage :=
  { response :=
      { MessageID := msg.ID
        ExternalMessageID := msg.ExternalMessageID
        To := msg.To
        Content := msg.Content
        SentAt := format msg.SentAt }
    sentAt := msg.SentAt }

/-- The loop `for i := 0; i < limit; i++ { responses[i] = sortable[i].response }`, started at
index `i` with `n` iterations left; `none` is an index out of range. -/
def readFirst (sortable : List sortableMessage) : Nat → Nat → Option (List sortableMessage)
  | _, 0 => some []
  | i, n + 1 =>
    match sortable[i]? with
    | none => none
    | some s =>
      match readFirst sortable (i + 1) n with
      | none => none
      | some rest => some (s :: rest)

/-- The loop over `dbMessages` (lines 120-139): a record whose id is in `cachedIDs` is skipped,
any other is appended, and the loop stops once `sortable` has `limit` entries. -/
def appendFromStore (format : Time → String) (cachedIDs : List Int) (limit : Int) :
    List sortableMessage → List Message → List sortableMessage
  | sortable, [] => sortable
  | sortable, msg :: rest =>
    if cachedIDs.contains msg.ID then
      appendFromStore format cachedIDs limit sortable rest
    else
      let sortable := sortable ++ [fromStore format msg]
      if limit ≤ (sortable.length : Int) then sortable
      else appendFromStore format cachedIDs limit sortable rest

/-- The cache step (lines 57-78): `sortable` after the call of `GetAllSentMessages(limit)`.
A cache error is logged and leaves `sortable` empty. -/
def sortableFromCache (format : Time → String) (cacheRepo : CacheRepo) (limit : Int) :
    List sortableMessage :=
  match cacheRepo limit with
  | .error _ => []
  | .ok cachedMessages =>
    if 0 < cachedMessages.length then cachedMessages.map (fromCache format) else []

/-- The body of `ListSentMessages` up to the point where the responses are copied out of
`sortable`: the outcome carries the entries of `sortable` that are copied, in order. -/
def listSentSortable (sortSlice : SortFn) (format : Time → String)
    (cacheRepo : CacheRepo) (repo : StoreRepo) (limit : Int) : Run (List sortableMessage) :=
  let sortable := sortableFromCache format cacheRepo limit
  if limit ≤ (sortable.length : Int) then
    let sortable := sortSlice lessAfter sortable
    if limit < 0 then
      { result := .panic, calls := [.GetAllSentMessages limit] }
    else
      match readFirst sortable 0 limit.toNat with
      | none => { result := .panic, calls := [.GetAllSentMessages limit] }
      | some copied => { result := .ok copied, calls := [.GetAllSentMessages limit] }
  else
    let remainingLimit := limit - (sortable.length : Int)
    let calls := [Call.GetAllSentMessages limit, Call.GetSentMessages remainingLimit]
    match repo remainingLimit with
    | .error err =>
      if 0 < sortable.length then
        { result := .ok (sortSlice lessAfter sortable), calls := calls }
      else
        { result := .err err, calls := calls }
    | .ok dbMessages =>
      let cachedIDs := sortable.map (fun s => s.response.MessageID)
      let sortable := appendFromStore format cachedIDs limit sortable dbMessages
      { result := .ok (sortSlice lessAfter sortable), calls := calls }

/-- The method `messageService.ListSentMessages`: the responses of the copied `sortable` entries. -/
def ListSentMessages (sortSlice : SortFn) (format : Time → String)
    (cacheRepo : CacheRepo) (repo : StoreRepo) (limit : Int) : Run (List SentMessageResponse) :=
  let run := listSentSortable sortSlice format cacheRepo repo limit
  { result := run.result.map (List.map (fun s => s.response)), calls := run.calls }

/-! ## Concrete inputs used by the examples -/

/-- A display function for the examples: the formatted text is left empty. -/
def noFormat : Time → String := fun _ => ""

/-- A cache entry with the given id and sent-at instant. -/
def cacheEntry (id instant : Int) : SentMessageCache :=
  { MessageID := id, ExternalMessageID := "c", To := "r", Content := "m",
    SentAt := { instant := instant, zone := 0 } }

/-- A store record with the given id and sent-at instant, in status SENT. -/
def storeRecord (id instant : Int) : Message :=
  { ID := id, To := "r", Content := "m", Status := StatusSent, ExternalMessageID := "d",
    SentAt := { instant := instant, zone := 0 },
    CreatedAt := { instant := 0, zone := 0 }, UpdatedAt := { instant := 0, zone := 0 } }

/-- The sent-at instants of a list of `sortable` entries. -/
def instants (xs : List sortableMessage) : List Int := xs.map (fun s => s.sentAt.instant)

/-- The message ids of a list of responses. -/
def ids (rs : List SentMessageResponse) : List Int := rs.map (fun r => r.MessageID)

/-- A closed form of what the loop over `dbMessages` appends (see `appendFromStore_eq`): the
store records whose id is not cached, up to the number of free places. -/
def appended (cachedIDs : List Int) (places : Nat) (dbMessages : List Message) : List Message :=
  (dbMessages.filter (fun msg => !cachedIDs.contains msg.ID)).take places

/-! ## The durable store: `internal/repository/message.go`

The table `messages` is a list of rows in insertion order.  `database/sql` is taken at its
interface: a `Driver` says which of the driver calls made by an operation report an error.
`ORDER BY` is taken by instant, rows with equal keys staying in insertion order. -/

/-- A time given by its instant, in UTC. -/
def atInstant (instant : Int) : Time := { instant := instant, zone := 0 }

/-- The zero value of `time.Time` (January 1, year 1, UTC), left in a field that is never set. -/
def zeroTime : Time := { instant := -62135596800000000000, zone := 0 }

/-- A row of table `messages` (`models.GetMessageSchema`); `sent_at` is the only nullable
column.  The column `"to"` is the field `recipient`. -/
structure Row where
  id : Int
  recipient : String
  content : String
  status : Status
  external_message_id : String
  sent_at : Option Time
  created_at : Time
  updated_at : Time
deriving DecidableEq, Repr

/-- The database: the rows of `messages` and the largest id ever handed out by AUTOINCREMENT. -/
structure DB where
  rows : List Row
  seq : Int
deriving DecidableEq, Repr

/-- The errors the database driver reports during one repository call: on `Exec` / `Query`,
on `RowsAffected` / `LastInsertId` / `rows.Err`, and on the `Scan` of the row with a given
id. -/
structure Driver where
  execErr : Option Error
  resultErr : Option Error
  scanErr : Int → Option Error

deriving instance DecidableEq for Except

/-- A driver that reports no error. -/
def healthy : Driver := { execErr := none, resultErr := none, scanErr := fun _ => none }

/-- The id AUTOINCREMENT gives the next row: one more than the largest id ever in the table. -/
def nextID (db : DB) : Int := (db.rows.map (fun r => r.id)).foldl max db.seq + 1

/-- The method `messageRepository.CreateMessage` (lines 124-159), with `now` the value of
`time.Now()`.  Go's `len(content)` is the number of bytes of the UTF-8 text. -/
def CreateMessage (driver : Driver) (now : Time) (db : DB) (recipient content : String) :
    Except Error Message × DB :=
  if 160 < content.utf8ByteSize then
    (.error "content exceeds 160 character limit", db)
  else
    match driver.execErr with
    | some err => (.error ("failed to create message: " ++ err), db)
    | none =>
      let id := nextID db
      let inserted : DB :=
        { rows := db.rows ++
            [{ id := id, recipient := recipient, content := content, status := StatusPending,
               external_message_id := "", sent_at := none, created_at := now,
               updated_at := now }],
          seq := id }
      match driver.resultErr with
      | some err => (.error ("failed to get last insert ID: " ++ err), inserted)
      | none =>
        (.ok { ID := id, To := recipient, Content := content, Status := StatusPending,
               ExternalMessageID := "", SentAt := zeroTime, CreatedAt := now,
               UpdatedAt := now },
         inserted)

/-- The statement `UPDATE messages SET status, external_message_id, sent_at, updated_at WHERE
id = ?` applied to one row. -/
def updateRow (messageID : Int) (status : Status) (extID : String) (sentAt : Option Time)
    (now : Time) (r : Row) : Row :=
  if r.id = messageID then
    { r with status := status, external_message_id := extID, sent_at := sentAt,
             updated_at := now }
  else r

/-- The method `messageRepository.UpdateMessageStatus` (lines 86-121), with `now` the value of
`time.Now()`; a nil pointer argument is `none`.  The outcome `none` is the nil error. -/
def UpdateMessageStatus (driver : Driver) (now : Time) (db : DB) (messageID : Int)
    (status : Status) (externalMessageID : Option String) (sentAt : Option Time) :
    Option Error × DB :=
  let extID := match externalMessageID with
    | some ext => ext
    | none => ""
  match driver.execErr with
  | some err => (some ("failed to update message status: " ++ err), db)
  | none =>
    let updated : DB :=
      { db with rows := db.rows.map (updateRow messageID status extID sentAt now) }
    let rowsAffected := (db.rows.filter (fun r => r.id = messageID)).length
    match driver.resultErr with
    | some err => (some ("failed to get rows affected: " ++ err), updated)
    | none =>
      if rowsAffected = 0 then
        (some ("no message found with ID: " ++ toString messageID), updated)
      else (none, updated)

/-- The clause `LIMIT ?`: a negative limit keeps every row. -/
def sqlLimit {α : Type} (limit : Int) (rows : List α) : List α :=
  if limit < 0 then rows else rows.take limit.toNat

/-- The loop `for rows.Next()` of `GetUnsentMessages` (lines 54-75): `sent_at` is scanned into
a `sql.NullTime` and copied only when it is not NULL. -/
def scanUnsent (driver : Driver) : List Row → Except Error (List Message)
  | [] => .ok []
  | r :: rest =>
    match driver.scanErr r.id with
    | some err => .error ("failed to scan message row: " ++ err)
    | none =>
      match scanUnsent driver rest with
      | .error e => .error e
      | .ok messages =>
        .ok ({ ID := r.id, To := r.recipient, Content := r.content, Status := r.status,
               ExternalMessageID := r.external_message_id,
               SentAt := match r.sent_at with
                 | some t => t
                 | none => zeroTime,
               CreatedAt := r.created_at, UpdatedAt := r.updated_at } :: messages)

/-- The order of `ORDER BY created_at ASC`: the order of the texts stored in the column. -/
def createdAtAsc (a b : Row) : Prop := a.created_at.storedLE b.created_at

instance : DecidableRel createdAtAsc := fun a b => by
  unfold createdAtAsc
  infer_instance

instance : IsTrans Row createdAtAsc :=
  ⟨fun a b c hab hbc => by
    unfold createdAtAsc Time.storedLE at *
    omega⟩

instance : IsTotal Row createdAtAsc :=
  ⟨fun a b => by
    unfold createdAtAsc Time.storedLE
    omega⟩

/-- The method `messageRepository.GetUnsentMessages` (lines 37-84): the rows with status
PENDING, ordered by `created_at` ascending, cut by `LIMIT`. -/
def GetUnsentMessages (driver : Driver) (db : DB) (limit : Int) : Except Error (List Message) :=
  match driver.execErr with
  | some err => .error ("failed to query unsent messages: " ++ err)
  | none =>
    let rows := sqlLimit limit
      ((db.rows.filter (fun r => r.status = StatusPending)).insertionSort
        createdAtAsc)
    match scanUnsent driver rows with
    | .error e => .error e
    | .ok messages =>
      match driver.resultErr with
      | some err => .error ("error iterating message rows: " ++ err)
      | none => .ok messages

/-- The order of `ORDER BY sent_at DESC`: the reverse order of the texts stored in the column,
and a NULL `sent_at` sorts after every time. -/
def sentAtDesc (a b : Row) : Prop :=
  match a.sent_at, b.sent_at with
  | some ta, some tb => tb.storedLE ta
  | some _, none => True
  | none, some _ => False
  | none, none => True

instance : DecidableRel sentAtDesc := fun a b => by
  unfold sentAtDesc
  split <;> infer_instance

/-- The loop `for rows.Next()` of `GetSentMessages` (lines 178-195): `sent_at` is scanned
straight into a `time.Time`, which `database/sql` refuses for NULL. -/
def scanSent (driver : Driver) : List Row → Except Error (List Message)
  | [] => .ok []
  | r :: rest =>
    match driver.scanErr r.id with
    | some err => .error ("failed to scan message row: " ++ err)
    | none =>
      match r.sent_at with
      | none => .error ("failed to scan message row: " ++
          "sql: Scan error on column index 5, name \"sent_at\": unsupported Scan, " ++
          "storing driver.Value type <nil> into type *time.Time")
      | some t =>
        match scanSent driver rest with
        | .error e => .error e
        | .ok messages =>
          .ok ({ ID := r.id, To := r.recipient, Content := r.content, Status := r.status,
                 ExternalMessageID := r.external_message_id, SentAt := t,
                 CreatedAt := r.created_at, UpdatedAt := r.updated_at } :: messages)

/-- The method `messageRepository.GetSentMessages` (lines 161-204): the rows with status
SENT, ordered by `sent_at` descending, cut by `LIMIT`. -/
def GetSentMessages (driver : Driver) (db : DB) (limit : Int) : Except Error (List Message) :=
  match driver.execErr with
  | some err => .error ("failed to query sent messages: " ++ err)
  | none =>
    let rows := sqlLimit limit
      ((db.rows.filter (fun r => r.status = StatusSent)).insertionSort sentAtDesc)
    match scanSent driver rows with
    | .error e => .error e
    | .ok messages =>
      match driver.resultErr with
      | some err => .error ("error iterating message rows: " ++ err)
      | none => .ok messages

/-! ## The recent-sent cache, write side: `internal/repository/message_cache.go` -/

/-- The cache contents: the entry stored under the key `sent_message:<id>`, for each id that
has one.  The stored text is the JSON form of the entry; expiry is not modelled. -/
abbrev Cache := List (Int × SentMessageCache)

/-- The method `messageCacheRepository.CacheSentMessage` (lines 41-63): `marshalErr` is the
error of `json.Marshal` and `setErr` the error of the Redis `SET`, which replaces whatever
the key held. -/
def CacheSentMessage (marshalErr setErr : Option Error) (cache : Cache)
    (message : SentMessageCache) : Option Error × Cache :=
  match marshalErr with
  | some err => (some ("failed to marshal cache data: " ++ err), cache)
  | none =>
    match setErr with
    | some err => (some ("failed to cache sent message: " ++ err), cache)
    | none =>
      (none, cache.filter (fun entry => entry.1 ≠ message.MessageID) ++
        [(message.MessageID, message)])

/-! ## The dispatch scheduler: `internal/services/message_scheduler.go` -/

/-- Modelled from the spec: the type `response.WebhookResponse`, whose declaration is not in
the sources read; the response body of an accepted dispatch carries the external id and a
message. -/
structure WebhookResponse where
  Message : String
  MessageID : String
deriving DecidableEq, Repr

/-- The fields of `messageScheduler` that `tick` reads: the batch size and whether a cache
repository is set. -/
structure messageScheduler where
  bacthSize : Int
  hasCache : Bool

/-- What the collaborators answer during one tick: the driver behind the fetch, and for each
fetched message the outcome of `Send`, the value of `time.Now()` taken after it, the driver
and clock behind `UpdateMessageStatus`, and the errors of the cache write. -/
structure TickEnv where
  driverFetch : Driver
  send : Message → Except Error WebhookResponse
  now : Message → Time
  driverUpdate : Message → Driver
  updateNow : Message → Time
  marshalErr : Message → Option Error
  setErr : Message → Option Error

/-- A call made by `tick` on one of its collaborators. -/
inductive Event where
  | GetUnsentMessages : Int → Event
  | Send : String → String → Event
  | UpdateMessageStatus : Int → Status → Option String → Option Time → Event
  | CacheSentMessage : SentMessageCache → Event
deriving DecidableEq, Repr

/-- The store, the cache and the calls made so far. -/
structure World where
  db : DB
  cache : Cache
  events : List Event
deriving DecidableEq, Repr

/-- The body of the loop `for _, msg := range messages` of `tick` (lines 105-127).  The error
returned by `UpdateMessageStatus` is assigned and not looked at. -/
def processMessage (env : TickEnv) (s : messageScheduler) (w : World) (msg : Message) : World :=
  let w : World := { w with events := w.events ++ [.Send msg.To msg.Content] }
  match env.send msg with
  | .error _ => w
  | .ok resp =>
    let sendAt := env.now msg
    let updated := UpdateMessageStatus (env.driverUpdate msg) (env.updateNow msg) w.db msg.ID
      StatusSent (some resp.MessageID) (some sendAt)
    let w : World :=
      { w with db := updated.2,
               events := w.events ++
                 [.UpdateMessageStatus msg.ID StatusSent (some resp.MessageID) (some sendAt)] }
    if s.hasCache then
      let cacheData : SentMessageCache :=
        { MessageID := msg.ID, ExternalMessageID := resp.MessageID, To := msg.To,
          Content := msg.Content, SentAt := sendAt }
      let cached := CacheSentMessage (env.marshalErr msg) (env.setErr msg) w.cache cacheData
      { w with cache := cached.2, events := w.events ++ [.CacheSentMessage cacheData] }
    else w

/-- The method `messageScheduler.tick` (lines 98-128). -/
def tick (env : TickEnv) (s : messageScheduler) (w : World) : World :=
  let w : World := { w with events := w.events ++ [.GetUnsentMessages s.bacthSize] }
  match GetUnsentMessages env.driverFetch w.db s.bacthSize with
  | .error _ => w
  | .ok messages => messages.foldl (processMessage env s) w

/-- The `(recipient, content)` pairs of the `Send` calls among some events, in order. -/
def sends : List Event → List (String × String)
  | [] => []
  | .Send recipient content :: rest => (recipient, content) :: sends rest
  | _ :: rest => sends rest

/-- The message a pending row is scanned into (the body of `scanUnsent`). -/
def messageOfRow (r : Row) : Message :=
  { ID := r.id, To := r.recipient, Content := r.content, Status := r.status,
    ExternalMessageID := r.external_message_id,
    SentAt := match r.sent_at with
      | some t => t
      | none => zeroTime,
    CreatedAt := r.created_at, UpdatedAt := r.updated_at }

/-- What processing one message does to a row: nothing when `Send` fails or the `UPDATE` is
not executed, the `UPDATE` otherwise. -/
def rowStep (env : TickEnv) (msg : Message) (r : Row) : Row :=
  match env.send msg with
  | .error _ => r
  | .ok resp =>
    match (env.driverUpdate msg).execErr with
    | some _ => r
    | none => updateRow msg.ID StatusSent resp.MessageID (some (env.now msg)) (env.updateNow msg) r

/-- What processing one message does to the cache. -/
def cacheStep (env : TickEnv) (s : messageScheduler) (msg : Message) (cache : Cache) : Cache :=
  match env.send msg with
  | .error _ => cache
  | .ok resp =>
    if s.hasCache then
      (CacheSentMessage (env.marshalErr msg) (env.setErr msg) cache
        { MessageID := msg.ID, ExternalMessageID := resp.MessageID, To := msg.To,
          Content := msg.Content, SentAt := env.now msg }).2
    else cache

/-- The calls made while processing one message. -/
def newEvents (env : TickEnv) (s : messageScheduler) (msg : Message) : List Event :=
  .Send msg.To msg.Content ::
    match env.send msg with
    | .error _ => []
    | .ok resp =>
      .UpdateMessageStatus msg.ID StatusSent (some resp.MessageID) (some (env.now msg)) ::
        if s.hasCache then
          [.CacheSentMessage
            { MessageID := msg.ID, ExternalMessageID := resp.MessageID, To := msg.To,
              Content := msg.Content, SentAt := env.now msg }]
        else []

/-- The calls made while processing a batch. -/
def batchEvents (env : TickEnv) (s : messageScheduler) : List Message → List Event
  | [] => []
  | msg :: rest => newEvents env s msg ++ batchEvents env s rest

/-! ### Start and Stop, called one after the other

The fields of `messageScheduler` guarded by `mu`, and the number of `loop` goroutines alive.
A channel field is `none` while it is nil and otherwise says whether the channel is closed. -/

/-- The lifecycle state of a scheduler. -/
structure Lifecycle where
  running : Bool
  stopChan : Option Bool
  doneChan : Option Bool
  loops : Nat
deriving DecidableEq, Repr

/-- The state `NewMessageScheduler` returns: not running, both channels nil, no loop. -/
def newLifecycle : Lifecycle :=
  { running := false, stopChan := none, doneChan := none, loops := 0 }

/-- The method `messageScheduler.Start` (lines 46-60): a no-op when running; otherwise it sets
the flag, makes both channels and launches one `loop` goroutine. -/
def Start (s : Lifecycle) : Lifecycle :=
  if s.running then s
  else { running := true, stopChan := some false, doneChan := some false, loops := s.loops + 1 }

/-- The deferred function of `loop` (lines 75-80), run when the loop returns: the flag is
cleared, `doneChan` is closed and the goroutine ends. -/
def loopReturn (s : Lifecycle) : Lifecycle :=
  { s with running := false, doneChan := some true, loops := s.loops - 1 }

/-- The method `messageScheduler.Stop` (lines 62-72), called while no other call is in
progress: a no-op when not running; otherwise it closes `stopChan` and waits on `doneChan`,
which a live loop closes when it takes the stop case of its `select` and returns.  The
outcome `none` is a call that does not return: closing a nil or closed channel panics, and
without a live loop nothing ever closes `doneChan`. -/
def Stop (s : Lifecycle) : Option Lifecycle :=
  if !s.running then some s
  else
    match s.stopChan with
    | some false =>
      let s := { s with stopChan := some true }
      if s.loops = 0 then none else some (loopReturn s)
    | _ => none

/-- A control call on the scheduler. -/
inductive Control where
  | start : Control
  | stop : Control
deriving DecidableEq, Repr

/-- A sequence of control calls, each made after the previous one returned. -/
def control : List Control → Lifecycle → Option Lifecycle
  | [], s => some s
  | .start :: rest, s => control rest (Start s)
  | .stop :: rest, s =>
    match Stop s with
    | none => none
    | some s => control rest s

/-- The states reached by control calls: a running scheduler has one loop and an open stop
channel, a stopped one has no loop. -/
def Settled (s : Lifecycle) : Prop :=
  (s.running = true → s.loops = 1 ∧ s.stopChan = some false) ∧
  (s.running = false → s.loops = 0)

/-! ### Stop calls racing with the loop

A running scheduler with its loop goroutine and some concurrent `Stop` calls, interleaved
step by step.  A step is one channel operation, one dispatch, or one critical section of
`mu`. -/

/-- Where the `loop` goroutine is: inside a tick, at the `select`, past the `select` on its
way to the deferred function, or ended. -/
inductive LoopAt where
  | ticking : LoopAt
  | selecting : LoopAt
  | returning : LoopAt
  | ended : LoopAt
deriving DecidableEq, Repr

/-- Where a `Stop` call is: before taking `mu`, waiting on `doneChan`, returned, or stopped
by the panic of closing a closed channel (with `mu` still held, as `Stop` does not defer the
unlock). -/
inductive StopAt where
  | entering : StopAt
  | waiting : StopAt
  | returned : StopAt
  | panicked : StopAt
deriving DecidableEq, Repr

/-- The state of the race: the guarded fields, whether `mu` is held for good, the loop, the
concurrent `Stop` calls and the number of `Send` calls made so far. -/
structure Race where
  running : Bool
  stopClosed : Bool
  doneClosed : Bool
  muStuck : Bool
  loop : LoopAt
  stops : List StopAt
  sent : Nat
deriving DecidableEq, Repr

/-- One step of one of the goroutines. -/
inductive Action where
  | loopSend : Action
  | loopTickDone : Action
  | loopTimer : Action
  | loopSeeStop : Action
  | loopDeferred : Action
  | stopEnter : Nat → Action
  | stopWake : Nat → Action
deriving DecidableEq, Repr

/-- The effect of a step, `none` when the step cannot be taken in this state.

* `loopSend`: one `Send` inside `tick` (line 106).
* `loopTickDone`: `tick` returns and the loop reaches the `select` (line 89).
* `loopTimer`: the case `<-ticker.C` (line 90).
* `loopSeeStop`: the case `<-s.stopChan` (line 92), ready once the channel is closed.
* `loopDeferred`: the deferred function (lines 76-79), which needs `mu`.
* `stopEnter i`: the critical section of `Stop` (lines 63-69), which needs `mu`.
* `stopWake i`: the receive `<-s.doneChan` (line 71), ready once the channel is closed. -/
def step (a : Action) (s : Race) : Option Race :=
  match a with
  | .loopSend =>
    if s.loop = .ticking then some { s with sent := s.sent + 1 } else none
  | .loopTickDone =>
    if s.loop = .ticking then some { s with loop := .selecting } else none
  | .loopTimer =>
    if s.loop = .selecting then some { s with loop := .ticking } else none
  | .loopSeeStop =>
    if s.loop = .selecting ∧ s.stopClosed = true then some { s with loop := .returning }
    else none
  | .loopDeferred =>
    if s.loop = .returning ∧ s.muStuck = false then
      some { s with running := false, doneClosed := true, loop := .ended }
    else none
  | .stopEnter i =>
    if s.stops[i]? = some .entering ∧ s.muStuck = false then
      if !s.running then some { s with stops := s.stops.set i .returned }
      else if s.stopClosed then
        some { s with muStuck := true, stops := s.stops.set i .panicked }
      else some { s with stopClosed := true, stops := s.stops.set i .waiting }
    else none
  | .stopWake i =>
    if s.stops[i]? = some .waiting ∧ s.doneClosed = true then
      some { s with stops := s.stops.set i .returned }
    else none

/-- A schedule: the steps taken, in order; `none` when one of them cannot be taken. -/
def steps : List Action → Race → Option Race
  | [], s => some s
  | a :: rest, s =>
    match step a s with
    | none => none
    | some s => steps rest s

/-- A running scheduler right after `Start`: the loop is in its first tick, both channels are
open, and `n` calls of `Stop` are about to begin. -/
def racing (n : Nat) : Race :=
  { running := true, stopClosed := false, doneClosed := false, muStuck := false,
    loop := .ticking, stops := List.replicate n .entering, sent := 0 }

/-- What holds in every state of the race: while the loop has not ended, the flag is set and
`doneChan` is open; and a `Stop` call has returned only if the loop has ended. -/
def RaceInv (s : Race) : Prop :=
  (s.loop ≠ LoopAt.ended → s.running = true ∧ s.doneClosed = false) ∧
  (∀ i : Nat, s.stops[i]? = some StopAt.returned → s.loop = LoopAt.ended)

/-- A schedule with one `Stop` call: it arrives during the first tick, after one dispatch; the
tick makes one more dispatch and ends, the loop takes the stop case and returns, and the call
wakes up. -/
def oneStop : List Action :=
  [.loopSend, .stopEnter 0, .loopSend, .loopTickDone, .loopSeeStop, .loopDeferred, .stopWake 0]

/-- The state `oneStop` leads to: the call has returned, the loop has ended, two dispatches
were made. -/
def afterOneStop : Race :=
  { running := false, stopClosed := true, doneClosed := true, muStuck := false, loop := .ended,
    stops := [.returned], sent := 2 }

/-- What processing a batch does to a row. -/
def rowFold (env : TickEnv) (messages : List Message) (r : Row) : Row :=
  messages.foldl (fun r msg => rowStep env msg r) r

/-- What processing a batch does to the cache. -/
def cacheFold (env : TickEnv) (s : messageScheduler) (messages : List Message) (cache : Cache) :
    Cache :=
  messages.foldl (fun cache msg => cacheStep env s msg cache) cache

/-- A tick environment in which everything works: every dispatch is accepted with the given
external id at instant 100, and every store and cache write goes through. -/
def accepting (externalID : String) : TickEnv :=
  { driverFetch := healthy,
    send := fun _ => .ok { Message := "Accepted", MessageID := externalID },
    now := fun _ => atInstant 100,
    driverUpdate := fun _ => healthy,
    updateNow := fun _ => atInstant 101,
    marshalErr := fun _ => none,
    setErr := fun _ => none }

/-- A tick environment in which dispatches are accepted but the `UPDATE` of the store fails. -/
def storeDown : TickEnv :=
  { accepting "ext-1" with
    driverUpdate := fun _ =>
      { execErr := some "database is locked", resultErr := none, scanErr := fun _ => none } }

/-- A tick environment in which the dispatch of the message with the given id is refused and
every other one is accepted. -/
def refusing (id : Int) : TickEnv :=
  { accepting "ext-1" with
    send := fun msg =>
      if msg.ID = id then .error "failed to send message, status code: 500"
      else .ok { Message := "Accepted", MessageID := "ext-1" } }

/-- A pending row with the given id, recipient and content, created at the instant equal to
its id. -/
def pendingRow (id : Int) (recipient content : String) : Row :=
  { id := id, recipient := recipient, content := content, status := StatusPending,
    external_message_id := "", sent_at := none, created_at := atInstant id,
    updated_at := atInstant id }

/-- A store holding three pending messages, created in the order 1, 2, 3. -/
def threePending : DB :=
  { rows := [pendingRow 1 "+905551111111" "Message 1", pendingRow 2 "+905552222222" "Message 2",
             pendingRow 3 "+905553333333" "Message 3"],
    seq := 3 }

/-- The three messages fetched from `threePending`, oldest first. -/
def threeMessages : List Message :=
  [messageOfRow (pendingRow 1 "+905551111111" "Message 1"),
   messageOfRow (pendingRow 2 "+905552222222" "Message 2"),
   messageOfRow (pendingRow 3 "+905553333333" "Message 3")]

/-- The scheduler of the examples: batches of ten, with a cache. -/
def batchOfTen : messageScheduler := { bacthSize := 10, hasCache := true }

/-- The scheduler with the default batch size of two, with a cache. -/
def batchOfTwo : messageScheduler := { bacthSize := 2, hasCache := true }

/-- The second message of `threePending`. -/
def secondMessage : Message := messageOfRow (pendingRow 2 "+905552222222" "Message 2")

/-- A world with the given store, an empty cache and no call made yet. -/
def freshWorld (db : DB) : World := { db := db, cache := [], events := [] }

/-- The empty database. -/
def emptyDB : DB := { rows := [], seq := 0 }

/-- A text of 81 letters, each of which takes two bytes in UTF-8. -/
def twoByteContent : String := String.mk (List.replicate 81 'ş')

/-- A text of 161 one-byte letters. -/
def longContent : String := String.mk (List.replicate 161 'a')

/-- A row with the given id and status, sent (when `sent` is given) at that instant and
created at the instant equal to its id. -/
def row (id : Int) (status : Status) (sent : Option Int) : Row :=
  { id := id, recipient := "r", content := "m", status := status,
    external_message_id := (match sent with
      | some _ => "d"
      | none => ""),
    sent_at := sent.map atInstant, created_at := atInstant id, updated_at := atInstant id }

/-- A store holding one pending message, with id 1. -/
def onePending : DB := { rows := [row 1 StatusPending none], seq := 1 }

/-- A store holding four sent messages: 1 (the most recent), 2, 3 and 4. -/
def fourSent : DB :=
  { rows := [row 1 StatusSent (some 9), row 2 StatusSent (some 8), row 3 StatusSent (some 7),
             row 4 StatusSent (some 6)],
    seq := 4 }

/-- The arguments of the `GetSentMessages` calls among some calls, in order. -/
def storeQueries : List Call → List Int
  | [] => []
  | .GetSentMessages n :: rest => n :: storeQueries rest
  | .GetAllSentMessages _ :: rest => storeQueries rest

/-- The number of entries the cache step yields: the length of the cache's answer, and zero
when the cache read failed. -/
def cacheYield (cacheRepo : CacheRepo) (limit : Int) : Nat :=
  match cacheRepo limit with
  | .error _ => 0
  | .ok cachedMessages => cachedMessages.length

/-- The store after `CreateMessage` was called three times on the empty database, for the
messages A, B and C, at the instants 1, 2 and 3. -/
def createdABC : DB :=
  (CreateMessage healthy (atInstant 3)
    (CreateMessage healthy (atInstant 2)
      (CreateMessage healthy (atInstant 1) emptyDB "+905551111111" "A").2
      "+905552222222" "B").2
    "+905553333333" "C").2

/-- The store `createdABC` after message B (id 2) was marked SENT with external id `ext-B` at
the instant 50. -/
def sentB : DB :=
  (UpdateMessageStatus healthy (atInstant 51) createdABC 2 StatusSent (some "ext-B")
    (some (atInstant 50))).2

/-- A store holding one sent message, with id 1, external id `d` and sent-at instant 9. -/
def oneSent : DB := { rows := [row 1 StatusSent (some 9)], seq := 1 }

/-- The store states reached from the empty database through calls of `CreateMessage` and
ticks of the scheduler, whatever the drivers and the dispatch client answer; `idOK` is what is
known of the external ids the dispatch client returns. -/
inductive Reachable (idOK : String → Prop) : DB → Prop where
  | empty : Reachable idOK emptyDB
  | created (driver : Driver) (now : Time) (db : DB) (recipient content : String) :
      Reachable idOK db → Reachable idOK (CreateMessage driver now db recipient content).2
  | ticked (env : TickEnv) (s : messageScheduler) (w : World) :
      Reachable idOK w.db → (∀ m resp, env.send m = .ok resp → idOK resp.MessageID) →
      Reachable idOK (tick env s w).db

/-- What holds of every row of a reachable store: it is SENT with a sent-at and an external id
the dispatch client returned, or PENDING with neither. -/
def RowInv (idOK : String → Prop) (r : Row) : Prop :=
  (r.status = StatusSent ∧ r.sent_at ≠ none ∧ idOK r.external_message_id) ∨
  (r.status = StatusPending ∧ r.sent_at = none ∧ r.external_message_id = "")

/-- The store `createdABC` after one tick in which every dispatch is accepted by a response
that carries no message id. -/
def sentWithoutID : DB := (tick (accepting "") batchOfTen (freshWorld createdABC)).db

/-- Successive ticks of the loop, with one environment for each tick. -/
def ticks (s : messageScheduler) : List TickEnv → World → World
  | [], w => w
  | env :: rest, w => ticks s rest (tick env s w)

/-- The batch a successful `GetUnsentMessages(limit)` returns (see `GetUnsentMessages_ok`). -/
def pendingBatch (db : DB) (limit : Int) : List Message :=
  (sqlLimit limit
    ((db.rows.filter (fun r => r.status = StatusPending)).insertionSort
      createdAtAsc)).map messageOfRow

/-- A tick environment in which every dispatch is refused. -/
def refusingAll : TickEnv :=
  { accepting "ext-1" with
    send := fun _ => .error "failed to send message, status code: 500" }

/-- A tick environment in which the fetch of the pending messages fails. -/
def fetchDown : TickEnv :=
  { accepting "ext-1" with
    driverFetch :=
      { execErr := some "database is locked", resultErr := none, scanErr := fun _ => none } }

/-! ### The goroutine `loop` from its first line

The method `loop` (lines 74-96) followed from its entry, with the number of calls of
`GetUnsentMessages` and of `Send` it has made. -/

/-- Where the goroutine `loop` is: before `s.tick(ctx)` of line 86, inside a tick (after its
call of `GetUnsentMessages`), at the `select` of line 89, or returned. -/
inductive LoopPoint where
  | entry : LoopPoint
  | inTick : LoopPoint
  | atSelect : LoopPoint
  | returned : LoopPoint
deriving DecidableEq, Repr

/-- The goroutine `loop` and the stop signal: whether `stopChan` is closed, and the calls of
`GetUnsentMessages` and `Send` made so far. -/
structure LoopRun where
  point : LoopPoint
  stopRaised : Bool
  fetches : Nat
  dispatches : Nat
deriving DecidableEq, Repr

/-- A step of the goroutine `loop`, or the close of `stopChan` by `Stop`. -/
inductive LoopAction where
  | firstTick : LoopAction
  | dispatch : LoopAction
  | tickDone : LoopAction
  | timer : LoopAction
  | seeStop : LoopAction
  | raiseStop : LoopAction
deriving DecidableEq, Repr

/-- The effect of a step, `none` when the step cannot be taken in this state.

* `firstTick`: the call `s.tick(ctx)` of line 86, which begins with `GetUnsentMessages`.
* `dispatch`: one `Send` inside `tick` (line 106).
* `tickDone`: `tick` returns and the loop reaches the `select` (line 89).
* `timer`: the case `<-ticker.C` (lines 90-91), which begins the next tick.
* `seeStop`: the case `<-s.stopChan` (lines 92-93), ready once the channel is closed.
* `raiseStop`: `close(s.stopChan)` in `Stop` (line 68). -/
def loopStep (a : LoopAction) (s : LoopRun) : Option LoopRun :=
  match a with
  | .firstTick =>
    if s.point = .entry then some { s with point := .inTick, fetches := s.fetches + 1 }
    else none
  | .dispatch =>
    if s.point = .inTick then some { s with dispatches := s.dispatches + 1 } else none
  | .tickDone =>
    if s.point = .inTick then some { s with point := .atSelect } else none
  | .timer =>
    if s.point = .atSelect then some { s with point := .inTick, fetches := s.fetches + 1 }
    else none
  | .seeStop =>
    if s.point = .atSelect ∧ s.stopRaised = true then some { s with point := .returned }
    else none
  | .raiseStop =>
    if s.stopRaised = false then some { s with stopRaised := true } else none

/-- A run of the loop: the steps taken, in order; `none` when one of them cannot be taken. -/
def loopSteps : List LoopAction → LoopRun → Option LoopRun
  | [], s => some s
  | a :: rest, s =>
    match loopStep a s with
    | none => none
    | some s => loopSteps rest s

/-- The goroutine `loop` about to execute its first line, with the stop signal as given. -/
def atEntry (stopRaised : Bool) : LoopRun :=
  { point := .entry, stopRaised := stopRaised, fetches := 0, dispatches := 0 }

/-! ## The dispatch client: `internal/services/message_sender.go` -/

/-- The fields of `messageSenderService` that `Send` reads. -/
structure messageSenderService where
  webHookURL : String
  authKey : String

/-- The request `Send` builds (lines 38-48): a POST of the marshalled body to the webhook URL,
with the content type and the `x-ins-auth-key` header. -/
structure HTTPRequest where
  Method : String
  URL : String
  Body : String
  ContentType : String
  AuthKey : String
deriving DecidableEq, Repr

/-- What `client.Do` returns when the exchange completes: the status code and the body. -/
structure HTTPResponse where
  StatusCode : Int
  Body : String
deriving DecidableEq, Repr

/-- What `encoding/json` finds in a response body that it is asked to decode into a
`WebhookResponse`: nothing it can decode (the text is not JSON, its value is neither an object
nor `null`, or a member has not the type of its field); the value `null`; or an object, with
the string values of its members `message` and `messageId`, `none` for a member that is absent
or `null`. -/
inductive BodyShape where
  | undecodable : Error → BodyShape
  | null : BodyShape
  | object : Option String → Option String → BodyShape
deriving DecidableEq, Repr

/-- The call `json.NewDecoder(resp.Body).Decode(&wResp)` on the zero `wResp` (lines 62-66): a
member that is absent or `null` leaves its field empty, and so does the value `null`; no
member is required. -/
def decodeWebhookResponse : BodyShape → Except Error WebhookResponse
  | .undecodable err => .error err
  | .null => .ok { Message := "", MessageID := "" }
  | .object message messageId =>
    .ok { Message := message.getD "", MessageID := messageId.getD "" }

/-- What the standard library and the network answer during one `Send`: `json.Marshal` of the
two-field map, the error of `http.NewRequestWithContext` for the URL, the outcome of
`client.Do`, and what `encoding/json` finds in a response body. -/
structure SendEnv where
  marshal : String → String → String
  newRequestErr : String → Option Error
  roundTrip : HTTPRequest → Except Error HTTPResponse
  inspect : String → BodyShape

/-- The request of `Send` for a recipient and a content. -/
def sendRequest (env : SendEnv) (s : messageSenderService) (recipient content : String) :
    HTTPRequest :=
  { Method := "POST", URL := s.webHookURL, Body := env.marshal recipient content,
    ContentType := "application/json", AuthKey := s.authKey }

/-- The method `messageSenderService.Send` (lines 37-69); `http.StatusAccepted` is 202. -/
def Send (env : SendEnv) (s : messageSenderService) (recipient content : String) :
    Except Error WebhookResponse :=
  match env.newRequestErr s.webHookURL with
  | some err => .error err
  | none =>
    match env.roundTrip (sendRequest env s recipient content) with
    | .error err => .error err
    | .ok resp =>
      if resp.StatusCode ≠ 202 then
        .error ("failed to send message, status code: " ++ toString resp.StatusCode)
      else
        match decodeWebhookResponse (env.inspect resp.Body) with
        | .error err => .error err
        | .ok wResp => .ok wResp

/-- The sender of the examples. -/
def webhookSender : messageSenderService :=
  { webHookURL := "http://webhook.test/send", authKey := "test-auth-key" }

/-- The body of the accepted response used in the tests of `Send`. -/
def acceptedBody : String :=
  "\x7b\"message\":\"Accepted\",\"messageId\":\"ext-12345\"\x7d"

/-- The body that is an empty JSON object. -/
def emptyObjectBody : String := "\x7b\x7d"

/-- An exchange that completes with the given status code and body.  Of the bodies of the
examples, `acceptedBody` is an object with both members, `emptyObjectBody` an object with
neither, and any other text is not JSON. -/
def answering (statusCode : Int) (body : String) : SendEnv :=
  { marshal := fun recipient content => recipient ++ " " ++ content,
    newRequestErr := fun _ => none,
    roundTrip := fun _ => .ok { StatusCode := statusCode, Body := body },
    inspect := fun text =>
      if text = acceptedBody then .object (some "Accepted") (some "ext-12345")
      else if text = emptyObjectBody then .object none none
      else .undecodable "invalid character in the response body" }

/-- An exchange that does not complete: the server cannot be reached. -/
def serverUnreachable : SendEnv :=
  { answering 202 acceptedBody with
    roundTrip := fun _ => .error "dial tcp: connect: connection refused" }

/-! ## The recent-sent cache, read side: `internal/repository/message_cache.go` -/

/-- One answer of `SCAN`: the keys of the page, each with the answer `GET` gives when the key
is read, and the next cursor. -/
structure ScanPage where
  keys : List (String × Except Error String)
  nextCursor : Nat

/-- The loop `for _, key := range keys` (lines 79-97): it stops once `messages` has `limit`
entries, skips a key whose `GET` or whose `json.Unmarshal` fails, and appends the decoded
value of any other key. -/
def readKeys (unmarshal : String → Except Error SentMessageCache) (limit : Int) :
    List SentMessageCache → List (String × Except Error String) → List SentMessageCache
  | messages, [] => messages
  | messages, (_, got) :: rest =>
    if limit ≤ (messages.length : Int) then messages
    else
      match got with
      | .error _ => readKeys unmarshal limit messages rest
      | .ok result =>
        match unmarshal result with
        | .error _ => readKeys unmarshal limit messages rest
        | .ok cacheData => readKeys unmarshal limit (messages ++ [cacheData]) rest

/-- The loop `for` of lines 72-103, run against the answers the backend gives to the
successive `SCAN`s; `none` when these answers do not let the loop finish. -/
def scanLoop (unmarshal : String → Except Error SentMessageCache) (limit : Int) :
    List SentMessageCache → List (Except Error ScanPage) →
      Option (Except Error (List SentMessageCache))
  | _, [] => none
  | _, .error err :: _ => some (.error ("failed to scan cache keys: " ++ err))
  | messages, .ok page :: rest =>
    let messages := readKeys unmarshal limit messages page.keys
    if page.nextCursor = 0 ∨ limit ≤ (messages.length : Int) then some (.ok messages)
    else scanLoop unmarshal limit messages rest

/-- The method `messageCacheRepository.GetAllSentMessages` (lines 67-107). -/
def GetAllSentMessages (unmarshal : String → Except Error SentMessageCache)
    (pages : List (Except Error ScanPage)) (limit : Int) :
    Option (Except Error (List SentMessageCache)) :=
  scanLoop unmarshal limit [] pages

/-- Whether a key is read and decoded. -/
def readable (unmarshal : String → Except Error SentMessageCache)
    (entry : String × Except Error String) : Bool :=
  match entry.2 with
  | .error _ => false
  | .ok result =>
    match unmarshal result with
    | .error _ => false
    | .ok _ => true

/-- A page without the keys that cannot be read or decoded. -/
def dropUnreadable (unmarshal : String → Except Error SentMessageCache) :
    Except Error ScanPage → Except Error ScanPage
  | .error err => .error err
  | .ok page =>
    .ok { keys := page.keys.filter (readable unmarshal), nextCursor := page.nextCursor }

/-- Whether an answer ends the scan whatever was read: a failed `SCAN`, or the cursor 0. -/
def lastPage : Except Error ScanPage → Bool
  | .error _ => true
  | .ok page => page.nextCursor = 0

/-- The decoder of the examples: the text `v` followed by a digit from 1 to 5 is the entry of
the message with that id. -/
def decodeEntry (text : String) : Except Error SentMessageCache :=
  if text = "v1" then .ok (cacheEntry 1 1)
  else if text = "v2" then .ok (cacheEntry 2 2)
  else if text = "v3" then .ok (cacheEntry 3 3)
  else if text = "v4" then .ok (cacheEntry 4 4)
  else if text = "v5" then .ok (cacheEntry 5 5)
  else .error "unexpected end of JSON input"

/-- Two pages of keys: on the first, key 2 cannot be read and key 3 cannot be decoded. -/
def twoPages : List (Except Error ScanPage) :=
  [.ok { keys := [("sent_message:1", .ok "v1"), ("sent_message:2", .error "redis: nil"),
                  ("sent_message:3", .ok "garbage")],
         nextCursor := 7 },
   .ok { keys := [("sent_message:4", .ok "v4"), ("sent_message:5", .ok "v5")],
         nextCursor := 0 }]

/-- A store holding two pending messages created forty minutes apart, the first while the
local zone was at +02:00 (wall clock 02:00), the second after the clock was set back to +01:00
(wall clock 01:40). -/
def createdAcrossOffsetChange : DB :=
  (CreateMessage healthy { instant := 2400000000000, zone := 3600 }
    (CreateMessage healthy { instant := 0, zone := 7200 } emptyDB
      "+905551111111" "Message 1").2
    "+905552222222" "Message 2").2

/-- The entries the cache step yields: the cache's answer, and none when the cache read
failed. -/
def cacheAnswer (cacheRepo : CacheRepo) (limit : Int) : List SentMessageCache :=
  match cacheRepo limit with
  | .error _ => []
  | .ok cachedMessages => cachedMessages

/-- A display function for the examples: the instant, in decimal. -/
def showInstant : Time → String := fun t => toString t.instant

/-- A store holding two sent messages: message 1 sent at 12:00 in a zone three hours east of
UTC (09:00 UTC), message 2 sent an hour later, at 10:00 UTC. -/
def sentAcrossOffsets : DB :=
  { rows := [{ id := 1, recipient := "r", content := "m", status := StatusSent,
               external_message_id := "d",
               sent_at := some { instant := 32400000000000, zone := 10800 },
               created_at := atInstant 1, updated_at := atInstant 1 },
             { id := 2, recipient := "r", content := "m", status := StatusSent,
               external_message_id := "d",
               sent_at := some { instant := 36000000000000, zone := 0 },
               created_at := atInstant 2, updated_at := atInstant 2 }],
    seq := 2 }

/-! ## The sorter -/

theorem lessAfter_strictWeak : StrictWeak lessAfter := by
  refine ⟨?_, ?_⟩
  · intro a b h
    simp only [lessAfter, Time.After, decide_eq_true_eq, decide_eq_false_iff_not] at h ⊢
    omega
  · intro a b c h₁ h₂
    simp only [lessAfter, Time.After, decide_eq_false_iff_not] at h₁ h₂ ⊢
    omega

theorem insertLeft_perm (less : sortableMessage → sortableMessage → Bool) (x : sortableMessage) :
    ∀ l, (insertLeft less x l).Perm (x :: l)
  | [] => List.Perm.refl _
  | y :: ys => by
    unfold insertLeft
    split
    · exact ((insertLeft_perm less x ys).cons y).trans (List.Perm.swap x y ys)
    · exact List.Perm.refl _

theorem insertLeft_pairwise {less : sortableMessage → sortableMessage → Bool}
    (hw : StrictWeak less) (x : sortableMessage) :
    ∀ l, l.Pairwise (fun p q => less p q = false) →
      (insertLeft less x l).Pairwise (fun p q => less p q = false)
  | [], _ => by simp [insertLeft]
  | y :: ys, h => by
    have hy := List.pairwise_cons.mp h
    unfold insertLeft
    split
    · rename_i hxy
      refine List.pairwise_cons.mpr ⟨?_, insertLeft_pairwise hw x ys hy.2⟩
      intro z hz
      rcases List.mem_cons.mp ((List.Perm.mem_iff (insertLeft_perm less x ys)).mp hz) with
        rfl | hz
      · exact hw.1 z y hxy
      · exact hy.1 z hz
    · rename_i hxy
      have hxy' : less x y = false := by simpa using hxy
      refine List.pairwise_cons.mpr ⟨?_, h⟩
      intro z hz
      rcases List.mem_cons.mp hz with rfl | hz
      · exact hxy'
      · exact hw.2 x y z hxy' (hy.1 z hz)

theorem foldl_insertLeft_perm (less : sortableMessage → sortableMessage → Bool) :
    ∀ (xs acc : List sortableMessage),
      (xs.foldl (fun acc x => insertLeft less x acc) acc).Perm (xs.reverse ++ acc)
  | [], acc => by simp
  | x :: xs, acc => by
    simp only [List.foldl_cons, List.reverse_cons, List.append_assoc, List.singleton_append]
    exact (foldl_insertLeft_perm less xs _).trans
      (List.Perm.append_left _ (insertLeft_perm less x acc))

theorem foldl_insertLeft_pairwise {less : sortableMessage → sortableMessage → Bool}
    (hw : StrictWeak less) :
    ∀ (xs acc : List sortableMessage), acc.Pairwise (fun p q => less p q = false) →
      (xs.foldl (fun acc x => insertLeft less x acc) acc).Pairwise
        (fun p q => less p q = false)
  | [], _, h => h
  | x :: xs, acc, h => by
    simp only [List.foldl_cons]
    exact foldl_insertLeft_pairwise hw xs _ (insertLeft_pairwise hw x acc h)

/-- The standard library's insertion sort meets the contract of `sort.Slice`. -/
theorem insertionSort_spec : SortSliceSpec insertionSort := by
  intro less xs hw
  refine ⟨?_, ?_⟩
  · unfold insertionSort
    refine (List.reverse_perm _).trans ((foldl_insertLeft_perm less xs []).trans ?_)
    simp
  · unfold insertionSort
    rw [List.pairwise_reverse]
    exact foldl_insertLeft_pairwise hw xs [] List.Pairwise.nil

/-! ## The two loops -/

theorem readFirst_eq (sortable : List sortableMessage) :
    ∀ (n i : Nat), i + n ≤ sortable.length →
      readFirst sortable i n = some ((sortable.drop i).take n)
  | 0, i, _ => by simp [readFirst]
  | n + 1, i, h => by
    have hi : i < sortable.length := by omega
    have hrest := readFirst_eq sortable n (i + 1) (by omega)
    rw [readFirst, List.getElem?_eq_getElem hi, hrest]
    simp only [Option.some.injEq]
    rw [List.drop_eq_getElem_cons hi, List.take_succ_cons]

theorem appendFromStore_eq (format : Time → String) (cachedIDs : List Int) (limit : Int) :
    ∀ (dbMessages : List Message) (sortable : List sortableMessage),
      (sortable.length : Int) < limit →
      appendFromStore format cachedIDs limit sortable dbMessages =
        sortable ++
          (appended cachedIDs (limit.toNat - sortable.length) dbMessages).map (fromStore format)
  | [], sortable, _ => by simp [appendFromStore, appended]
  | msg :: rest, sortable, h => by
    unfold appendFromStore
    by_cases hc : cachedIDs.contains msg.ID = true
    · rw [if_pos hc, appendFromStore_eq format cachedIDs limit rest sortable h]
      have hm : msg.ID ∈ cachedIDs := by simpa using hc
      simp [appended, hm]
    · rw [if_neg hc]
      have hc' : msg.ID ∉ cachedIDs := by simpa using hc
      have hplaces : limit.toNat - sortable.length =
          (limit.toNat - (sortable.length + 1)) + 1 := by omega
      simp only [List.length_append, List.length_singleton, Nat.cast_add, Nat.cast_one]
      by_cases hfull : limit ≤ (sortable.length : Int) + 1
      · rw [if_pos hfull]
        have hone : limit.toNat - sortable.length = 1 := by omega
        simp [appended, hc', hone, List.filter_cons]
      · rw [if_neg hfull]
        have hlt : ((sortable ++ [fromStore format msg]).length : Int) < limit := by
          simp only [List.length_append, List.length_singleton, Nat.cast_add, Nat.cast_one]
          omega
        rw [appendFromStore_eq format cachedIDs limit rest _ hlt]
        simp only [List.length_append, List.length_singleton]
        rw [hplaces]
        simp [appended, hc', List.filter_cons]

/-! ## The return paths of `ListSentMessages` -/

theorem sortableFromCache_ok {format : Time → String} {cacheRepo : CacheRepo} {limit : Int}
    {cachedMessages : List SentMessageCache} (h : cacheRepo limit = .ok cachedMessages) :
    sortableFromCache format cacheRepo limit = cachedMessages.map (fromCache format) := by
  unfold sortableFromCache
  rw [h]
  cases cachedMessages <;> simp

theorem sortableFromCache_error {format : Time → String} {cacheRepo : CacheRepo} {limit : Int}
    {e : Error} (h : cacheRepo limit = .error e) :
    sortableFromCache format cacheRepo limit = [] := by
  unfold sortableFromCache
  rw [h]

/-- First return path: the cache alone fills the limit. -/
theorem listSentSortable_cacheFull {sortSlice : SortFn} (hs : SortSliceSpec sortSlice)
    (format : Time → String) (cacheRepo : CacheRepo) (repo : StoreRepo) {limit : Int}
    (h0 : 0 ≤ limit)
    (hfull : limit ≤ ((sortableFromCache format cacheRepo limit).length : Int)) :
    listSentSortable sortSlice format cacheRepo repo limit =
      { result := .ok ((sortSlice lessAfter (sortableFromCache format cacheRepo limit)).take
          limit.toNat),
        calls := [.GetAllSentMessages limit] } := by
  have hlen := ((hs lessAfter (sortableFromCache format cacheRepo limit)
    lessAfter_strictWeak).1).length_eq
  have hread := readFirst_eq (sortSlice lessAfter (sortableFromCache format cacheRepo limit))
    limit.toNat 0 (by omega)
  simp only [listSentSortable, if_pos hfull, if_neg (not_lt.mpr h0), hread, List.drop_zero]

/-- Second and third return paths: the store fails. -/
theorem listSentSortable_storeError (sortSlice : SortFn)
    (format : Time → String) (cacheRepo : CacheRepo) (repo : StoreRepo) {limit : Int} {e : Error}
    (hlt : ((sortableFromCache format cacheRepo limit).length : Int) < limit)
    (he : repo (limit - ((sortableFromCache format cacheRepo limit).length : Int)) = .error e) :
    listSentSortable sortSlice format cacheRepo repo limit =
      { result :=
          if 0 < (sortableFromCache format cacheRepo limit).length then
            .ok (sortSlice lessAfter (sortableFromCache format cacheRepo limit))
          else .err e,
        calls := [.GetAllSentMessages limit,
          .GetSentMessages (limit - ((sortableFromCache format cacheRepo limit).length : Int))] } := by
  simp only [listSentSortable, if_neg (not_le.mpr hlt), he]
  split <;> rfl

/-- Fourth return path: the store answers and its records are merged in. -/
theorem listSentSortable_storeOk (sortSlice : SortFn)
    (format : Time → String) (cacheRepo : CacheRepo) (repo : StoreRepo) {limit : Int}
    {dbMessages : List Message}
    (hlt : ((sortableFromCache format cacheRepo limit).length : Int) < limit)
    (hok : repo (limit - ((sortableFromCache format cacheRepo limit).length : Int)) =
      .ok dbMessages) :
    listSentSortable sortSlice format cacheRepo repo limit =
      { result := .ok (sortSlice lessAfter
          (sortableFromCache format cacheRepo limit ++
            (appended ((sortableFromCache format cacheRepo limit).map
                (fun s => s.response.MessageID))
              (limit.toNat - (sortableFromCache format cacheRepo limit).length)
              dbMessages).map (fromStore format))),
        calls := [.GetAllSentMessages limit,
          .GetSentMessages (limit - ((sortableFromCache format cacheRepo limit).length : Int))] } := by
  simp only [listSentSortable, if_neg (not_le.mpr hlt), hok]
  rw [appendFromStore_eq format _ limit dbMessages _ hlt]

/-- A sorted slice is in descending order of sent-at: no entry is earlier than a later one. -/
theorem sortSlice_descending {sortSlice : SortFn} (hs : SortSliceSpec sortSlice)
    (xs : List sortableMessage) :
    (sortSlice lessAfter xs).Pairwise (fun a b => b.sentAt.instant ≤ a.sentAt.instant) := by
  refine ((hs lessAfter xs lessAfter_strictWeak).2).imp ?_
  intro a b h
  simp only [lessAfter, Time.After, decide_eq_false_iff_not] at h
  omega

theorem sortSlice_length {sortSlice : SortFn} (hs : SortSliceSpec sortSlice)
    (xs : List sortableMessage) : (sortSlice lessAfter xs).length = xs.length :=
  ((hs lessAfter xs lessAfter_strictWeak).1).length_eq

theorem appended_length_le (cachedIDs : List Int) (places : Nat) (dbMessages : List Message) :
    (appended cachedIDs places dbMessages).length ≤ places := by
  unfold appended
  rw [List.length_take]
  exact Nat.min_le_left _ _

/-- Every successful return hands back the first `limit` entries of the sorted merge of the
cached entries with the store records that were appended (none when the store was not asked
or failed). -/
theorem listSentSortable_ok {sortSlice : SortFn} (hs : SortSliceSpec sortSlice)
    (format : Time → String) (cacheRepo : CacheRepo) (repo : StoreRepo) {limit : Int}
    (hl : 0 < limit) {ss : List sortableMessage}
    (h : (listSentSortable sortSlice format cacheRepo repo limit).result = .ok ss) :
    ∃ extra : List Message,
      (extra = [] ∨ ∃ dbMessages,
        repo (limit - ((sortableFromCache format cacheRepo limit).length : Int)) = .ok dbMessages ∧
        extra = appended
          ((sortableFromCache format cacheRepo limit).map (fun s => s.response.MessageID))
          (limit.toNat - (sortableFromCache format cacheRepo limit).length) dbMessages) ∧
      ss = (sortSlice lessAfter
        (sortableFromCache format cacheRepo limit ++ extra.map (fromStore format))).take
          limit.toNat := by
  by_cases hfull : limit ≤ ((sortableFromCache format cacheRepo limit).length : Int)
  · rw [listSentSortable_cacheFull hs format cacheRepo repo hl.le hfull] at h
    refine ⟨[], Or.inl rfl, ?_⟩
    simp only [Result.ok.injEq] at h
    simp [← h]
  · have hlt := not_le.mp hfull
    cases hrepo : repo (limit - ((sortableFromCache format cacheRepo limit).length : Int)) with
    | error e =>
      rw [listSentSortable_storeError sortSlice format cacheRepo repo hlt hrepo] at h
      refine ⟨[], Or.inl rfl, ?_⟩
      simp only at h
      split at h
      · simp only [Result.ok.injEq] at h
        have hlen := ((hs lessAfter (sortableFromCache format cacheRepo limit)
          lessAfter_strictWeak).1).length_eq
        simp only [List.map_nil, List.append_nil]
        rw [List.take_of_length_le (by omega)]
        exact h.symm
      · cases h
    | ok dbMessages =>
      rw [listSentSortable_storeOk sortSlice format cacheRepo repo hlt hrepo] at h
      refine ⟨_, Or.inr ⟨dbMessages, rfl, rfl⟩, ?_⟩
      simp only [Result.ok.injEq] at h
      have hap := appended_length_le
        ((sortableFromCache format cacheRepo limit).map (fun s => s.response.MessageID))
        (limit.toNat - (sortableFromCache format cacheRepo limit).length) dbMessages
      rw [← h]
      symm
      apply List.take_of_length_le
      rw [sortSlice_length hs]
      simp only [List.length_append, List.length_map]
      omega

theorem ListSentMessages_ok {sortSlice : SortFn} {format : Time → String}
    {cacheRepo : CacheRepo} {repo : StoreRepo} {limit : Int} {rs : List SentMessageResponse}
    (h : (ListSentMessages sortSlice format cacheRepo repo limit).result = .ok rs) :
    ∃ ss, (listSentSortable sortSlice format cacheRepo repo limit).result = .ok ss ∧
      rs = ss.map (fun s => s.response) := by
  unfold ListSentMessages at h
  simp only at h
  cases hr : (listSentSortable sortSlice format cacheRepo repo limit).result with
  | ok ss =>
    rw [hr] at h
    simp only [Result.map, Result.ok.injEq] at h
    exact ⟨ss, rfl, h.symm⟩
  | err e => rw [hr] at h; simp [Result.map] at h
  | panic => rw [hr] at h; simp [Result.map] at h

theorem sortableFromCache_ids_nodup {format : Time → String} {cacheRepo : CacheRepo}
    {limit : Int}
    (hcache : ∀ cs, cacheRepo limit = .ok cs → (cs.map (fun c => c.MessageID)).Nodup) :
    ((sortableFromCache format cacheRepo limit).map (fun s => s.response.MessageID)).Nodup := by
  cases hc : cacheRepo limit with
  | error e => rw [sortableFromCache_error hc]; exact List.nodup_nil
  | ok cs =>
    rw [sortableFromCache_ok hc, List.map_map]
    exact hcache cs hc

theorem appended_sublist (cachedIDs : List Int) (places : Nat) (dbMessages : List Message) :
    (appended cachedIDs places dbMessages).Sublist dbMessages :=
  (List.take_sublist _ _).trans (List.filter_sublist _)

theorem appended_not_cached {cachedIDs : List Int} {places : Nat} {dbMessages : List Message}
    {msg : Message} (h : msg ∈ appended cachedIDs places dbMessages) : msg.ID ∉ cachedIDs := by
  have hf := List.mem_of_mem_take h
  simpa using (List.mem_filter.mp hf).2

theorem ListSentMessages_result (sortSlice : SortFn) (format : Time → String)
    (cacheRepo : CacheRepo) (repo : StoreRepo) (limit : Int) :
    (ListSentMessages sortSlice format cacheRepo repo limit).result =
      (listSentSortable sortSlice format cacheRepo repo limit).result.map
        (List.map (fun s => s.response)) := rfl

theorem ListSentMessages_calls (sortSlice : SortFn) (format : Time → String)
    (cacheRepo : CacheRepo) (repo : StoreRepo) (limit : Int) :
    (ListSentMessages sortSlice format cacheRepo repo limit).calls =
      (listSentSortable sortSlice format cacheRepo repo limit).calls := rfl

/-- The text shown as sent-at in a view is the formatted time the entry is sorted by. -/
theorem sortableFromCache_sentAt {format : Time → String} {cacheRepo : CacheRepo} {limit : Int}
    {s : sortableMessage} (h : s ∈ sortableFromCache format cacheRepo limit) :
    s.response.SentAt = format s.sentAt := by
  cases hc : cacheRepo limit with
  | error e => rw [sortableFromCache_error hc] at h; cases h
  | ok cs =>
    rw [sortableFromCache_ok hc] at h
    obtain ⟨c, -, rfl⟩ := List.mem_map.mp h
    rfl

/-- A descending list without two equal sent-at instants is strictly descending. -/
theorem strictly_descending_of_nodup {ss : List sortableMessage}
    (hd : ss.Pairwise (fun a b => b.sentAt.instant ≤ a.sentAt.instant))
    (hn : (instants ss).Nodup) :
    ss.Pairwise (fun a b => b.sentAt.instant < a.sentAt.instant) := by
  unfold instants at hn
  have hne := List.pairwise_map.mp hn
  refine (hd.and hne).imp ?_
  intro a b hab
  have h₁ := hab.1
  have h₂ := hab.2
  omega

theorem appended_nil (places : Nat) (dbMessages : List Message) :
    appended [] places dbMessages = dbMessages.take places := by
  simp [appended]

theorem appended_of_fits (cachedIDs : List Int) {places : Nat} {dbMessages : List Message}
    (h : dbMessages.length ≤ places) :
    appended cachedIDs places dbMessages =
      dbMessages.filter (fun msg => !cachedIDs.contains msg.ID) := by
  unfold appended
  exact List.take_of_length_le ((List.length_filter_le _ _).trans h)

theorem sortableFromCache_length_eq_zero (format : Time → String) (cacheRepo : CacheRepo)
    (limit : Int) :
    (sortableFromCache format cacheRepo limit).length = 0 ↔
      ((∃ e, cacheRepo limit = .error e) ∨ cacheRepo limit = .ok []) := by
  cases hc : cacheRepo limit with
  | error e => simp [sortableFromCache_error hc]
  | ok cs => simp [sortableFromCache_ok hc]

/-- The ids of a merge are pairwise distinct when the cached ids are, the appended records
come from a store answer with distinct ids, and none of them is cached. -/
theorem merged_ids_nodup {format : Time → String} {cached : List sortableMessage}
    {extra dbMessages : List Message}
    (hcached : (cached.map (fun s => s.response.MessageID)).Nodup)
    (hsub : extra.Sublist dbMessages) (hdb : (dbMessages.map (fun m => m.ID)).Nodup)
    (hnot : ∀ m ∈ extra, m.ID ∉ cached.map (fun s => s.response.MessageID)) :
    ((cached ++ extra.map (fromStore format)).map (fun s => s.response.MessageID)).Nodup := by
  rw [List.map_append, List.map_map]
  refine List.nodup_append.mpr ⟨hcached, List.Nodup.sublist (hsub.map _) hdb, ?_⟩
  intro id hid hid'
  obtain ⟨msg, hmsg, rfl⟩ := List.mem_map.mp hid'
  exact hnot msg hmsg hid

/-! ## Claims about `ListSentMessages` -/

/-- C1. For every limit > 0 and every outcome of the cache query and of the store query (an
error or any list, the store's possibly longer than requested), a successful
`ListSentMessages(limit)` returns at most `limit` entries. -/
theorem C1_at_most_limit (sortSlice : SortFn) (hs : SortSliceSpec sortSlice)
    (format : Time → String) (cacheRepo : CacheRepo) (repo : StoreRepo) (limit : Int)
    (hl : 0 < limit) (rs : List SentMessageResponse)
    (h : (ListSentMessages sortSlice format cacheRepo repo limit).result = .ok rs) :
    (rs.length : Int) ≤ limit := by
  obtain ⟨ss, hss, rfl⟩ := ListSentMessages_ok h
  obtain ⟨extra, -, rfl⟩ := listSentSortable_ok hs format cacheRepo repo hl hss
  simp only [List.length_map, List.length_take]
  omega

/-- C1, at a store that returns three records when one is requested: two entries come back. -/
theorem C1_at_most_limit_witness :
    (ListSentMessages insertionSort noFormat (fun _ => .ok [cacheEntry 1 5])
        (fun _ => .ok [storeRecord 2 4, storeRecord 3 3, storeRecord 4 2]) 2).result =
      .ok [(fromCache noFormat (cacheEntry 1 5)).response,
           (fromStore noFormat (storeRecord 2 4)).response] ∧
    ((2 : Nat) : Int) ≤ 2 :=
  ⟨by decide,
   C1_at_most_limit insertionSort insertionSort_spec noFormat (fun _ => .ok [cacheEntry 1 5])
     (fun _ => .ok [storeRecord 2 4, storeRecord 3 3, storeRecord 4 2]) 2 (by decide)
     [(fromCache noFormat (cacheEntry 1 5)).response,
      (fromStore noFormat (storeRecord 2 4)).response] (by decide)⟩

/-- C2, as stated, fails: a cache answer that lists message 1 twice (a key scan may report a
key more than once) is returned with both copies, and so is a store answer that lists a
message twice. -/
theorem C2_counterexample :
    ((ListSentMessages insertionSort noFormat (fun _ => .ok [cacheEntry 1 5, cacheEntry 1 5])
        (fun _ => .ok []) 2).result.map ids = .ok [1, 1] ∧
     (ListSentMessages insertionSort noFormat (fun _ => .ok [])
        (fun _ => .ok [storeRecord 1 5, storeRecord 1 5]) 2).result.map ids = .ok [1, 1]) ∧
    ¬ ([1, 1] : List Int).Nodup := by
  decide

/-- C2, amended. For every limit > 0, if the cache's answer holds no message id twice and the
store's answer holds no message id twice, a successful `ListSentMessages(limit)` result never
contains two entries with the same message id. -/
theorem C2_distinct_ids (sortSlice : SortFn) (hs : SortSliceSpec sortSlice)
    (format : Time → String) (cacheRepo : CacheRepo) (repo : StoreRepo) (limit : Int)
    (hl : 0 < limit) (rs : List SentMessageResponse)
    (hcache : ∀ cs, cacheRepo limit = .ok cs → (cs.map (fun c => c.MessageID)).Nodup)
    (hstore : ∀ n db, repo n = .ok db → (db.map (fun m => m.ID)).Nodup)
    (h : (ListSentMessages sortSlice format cacheRepo repo limit).result = .ok rs) :
    (ids rs).Nodup := by
  obtain ⟨ss, hss, rfl⟩ := ListSentMessages_ok h
  obtain ⟨extra, hextra, rfl⟩ := listSentSortable_ok hs format cacheRepo repo hl hss
  unfold ids
  rw [List.map_map]
  refine List.Nodup.sublist ((List.take_sublist _ _).map _) ?_
  rw [((hs lessAfter _ lessAfter_strictWeak).1.map _).nodup_iff, List.map_append, List.map_map]
  refine List.nodup_append.mpr ⟨sortableFromCache_ids_nodup hcache, ?_, ?_⟩
  · rcases hextra with rfl | ⟨db, hdb, rfl⟩
    · exact List.nodup_nil
    · exact List.Nodup.sublist ((appended_sublist _ _ db).map _) (hstore _ db hdb)
  · rcases hextra with rfl | ⟨db, hdb, rfl⟩
    · simp
    · intro id hid hid'
      obtain ⟨msg, hmsg, rfl⟩ := List.mem_map.mp hid'
      exact appended_not_cached hmsg hid

/-- C2 amended, at a cache holding messages 1 and 2 and a store answering with 2 and 3. -/
theorem C2_distinct_ids_witness :
    (ids [(fromCache noFormat (cacheEntry 1 9)).response,
          (fromCache noFormat (cacheEntry 2 8)).response,
          (fromStore noFormat (storeRecord 3 7)).response]).Nodup :=
  C2_distinct_ids insertionSort insertionSort_spec noFormat
    (fun _ => .ok [cacheEntry 1 9, cacheEntry 2 8])
    (fun _ => .ok [storeRecord 2 8, storeRecord 3 7]) 5 (by decide) _
    (fun cs hcs => by cases hcs; decide)
    (fun _ db hdb => by cases hdb; decide)
    (by decide)

/-- C3, as stated, fails: two cached messages sent at the same instant are both returned, so
the first one's sent-at is not strictly later than the second one's. -/
theorem C3_counterexample :
    (listSentSortable insertionSort noFormat (fun _ => .ok [cacheEntry 1 5, cacheEntry 2 5])
        (fun _ => .ok []) 2).result.map instants = .ok [5, 5] ∧
    (ListSentMessages insertionSort noFormat (fun _ => .ok [cacheEntry 1 5, cacheEntry 2 5])
        (fun _ => .ok []) 2).result.map ids = .ok [1, 2] ∧
    ¬ List.Chain' (fun a b : Int => b < a) [5, 5] := by
  refine ⟨by decide, by decide, ?_⟩
  simp

/-- C3, amended. For every limit > 0 and every response of the cache and of the store, a
successful `ListSentMessages(limit)` result is sorted by sent-at descending, ties allowed: each
entry's sent-at is later than or equal to the sent-at of the entry that follows it, and
strictly later when no two returned entries have the same sent-at.  The sent-at text of each
view is the formatted time it was sorted by. -/
theorem C3_descending (sortSlice : SortFn) (hs : SortSliceSpec sortSlice)
    (format : Time → String) (cacheRepo : CacheRepo) (repo : StoreRepo) (limit : Int)
    (hl : 0 < limit) (rs : List SentMessageResponse)
    (h : (ListSentMessages sortSlice format cacheRepo repo limit).result = .ok rs) :
    ∃ ss, (listSentSortable sortSlice format cacheRepo repo limit).result = .ok ss ∧
      rs = ss.map (fun s => s.response) ∧
      (∀ s ∈ ss, s.response.SentAt = format s.sentAt) ∧
      ss.Chain' (fun a b => b.sentAt.instant ≤ a.sentAt.instant) ∧
      ((instants ss).Nodup → ss.Chain' (fun a b => b.sentAt.instant < a.sentAt.instant)) := by
  obtain ⟨ss, hss, rfl⟩ := ListSentMessages_ok h
  refine ⟨ss, hss, rfl, ?_⟩
  obtain ⟨extra, -, rfl⟩ := listSentSortable_ok hs format cacheRepo repo hl hss
  have hd := (sortSlice_descending hs
    (sortableFromCache format cacheRepo limit ++ extra.map (fromStore format))).sublist
      (List.take_sublist limit.toNat _)
  refine ⟨?_, hd.chain', fun hn => (strictly_descending_of_nodup hd hn).chain'⟩
  intro s hsmem
  have hmem := ((hs lessAfter _ lessAfter_strictWeak).1.mem_iff).mp (List.mem_of_mem_take hsmem)
  rcases List.mem_append.mp hmem with hc | he
  · exact sortableFromCache_sentAt hc
  · obtain ⟨m, -, rfl⟩ := List.mem_map.mp he
    rfl

/-- C3 amended, at a cache holding two messages sent at the same instant and one sent later. -/
theorem C3_descending_witness :
    ∃ ss, (listSentSortable insertionSort noFormat
        (fun _ => .ok [cacheEntry 1 5, cacheEntry 2 5, cacheEntry 3 6])
        (fun _ => .ok []) 3).result = .ok ss ∧
      [(fromCache noFormat (cacheEntry 3 6)).response,
       (fromCache noFormat (cacheEntry 1 5)).response,
       (fromCache noFormat (cacheEntry 2 5)).response] = ss.map (fun s => s.response) ∧
      (∀ s ∈ ss, s.response.SentAt = noFormat s.sentAt) ∧
      ss.Chain' (fun a b => b.sentAt.instant ≤ a.sentAt.instant) ∧
      ((instants ss).Nodup → ss.Chain' (fun a b => b.sentAt.instant < a.sentAt.instant)) :=
  C3_descending insertionSort insertionSort_spec noFormat
    (fun _ => .ok [cacheEntry 1 5, cacheEntry 2 5, cacheEntry 3 6]) (fun _ => .ok []) 3
    (by decide) _ (by decide)

/-! ## The entries of a successful result -/

theorem sortableFromCache_length (format : Time → String) (cacheRepo : CacheRepo) (limit : Int) :
    (sortableFromCache format cacheRepo limit).length = cacheYield cacheRepo limit := by
  unfold sortableFromCache cacheYield
  cases cacheRepo limit with
  | error e => rfl
  | ok cs =>
    by_cases h : 0 < cs.length
    · simp [h]
    · have h0 : cs.length = 0 := by omega
      simp [h0]

theorem sortableFromCache_eq_map (format : Time → String) (cacheRepo : CacheRepo) (limit : Int) :
    sortableFromCache format cacheRepo limit =
      (cacheAnswer cacheRepo limit).map (fromCache format) := by
  unfold sortableFromCache cacheAnswer
  cases cacheRepo limit with
  | error e => rfl
  | ok cs =>
    by_cases h : 0 < cs.length
    · simp [h]
    · have h0 : cs = [] := List.length_eq_zero.mp (by omega)
      simp [h0]

/-- A successful run returns entries sorted by their sort key, newest first, each built from an
entry of the cache's answer or from a record of the store's answer. -/
theorem listSentSortable_entries {sortSlice : SortFn} (hs : SortSliceSpec sortSlice)
    (format : Time → String) (cacheRepo : CacheRepo) (repo : StoreRepo) {limit : Int}
    (hl : 0 < limit) {ss : List sortableMessage}
    (h : (listSentSortable sortSlice format cacheRepo repo limit).result = .ok ss) :
    ss.Pairwise (fun a b => b.sentAt.instant ≤ a.sentAt.instant) ∧
    ∀ s ∈ ss,
      (∃ c ∈ cacheAnswer cacheRepo limit, s = fromCache format c) ∨
      (∃ dbMessages, repo (limit - (cacheYield cacheRepo limit : Int)) = .ok dbMessages ∧
        ∃ m ∈ dbMessages, s = fromStore format m) := by
  obtain ⟨extra, hextra, rfl⟩ := listSentSortable_ok hs format cacheRepo repo hl h
  rw [sortableFromCache_length] at hextra
  refine ⟨(sortSlice_descending hs _).sublist (List.take_sublist limit.toNat _), ?_⟩
  intro s hs'
  have hmem := ((hs lessAfter _ lessAfter_strictWeak).1.mem_iff).mp (List.mem_of_mem_take hs')
  rcases List.mem_append.mp hmem with hc | he
  · rw [sortableFromCache_eq_map] at hc
    obtain ⟨c, hcin, rfl⟩ := List.mem_map.mp hc
    exact Or.inl ⟨c, hcin, rfl⟩
  · obtain ⟨m, hmin, rfl⟩ := List.mem_map.mp he
    rcases hextra with rfl | ⟨db, hdb, rfl⟩
    · cases hmin
    · exact Or.inr ⟨db, hdb, m, (appended_sublist _ _ db).subset hmin, rfl⟩

/-- Each of the three successful return paths returns a list. -/
theorem listSentSortable_paths {sortSlice : SortFn} (hs : SortSliceSpec sortSlice)
    (format : Time → String) (cacheRepo : CacheRepo) (repo : StoreRepo) {limit : Int}
    (hl : 0 < limit)
    (hpath : limit ≤ (cacheYield cacheRepo limit : Int) ∨
      ((cacheYield cacheRepo limit : Int) < limit ∧ 0 < cacheYield cacheRepo limit ∧
        ∃ e, repo (limit - (cacheYield cacheRepo limit : Int)) = .error e) ∨
      ((cacheYield cacheRepo limit : Int) < limit ∧
        ∃ dbMessages, repo (limit - (cacheYield cacheRepo limit : Int)) = .ok dbMessages)) :
    ∃ ss, (listSentSortable sortSlice format cacheRepo repo limit).result = .ok ss := by
  have hlen := sortableFromCache_length format cacheRepo limit
  rcases hpath with hfull | ⟨hlt, hpos, e, he⟩ | ⟨hlt, dbMessages, hok⟩
  · rw [listSentSortable_cacheFull hs format cacheRepo repo hl.le (by rw [hlen]; exact hfull)]
    exact ⟨_, rfl⟩
  · rw [listSentSortable_storeError sortSlice format cacheRepo repo (by rw [hlen]; exact hlt)
      (by rw [hlen]; exact he)]
    simp only [hlen, if_pos hpos]
    exact ⟨_, rfl⟩
  · rw [listSentSortable_storeOk sortSlice format cacheRepo repo (by rw [hlen]; exact hlt)
      (by rw [hlen]; exact hok)]
    exact ⟨_, rfl⟩

/-- C4. On each of its three successful return paths (the cache alone fills the limit; the
store failed and cached entries are available; the cache is merged with the store's answer)
`ListSentMessages` succeeds and returns the entries newest first, whatever order the cache and
the store delivered them in: the returned views are those of a list of entries in which no
entry has a sent-at earlier than that of any entry after it, and each entry is the view of an
entry of the cache's answer or of a record of the store's answer (its id, external id,
recipient and content, and its sent-at formatted) together with that sent-at. -/
theorem C4_newest_first (sortSlice : SortFn) (hs : SortSliceSpec sortSlice)
    (format : Time → String) (cacheRepo : CacheRepo) (repo : StoreRepo) (limit : Int)
    (hl : 0 < limit)
    (hpath : limit ≤ (cacheYield cacheRepo limit : Int) ∨
      ((cacheYield cacheRepo limit : Int) < limit ∧ 0 < cacheYield cacheRepo limit ∧
        ∃ e, repo (limit - (cacheYield cacheRepo limit : Int)) = .error e) ∨
      ((cacheYield cacheRepo limit : Int) < limit ∧
        ∃ dbMessages, repo (limit - (cacheYield cacheRepo limit : Int)) = .ok dbMessages)) :
    ∃ ss : List sortableMessage,
      (listSentSortable sortSlice format cacheRepo repo limit).result = .ok ss ∧
      (ListSentMessages sortSlice format cacheRepo repo limit).result =
        .ok (ss.map (fun s => s.response)) ∧
      ss.Pairwise (fun a b => b.sentAt.instant ≤ a.sentAt.instant) ∧
      ∀ s ∈ ss,
        (∃ c ∈ cacheAnswer cacheRepo limit,
          s.sentAt = c.SentAt ∧
          s.response =
            { MessageID := c.MessageID, ExternalMessageID := c.ExternalMessageID, To := c.To,
              Content := c.Content, SentAt := format c.SentAt }) ∨
        (∃ dbMessages, repo (limit - (cacheYield cacheRepo limit : Int)) = .ok dbMessages ∧
          ∃ m ∈ dbMessages,
            s.sentAt = m.SentAt ∧
            s.response =
              { MessageID := m.ID, ExternalMessageID := m.ExternalMessageID, To := m.To,
                Content := m.Content, SentAt := format m.SentAt }) := by
  obtain ⟨ss, hss⟩ := listSentSortable_paths hs format cacheRepo repo hl hpath
  obtain ⟨hsorted, hfrom⟩ := listSentSortable_entries hs format cacheRepo repo hl hss
  refine ⟨ss, hss, ?_, hsorted, fun s hmem => ?_⟩
  · rw [ListSentMessages_result, hss]
    rfl
  · rcases hfrom s hmem with ⟨c, hc, rfl⟩ | ⟨db, hdb, m, hm, rfl⟩
    · exact Or.inl ⟨c, hc, rfl, rfl⟩
    · exact Or.inr ⟨db, hdb, m, hm, rfl, rfl⟩

/-- C4, on the inputs of the repository's tests: one old cached message merged with two newer
store records delivered oldest first comes back as 3, 2, 1; and three cached messages
delivered oldest, newest, middle come back newest first, for limit 3 and for limit 10 with a
failing store. -/
theorem C4_newest_first_witness :
    ((ListSentMessages insertionSort showInstant (fun _ => .ok [cacheEntry 1 (-3)])
        (fun _ => .ok [storeRecord 2 (-2), storeRecord 3 (-1)]) 10).result =
      .ok [{ MessageID := 3, ExternalMessageID := "d", To := "r", Content := "m",
             SentAt := "-1" },
           { MessageID := 2, ExternalMessageID := "d", To := "r", Content := "m",
             SentAt := "-2" },
           { MessageID := 1, ExternalMessageID := "c", To := "r", Content := "m",
             SentAt := "-3" }] ∧
     (ListSentMessages insertionSort showInstant
        (fun _ => .ok [cacheEntry 3 (-3), cacheEntry 1 (-1), cacheEntry 2 (-2)])
        (fun _ => .ok []) 3).result.map ids = .ok [1, 2, 3] ∧
     (ListSentMessages insertionSort showInstant
        (fun _ => .ok [cacheEntry 3 (-3), cacheEntry 1 (-1), cacheEntry 2 (-2)])
        (fun _ => .error "store down") 10).result.map ids = .ok [1, 2, 3]) ∧
    ∃ ss : List sortableMessage,
      (listSentSortable insertionSort showInstant (fun _ => .ok [cacheEntry 1 (-3)])
        (fun _ => .ok [storeRecord 2 (-2), storeRecord 3 (-1)]) 10).result = .ok ss ∧
      (ListSentMessages insertionSort showInstant (fun _ => .ok [cacheEntry 1 (-3)])
        (fun _ => .ok [storeRecord 2 (-2), storeRecord 3 (-1)]) 10).result =
        .ok (ss.map (fun s => s.response)) ∧
      ss.Pairwise (fun a b => b.sentAt.instant ≤ a.sentAt.instant) ∧
      ∀ s ∈ ss,
        (∃ c ∈ cacheAnswer (fun _ => .ok [cacheEntry 1 (-3)]) 10,
          s.sentAt = c.SentAt ∧
          s.response =
            { MessageID := c.MessageID, ExternalMessageID := c.ExternalMessageID, To := c.To,
              Content := c.Content, SentAt := showInstant c.SentAt }) ∨
        (∃ dbMessages,
          (fun _ => .ok [storeRecord 2 (-2), storeRecord 3 (-1)] : StoreRepo)
            (10 - (cacheYield (fun _ => .ok [cacheEntry 1 (-3)]) 10 : Int)) = .ok dbMessages ∧
          ∃ m ∈ dbMessages,
            s.sentAt = m.SentAt ∧
            s.response =
              { MessageID := m.ID, ExternalMessageID := m.ExternalMessageID, To := m.To,
                Content := m.Content, SentAt := showInstant m.SentAt }) :=
  ⟨⟨by decide, by decide, by decide⟩,
   C4_newest_first insertionSort insertionSort_spec showInstant
     (fun _ => .ok [cacheEntry 1 (-3)])
     (fun _ => .ok [storeRecord 2 (-2), storeRecord 3 (-1)]) 10 (by decide)
     (Or.inr (Or.inr ⟨by decide, _, rfl⟩))⟩

/-- C5. For every limit > 0, if the cache query succeeds with at least `limit` entries,
`ListSentMessages(limit)` does not query the store at all: the only repository call is the
cache query, no `GetSentMessages` call is made, and the whole outcome is the same whatever the
store would have returned, a store failure included. -/
theorem C5_store_not_queried (sortSlice : SortFn) (format : Time → String)
    (cacheRepo : CacheRepo) (limit : Int) (hl : 0 < limit)
    (cachedMessages : List SentMessageCache) (hc : cacheRepo limit = .ok cachedMessages)
    (hfull : limit ≤ (cachedMessages.length : Int)) :
    (∀ repo : StoreRepo,
      (ListSentMessages sortSlice format cacheRepo repo limit).calls =
        [.GetAllSentMessages limit] ∧
      ∀ n, Call.GetSentMessages n ∉
        (ListSentMessages sortSlice format cacheRepo repo limit).calls) ∧
    (∀ repo repo' : StoreRepo,
      ListSentMessages sortSlice format cacheRepo repo limit =
        ListSentMessages sortSlice format cacheRepo repo' limit) := by
  have hfull' : limit ≤ ((sortableFromCache format cacheRepo limit).length : Int) := by
    rw [sortableFromCache_ok hc, List.length_map]
    exact hfull
  have hcalls : ∀ repo : StoreRepo,
      (ListSentMessages sortSlice format cacheRepo repo limit).calls =
        [.GetAllSentMessages limit] := by
    intro repo
    simp only [ListSentMessages, listSentSortable, if_pos hfull', if_neg (not_lt.mpr hl.le)]
    split <;> rfl
  refine ⟨fun repo => ⟨hcalls repo, ?_⟩, ?_⟩
  · intro n hn
    rw [hcalls repo] at hn
    simp at hn
  · intro repo repo'
    simp only [ListSentMessages, listSentSortable, if_pos hfull']

/-- C5, at a cache holding two entries for limit 2, with a store that fails and one that
answers. -/
theorem C5_store_not_queried_witness :
    (∀ repo : StoreRepo,
      (ListSentMessages insertionSort noFormat (fun _ => .ok [cacheEntry 1 5, cacheEntry 2 6])
        repo 2).calls = [.GetAllSentMessages 2] ∧
      ∀ n, Call.GetSentMessages n ∉
        (ListSentMessages insertionSort noFormat (fun _ => .ok [cacheEntry 1 5, cacheEntry 2 6])
          repo 2).calls) ∧
    ListSentMessages insertionSort noFormat (fun _ => .ok [cacheEntry 1 5, cacheEntry 2 6])
        (fun _ => .error "store down") 2 =
      ListSentMessages insertionSort noFormat (fun _ => .ok [cacheEntry 1 5, cacheEntry 2 6])
        (fun _ => .ok [storeRecord 3 7]) 2 :=
  ⟨(C5_store_not_queried insertionSort noFormat (fun _ => .ok [cacheEntry 1 5, cacheEntry 2 6])
      2 (by decide) [cacheEntry 1 5, cacheEntry 2 6] rfl (by decide)).1,
   (C5_store_not_queried insertionSort noFormat (fun _ => .ok [cacheEntry 1 5, cacheEntry 2 6])
      2 (by decide) [cacheEntry 1 5, cacheEntry 2 6] rfl (by decide)).2 _ _⟩

/-- C6. For every limit > 0, if the cache query succeeds with n >= limit entries,
`ListSentMessages(limit)` succeeds with exactly `limit` entries: the first `limit` entries of
the cache's list sorted by sent-at descending, so that no cached entry left out is later than a
returned one.  The copying loop reads indices 0 .. limit-1 only, all in range. -/
theorem C6_cache_fills_limit (sortSlice : SortFn) (hs : SortSliceSpec sortSlice)
    (format : Time → String) (cacheRepo : CacheRepo) (repo : StoreRepo) (limit : Int)
    (hl : 0 < limit) (cachedMessages : List SentMessageCache)
    (hc : cacheRepo limit = .ok cachedMessages)
    (hfull : limit ≤ (cachedMessages.length : Int)) :
    (ListSentMessages sortSlice format cacheRepo repo limit).result =
      .ok (((sortSlice lessAfter (cachedMessages.map (fromCache format))).take
        limit.toNat).map (fun s => s.response)) ∧
    ((((sortSlice lessAfter (cachedMessages.map (fromCache format))).take
        limit.toNat).map (fun s => s.response)).length : Int) = limit ∧
    (sortSlice lessAfter (cachedMessages.map (fromCache format))).Perm
      (cachedMessages.map (fromCache format)) ∧
    (sortSlice lessAfter (cachedMessages.map (fromCache format))).Pairwise
      (fun a b => b.sentAt.instant ≤ a.sentAt.instant) ∧
    (∀ a ∈ (sortSlice lessAfter (cachedMessages.map (fromCache format))).take limit.toNat,
      ∀ b ∈ (sortSlice lessAfter (cachedMessages.map (fromCache format))).drop limit.toNat,
        b.sentAt.instant ≤ a.sentAt.instant) ∧
    readFirst (sortSlice lessAfter (cachedMessages.map (fromCache format))) 0 limit.toNat =
      some ((sortSlice lessAfter (cachedMessages.map (fromCache format))).take limit.toNat) := by
  have hfull' : limit ≤ ((sortableFromCache format cacheRepo limit).length : Int) := by
    rw [sortableFromCache_ok hc, List.length_map]
    exact hfull
  have hlen := sortSlice_length hs (cachedMessages.map (fromCache format))
  rw [List.length_map] at hlen
  have hdesc := sortSlice_descending hs (cachedMessages.map (fromCache format))
  refine ⟨?_, ?_, (hs lessAfter _ lessAfter_strictWeak).1, hdesc, ?_, ?_⟩
  · rw [ListSentMessages_result, listSentSortable_cacheFull hs format cacheRepo repo hl.le hfull',
      sortableFromCache_ok hc]
    rfl
  · simp only [List.length_map, List.length_take, hlen]
    omega
  · intro a ha b hb
    exact List.Sorted.rel_of_mem_take_of_mem_drop hdesc ha hb
  · have := readFirst_eq (sortSlice lessAfter (cachedMessages.map (fromCache format)))
      limit.toNat 0 (by omega)
    simpa using this

/-- C6, at a cache that delivers three entries (oldest, newest, middle) for limit 2: the two
newest come back, newest first. -/
theorem C6_cache_fills_limit_witness :
    (ListSentMessages insertionSort noFormat
        (fun _ => .ok [cacheEntry 3 (-3), cacheEntry 1 (-1), cacheEntry 2 (-2)])
        (fun _ => .error "store down") 2).result =
      .ok (((insertionSort lessAfter
        ([cacheEntry 3 (-3), cacheEntry 1 (-1), cacheEntry 2 (-2)].map (fromCache noFormat))).take
          (2 : Int).toNat).map (fun s => s.response)) ∧
    ids (((insertionSort lessAfter
        ([cacheEntry 3 (-3), cacheEntry 1 (-1), cacheEntry 2 (-2)].map (fromCache noFormat))).take
          (2 : Int).toNat).map (fun s => s.response)) = [1, 2] :=
  ⟨(C6_cache_fills_limit insertionSort insertionSort_spec noFormat
      (fun _ => .ok [cacheEntry 3 (-3), cacheEntry 1 (-1), cacheEntry 2 (-2)])
      (fun _ => .error "store down") 2 (by decide)
      [cacheEntry 3 (-3), cacheEntry 1 (-1), cacheEntry 2 (-2)] rfl (by decide)).1,
   by decide⟩

/-- C7. For every limit > 0, if the cache query fails and the store query succeeds with a list
L (of at most `limit` records, as the store's `LIMIT` ensures), `ListSentMessages(limit)`
succeeds, queries the store once with that same limit, and returns exactly the views (id,
external id, recipient, content, sent-at) of the messages of L, each once, ordered by sent-at
descending. -/
theorem C7_cache_failed (sortSlice : SortFn) (hs : SortSliceSpec sortSlice)
    (format : Time → String) (cacheRepo : CacheRepo) (repo : StoreRepo) (limit : Int)
    (hl : 0 < limit) (e : Error) (L : List Message)
    (hc : cacheRepo limit = .error e) (hr : repo limit = .ok L)
    (hfit : (L.length : Int) ≤ limit) :
    (ListSentMessages sortSlice format cacheRepo repo limit).calls =
      [.GetAllSentMessages limit, .GetSentMessages limit] ∧
    ∃ ss : List sortableMessage,
      (listSentSortable sortSlice format cacheRepo repo limit).result = .ok ss ∧
      (ListSentMessages sortSlice format cacheRepo repo limit).result =
        .ok (ss.map (fun s => s.response)) ∧
      ss.Perm (L.map (fun m =>
        { response :=
            { MessageID := m.ID, ExternalMessageID := m.ExternalMessageID, To := m.To,
              Content := m.Content, SentAt := format m.SentAt },
          sentAt := m.SentAt })) ∧
      ss.Pairwise (fun a b => b.sentAt.instant ≤ a.sentAt.instant) := by
  have hnil : sortableFromCache format cacheRepo limit = [] := sortableFromCache_error hc
  have hrun := @listSentSortable_storeOk sortSlice format cacheRepo repo limit L
    (by rw [hnil]; simpa using hl) (by rw [hnil]; simpa using hr)
  rw [hnil] at hrun
  simp only [List.length_nil, Nat.cast_zero, sub_zero, List.map_nil, List.nil_append,
    appended_nil, Nat.sub_zero] at hrun
  have htake : L.take limit.toNat = L := List.take_of_length_le (by omega)
  rw [htake] at hrun
  refine ⟨?_, sortSlice lessAfter (L.map (fromStore format)), ?_, ?_,
    (hs lessAfter _ lessAfter_strictWeak).1, sortSlice_descending hs _⟩
  · rw [ListSentMessages_calls, hrun]
  · rw [hrun]
  · rw [ListSentMessages_result, hrun]
    rfl

/-- C7, on a failing cache with a store that answers the query for 10 with two records, the
older one first: both come back, the newer one first. -/
theorem C7_cache_failed_witness :
    (ListSentMessages insertionSort showInstant (fun _ => .error "cache error")
        (fun _ => .ok [storeRecord 1 10, storeRecord 2 20]) 10).result =
      .ok [{ MessageID := 2, ExternalMessageID := "d", To := "r", Content := "m",
             SentAt := "20" },
           { MessageID := 1, ExternalMessageID := "d", To := "r", Content := "m",
             SentAt := "10" }] ∧
    ((ListSentMessages insertionSort showInstant (fun _ => .error "cache error")
        (fun _ => .ok [storeRecord 1 10, storeRecord 2 20]) 10).calls =
      [.GetAllSentMessages 10, .GetSentMessages 10] ∧
    ∃ ss : List sortableMessage,
      (listSentSortable insertionSort showInstant (fun _ => .error "cache error")
        (fun _ => .ok [storeRecord 1 10, storeRecord 2 20]) 10).result = .ok ss ∧
      (ListSentMessages insertionSort showInstant (fun _ => .error "cache error")
        (fun _ => .ok [storeRecord 1 10, storeRecord 2 20]) 10).result =
        .ok (ss.map (fun s => s.response)) ∧
      ss.Perm ([storeRecord 1 10, storeRecord 2 20].map (fun m =>
        { response :=
            { MessageID := m.ID, ExternalMessageID := m.ExternalMessageID, To := m.To,
              Content := m.Content, SentAt := showInstant m.SentAt },
          sentAt := m.SentAt })) ∧
      ss.Pairwise (fun a b => b.sentAt.instant ≤ a.sentAt.instant)) :=
  ⟨by decide,
   C7_cache_failed insertionSort insertionSort_spec showInstant (fun _ => .error "cache error")
     (fun _ => .ok [storeRecord 1 10, storeRecord 2 20]) 10 (by decide) "cache error"
     [storeRecord 1 10, storeRecord 2 20] rfl rfl (by decide)⟩

/-- C8. For every limit (positive, as it exceeds k), if the cache returns k entries with
1 <= k < limit and the store query fails, `ListSentMessages(limit)` returns no error and its
result is exactly those k cached entries sorted by sent-at descending. -/
theorem C8_store_failed_cache_kept (sortSlice : SortFn) (hs : SortSliceSpec sortSlice)
    (format : Time → String) (cacheRepo : CacheRepo) (repo : StoreRepo) (limit : Int)
    (cachedMessages : List SentMessageCache) (e : Error)
    (hc : cacheRepo limit = .ok cachedMessages)
    (hk : 1 ≤ cachedMessages.length) (hlt : (cachedMessages.length : Int) < limit)
    (hr : repo (limit - (cachedMessages.length : Int)) = .error e) :
    (ListSentMessages sortSlice format cacheRepo repo limit).result =
      .ok ((sortSlice lessAfter (cachedMessages.map (fromCache format))).map
        (fun s => s.response)) ∧
    (sortSlice lessAfter (cachedMessages.map (fromCache format))).Perm
      (cachedMessages.map (fromCache format)) ∧
    (sortSlice lessAfter (cachedMessages.map (fromCache format))).Pairwise
      (fun a b => b.sentAt.instant ≤ a.sentAt.instant) ∧
    ((sortSlice lessAfter (cachedMessages.map (fromCache format))).map
      (fun s => s.response)).length = cachedMessages.length := by
  have hcached : sortableFromCache format cacheRepo limit =
      cachedMessages.map (fromCache format) := sortableFromCache_ok hc
  have hrun := @listSentSortable_storeError sortSlice format cacheRepo repo limit e
    (by rw [hcached, List.length_map]; exact hlt)
    (by rw [hcached, List.length_map]; exact hr)
  rw [hcached] at hrun
  simp only [List.length_map, if_pos (show 0 < cachedMessages.length from hk)] at hrun
  refine ⟨?_, (hs lessAfter _ lessAfter_strictWeak).1, sortSlice_descending hs _, ?_⟩
  · rw [ListSentMessages_result, hrun]
    rfl
  · rw [List.length_map, sortSlice_length hs, List.length_map]

/-- C8, at a cache holding two entries (older one first) for limit 10 and a failing store. -/
theorem C8_store_failed_cache_kept_witness :
    (ListSentMessages insertionSort noFormat (fun _ => .ok [cacheEntry 2 (-2), cacheEntry 1 (-1)])
        (fun _ => .error "store down") 10).result.map ids = .ok [1, 2] ∧
    (ListSentMessages insertionSort noFormat (fun _ => .ok [cacheEntry 2 (-2), cacheEntry 1 (-1)])
        (fun _ => .error "store down") 10).result =
      .ok ((insertionSort lessAfter
        ([cacheEntry 2 (-2), cacheEntry 1 (-1)].map (fromCache noFormat))).map
          (fun s => s.response)) :=
  ⟨by decide,
   (C8_store_failed_cache_kept insertionSort insertionSort_spec noFormat
      (fun _ => .ok [cacheEntry 2 (-2), cacheEntry 1 (-1)]) (fun _ => .error "store down") 10
      [cacheEntry 2 (-2), cacheEntry 1 (-1)] "store down" rfl (by decide) (by decide) rfl).1⟩

/-- C9. For every limit > 0, `ListSentMessages(limit)` returns the error `e` if and only if no
cached entry is available (the cache failed or returned an empty list) and the store query,
made with `limit`, fails with `e`; an error outcome carries no entries, and in every other case
the call succeeds with a list. -/
theorem C9_error_iff (sortSlice : SortFn) (hs : SortSliceSpec sortSlice)
    (format : Time → String) (cacheRepo : CacheRepo) (repo : StoreRepo) (limit : Int)
    (hl : 0 < limit) :
    (∀ e : Error,
      (ListSentMessages sortSlice format cacheRepo repo limit).result = .err e ↔
        (((∃ e', cacheRepo limit = .error e') ∨ cacheRepo limit = .ok []) ∧
          repo limit = .error e)) ∧
    ((∃ e, (ListSentMessages sortSlice format cacheRepo repo limit).result = .err e) ∨
      (∃ rs, (ListSentMessages sortSlice format cacheRepo repo limit).result = .ok rs)) := by
  have hzero := sortableFromCache_length_eq_zero format cacheRepo limit
  by_cases hfull : limit ≤ ((sortableFromCache format cacheRepo limit).length : Int)
  · have hrun := listSentSortable_cacheFull hs format cacheRepo repo hl.le hfull
    have hne : ¬ (sortableFromCache format cacheRepo limit).length = 0 := by omega
    refine ⟨fun e => ?_, Or.inr ⟨_, by rw [ListSentMessages_result, hrun]; rfl⟩⟩
    rw [ListSentMessages_result, hrun]
    constructor
    · intro h
      cases h
    · intro h
      exact absurd (hzero.mpr h.1) hne
  · have hlt := not_le.mp hfull
    cases hrepo : repo (limit - ((sortableFromCache format cacheRepo limit).length : Int)) with
    | error e₀ =>
      have hrun := listSentSortable_storeError sortSlice format cacheRepo repo hlt hrepo
      by_cases hpos : 0 < (sortableFromCache format cacheRepo limit).length
      · simp only [if_pos hpos] at hrun
        refine ⟨fun e => ?_, Or.inr ⟨_, by rw [ListSentMessages_result, hrun]; rfl⟩⟩
        rw [ListSentMessages_result, hrun]
        constructor
        · intro h
          cases h
        · intro h
          exact absurd (hzero.mpr h.1) (by omega)
      · simp only [if_neg hpos] at hrun
        have hlen : (sortableFromCache format cacheRepo limit).length = 0 := by omega
        rw [hlen] at hrepo
        simp only [Nat.cast_zero, sub_zero] at hrepo
        refine ⟨fun e => ?_, Or.inl ⟨e₀, by rw [ListSentMessages_result, hrun]; rfl⟩⟩
        rw [ListSentMessages_result, hrun, hrepo]
        simp only [Result.map, Result.err.injEq, Except.error.injEq]
        exact ⟨fun h => ⟨hzero.mp hlen, h⟩, fun h => h.2⟩
    | ok dbMessages =>
      have hrun := listSentSortable_storeOk sortSlice format cacheRepo repo hlt hrepo
      refine ⟨fun e => ?_, Or.inr ⟨_, by rw [ListSentMessages_result, hrun]; rfl⟩⟩
      rw [ListSentMessages_result, hrun]
      constructor
      · intro h
        cases h
      · intro h
        have hlen := hzero.mpr h.1
        rw [hlen] at hrepo
        simp only [Nat.cast_zero, sub_zero] at hrepo
        rw [hrepo] at h
        cases h.2

/-- C9, at an empty cache with a failing store (the store's error comes back) and, for the
other direction, at a cache holding one entry with the same failing store (no error). -/
theorem C9_error_iff_witness :
    ((ListSentMessages insertionSort noFormat (fun _ => .ok []) (fun _ => .error "store down")
        10).result = .err "store down" ↔
      (((∃ e', (fun _ => .ok [] : CacheRepo) 10 = .error e') ∨
          (fun _ => .ok [] : CacheRepo) 10 = .ok []) ∧
        (fun _ => .error "store down" : StoreRepo) 10 = .error "store down")) ∧
    (ListSentMessages insertionSort noFormat (fun _ => .ok []) (fun _ => .error "store down")
        10).result = .err "store down" ∧
    (ListSentMessages insertionSort noFormat (fun _ => .ok [cacheEntry 1 5])
        (fun _ => .error "store down") 10).result =
      .ok [(fromCache noFormat (cacheEntry 1 5)).response] :=
  ⟨(C9_error_iff insertionSort insertionSort_spec noFormat (fun _ => .ok [])
      (fun _ => .error "store down") 10 (by decide)).1 "store down",
   by decide, by decide⟩

/-- C10. When the cache returns k < limit entries with pairwise distinct ids and the store,
asked for limit - k, returns at most limit - k messages with pairwise distinct ids,
`ListSentMessages(limit)` returns exactly the views of the k cached entries together with the
views of the store messages whose id is not cached, each once, ordered by sent-at descending.
The view of an entry or of a record carries its id, external id, recipient and content, and
its sent-at formatted; it is ordered by that sent-at. -/
theorem C10_merge (sortSlice : SortFn) (hs : SortSliceSpec sortSlice)
    (format : Time → String) (cacheRepo : CacheRepo) (repo : StoreRepo) (limit : Int)
    (cachedMessages : List SentMessageCache) (dbMessages : List Message)
    (hc : cacheRepo limit = .ok cachedMessages)
    (hk : (cachedMessages.length : Int) < limit)
    (hcn : (cachedMessages.map (fun c => c.MessageID)).Nodup)
    (hr : repo (limit - (cachedMessages.length : Int)) = .ok dbMessages)
    (hfit : (dbMessages.length : Int) ≤ limit - (cachedMessages.length : Int))
    (hdn : (dbMessages.map (fun m => m.ID)).Nodup) :
    (ListSentMessages sortSlice format cacheRepo repo limit).calls =
      [.GetAllSentMessages limit, .GetSentMessages (limit - (cachedMessages.length : Int))] ∧
    ∃ ss : List sortableMessage,
      (listSentSortable sortSlice format cacheRepo repo limit).result = .ok ss ∧
      (ListSentMessages sortSlice format cacheRepo repo limit).result =
        .ok (ss.map (fun s => s.response)) ∧
      ss.Perm
        (cachedMessages.map (fun c =>
            { response :=
                { MessageID := c.MessageID, ExternalMessageID := c.ExternalMessageID,
                  To := c.To, Content := c.Content, SentAt := format c.SentAt },
              sentAt := c.SentAt }) ++
          (dbMessages.filter (fun msg =>
            !(cachedMessages.map (fun c => c.MessageID)).contains msg.ID)).map (fun m =>
            { response :=
                { MessageID := m.ID, ExternalMessageID := m.ExternalMessageID, To := m.To,
                  Content := m.Content, SentAt := format m.SentAt },
              sentAt := m.SentAt })) ∧
      ss.Pairwise (fun a b => b.sentAt.instant ≤ a.sentAt.instant) ∧
      (ids (ss.map (fun s => s.response))).Nodup := by
  have hcached : sortableFromCache format cacheRepo limit =
      cachedMessages.map (fromCache format) := sortableFromCache_ok hc
  have hids : (cachedMessages.map (fromCache format)).map (fun s => s.response.MessageID) =
      cachedMessages.map (fun c => c.MessageID) := by
    rw [List.map_map]
    rfl
  have hrun := @listSentSortable_storeOk sortSlice format cacheRepo repo limit dbMessages
    (by rw [hcached, List.length_map]; exact hk)
    (by rw [hcached, List.length_map]; exact hr)
  rw [hcached] at hrun
  simp only [List.length_map] at hrun
  rw [hids, appended_of_fits _ (by omega)] at hrun
  have hperm := (hs lessAfter (cachedMessages.map (fromCache format) ++
    (dbMessages.filter (fun msg =>
      !(cachedMessages.map (fun c => c.MessageID)).contains msg.ID)).map (fromStore format))
    lessAfter_strictWeak).1
  refine ⟨?_, _, ?_, ?_, hperm, sortSlice_descending hs _, ?_⟩
  · rw [ListSentMessages_calls, hrun]
  · rw [hrun]
  · rw [ListSentMessages_result, hrun]
    rfl
  · unfold ids
    rw [List.map_map, (hperm.map _).nodup_iff]
    refine merged_ids_nodup (by rw [hids]; exact hcn) (List.filter_sublist _) hdn ?_
    intro m hm
    rw [hids]
    simpa using (List.mem_filter.mp hm).2

/-- C10, on the scenario of the specification (the cache holds message 1 sent an hour ago and
message 2 sent two hours ago, the store asked for 8 answers with message 3 sent three hours
ago, and `ListSentMessages(10)` returns the ids 1, 2, 3 in that order), and on a cache that
delivers message 2 before the older message 1 with a store that answers with the newest
message 3 and with message 2 again: the views come back as 3, 2, 1, message 2 as cached. -/
theorem C10_merge_witness :
    ((ListSentMessages insertionSort showInstant
        (fun _ => .ok [cacheEntry 1 (-1), cacheEntry 2 (-2)])
        (fun n => if n = 8 then .ok [storeRecord 3 (-3)] else .error "unexpected limit")
        10).result.map ids = .ok [1, 2, 3] ∧
     (ListSentMessages insertionSort showInstant
        (fun _ => .ok [cacheEntry 2 (-2), cacheEntry 1 (-5)])
        (fun n => if n = 8 then .ok [storeRecord 2 (-2), storeRecord 3 (-1)]
          else .error "unexpected limit") 10).result =
      .ok [{ MessageID := 3, ExternalMessageID := "d", To := "r", Content := "m",
             SentAt := "-1" },
           { MessageID := 2, ExternalMessageID := "c", To := "r", Content := "m",
             SentAt := "-2" },
           { MessageID := 1, ExternalMessageID := "c", To := "r", Content := "m",
             SentAt := "-5" }]) ∧
    ((ListSentMessages insertionSort showInstant
        (fun _ => .ok [cacheEntry 2 (-2), cacheEntry 1 (-5)])
        (fun n => if n = 8 then .ok [storeRecord 2 (-2), storeRecord 3 (-1)]
          else .error "unexpected limit") 10).calls =
      [.GetAllSentMessages 10,
       .GetSentMessages (10 - (([cacheEntry 2 (-2), cacheEntry 1 (-5)].length : Nat) : Int))] ∧
    ∃ ss : List sortableMessage,
      (listSentSortable insertionSort showInstant
        (fun _ => .ok [cacheEntry 2 (-2), cacheEntry 1 (-5)])
        (fun n => if n = 8 then .ok [storeRecord 2 (-2), storeRecord 3 (-1)]
          else .error "unexpected limit") 10).result = .ok ss ∧
      (ListSentMessages insertionSort showInstant
        (fun _ => .ok [cacheEntry 2 (-2), cacheEntry 1 (-5)])
        (fun n => if n = 8 then .ok [storeRecord 2 (-2), storeRecord 3 (-1)]
          else .error "unexpected limit") 10).result = .ok (ss.map (fun s => s.response)) ∧
      ss.Perm
        ([cacheEntry 2 (-2), cacheEntry 1 (-5)].map (fun c =>
            { response :=
                { MessageID := c.MessageID, ExternalMessageID := c.ExternalMessageID,
                  To := c.To, Content := c.Content, SentAt := showInstant c.SentAt },
              sentAt := c.SentAt }) ++
          ([storeRecord 2 (-2), storeRecord 3 (-1)].filter (fun msg =>
            !([cacheEntry 2 (-2), cacheEntry 1 (-5)].map (fun c => c.MessageID)).contains
              msg.ID)).map (fun m =>
            { response :=
                { MessageID := m.ID, ExternalMessageID := m.ExternalMessageID, To := m.To,
                  Content := m.Content, SentAt := showInstant m.SentAt },
              sentAt := m.SentAt })) ∧
      ss.Pairwise (fun a b => b.sentAt.instant ≤ a.sentAt.instant) ∧
      (ids (ss.map (fun s => s.response))).Nodup) :=
  ⟨⟨by decide, by decide⟩,
   C10_merge insertionSort insertionSort_spec showInstant
     (fun _ => .ok [cacheEntry 2 (-2), cacheEntry 1 (-5)])
     (fun n => if n = 8 then .ok [storeRecord 2 (-2), storeRecord 3 (-1)]
       else .error "unexpected limit") 10
     [cacheEntry 2 (-2), cacheEntry 1 (-5)] [storeRecord 2 (-2), storeRecord 3 (-1)] rfl
     (by decide) (by decide) rfl (by decide) (by decide)⟩

/-! ## Claims about the durable store -/

theorem utf8ByteSize_go_ge (cs : List Char) : cs.length ≤ String.utf8ByteSize.go cs := by
  induction cs with
  | nil => simp [String.utf8ByteSize.go]
  | cons c cs ih =>
    have hc := Char.utf8Size_pos c
    simp only [String.utf8ByteSize.go, List.length_cons]
    omega

/-- A text has at least as many bytes as characters. -/
theorem length_le_utf8ByteSize (s : String) : s.length ≤ s.utf8ByteSize := by
  cases s with
  | mk cs => exact utf8ByteSize_go_ge cs

/-- What `CreateMessage` does on a working database: it succeeds exactly when the content has
at most 160 bytes, and then appends one PENDING row with an empty external id. -/
theorem CreateMessage_healthy (now : Time) (db : DB) (recipient content : String) :
    (content.utf8ByteSize ≤ 160 →
      CreateMessage healthy now db recipient content =
        (.ok { ID := nextID db, To := recipient, Content := content, Status := StatusPending,
               ExternalMessageID := "", SentAt := zeroTime, CreatedAt := now,
               UpdatedAt := now },
         { rows := db.rows ++
             [{ id := nextID db, recipient := recipient, content := content,
                status := StatusPending, external_message_id := "", sent_at := none,
                created_at := now, updated_at := now }],
           seq := nextID db })) ∧
    (160 < content.utf8ByteSize →
      CreateMessage healthy now db recipient content =
        (.error "content exceeds 160 character limit", db)) := by
  constructor
  · intro h
    simp [CreateMessage, healthy, Nat.not_lt.mpr h]
  · intro h
    simp [CreateMessage, h]

/-- C19, where the code departs from it: a content of 81 characters, each two bytes long, is
within the 160 character limit, yet `CreateMessage` compares the byte length (162) with 160 and
rejects it with 'content exceeds 160 character limit', leaving the database as it was. -/
theorem C19_byte_length_rejected (driver : Driver) (now : Time) (db : DB) :
    twoByteContent.length = 81 ∧ twoByteContent.utf8ByteSize = 162 ∧
    CreateMessage driver now db "+905551234567" twoByteContent =
      (.error "content exceeds 160 character limit", db) := by
  refine ⟨by decide, by decide, ?_⟩
  have h : 160 < twoByteContent.utf8ByteSize := by decide
  simp [CreateMessage, h]

/-- C20. A rejected store operation mutates nothing.  `CreateMessage` with a content longer
than 160 (characters, hence bytes) is rejected before any write: it returns the length error
and the database is unchanged.  `UpdateMessageStatus` on an id that no record has always
fails and leaves every stored record unchanged; the error is the not-found error whenever the
driver itself reports none. -/
theorem C20_rejected_mutates_nothing :
    (∀ (driver : Driver) (now : Time) (db : DB) (recipient content : String),
      160 < content.length →
      CreateMessage driver now db recipient content =
        (.error "content exceeds 160 character limit", db)) ∧
    (∀ (driver : Driver) (now : Time) (db : DB) (messageID : Int) (status : Status)
        (externalMessageID : Option String) (sentAt : Option Time),
      (∀ r ∈ db.rows, r.id ≠ messageID) →
      (∃ e, (UpdateMessageStatus driver now db messageID status externalMessageID sentAt).1 =
        some e) ∧
      (UpdateMessageStatus driver now db messageID status externalMessageID sentAt).2 = db ∧
      (driver.execErr = none → driver.resultErr = none →
        (UpdateMessageStatus driver now db messageID status externalMessageID sentAt).1 =
          some ("no message found with ID: " ++ toString messageID))) := by
  refine ⟨?_, ?_⟩
  · intro driver now db recipient content h
    have hb : 160 < content.utf8ByteSize := lt_of_lt_of_le h (length_le_utf8ByteSize content)
    simp [CreateMessage, hb]
  · intro driver now db messageID status externalMessageID sentAt habsent
    have hmap : ∀ (extID : String), db.rows.map
        (updateRow messageID status extID sentAt now) = db.rows := by
      intro extID
      refine (List.map_congr_left ?_).trans (List.map_id _)
      intro r hr
      simp [updateRow, habsent r hr]
    have hfilter : db.rows.filter (fun r => r.id = messageID) = [] := by
      rw [List.filter_eq_nil_iff]
      intro r hr
      simpa using habsent r hr
    unfold UpdateMessageStatus
    simp only [hmap, hfilter, List.length_nil]
    cases driver.execErr <;> cases driver.resultErr <;> simp

/-- C20, at a content of 161 letters, and at the id 99999 of the repository's test on a store
holding one message. -/
theorem C20_rejected_mutates_nothing_witness :
    CreateMessage healthy (atInstant 0) emptyDB "+905551234567" longContent =
      (.error "content exceeds 160 character limit", emptyDB) ∧
    ((∃ e, (UpdateMessageStatus healthy (atInstant 1) onePending 99999 StatusSent none
        none).1 = some e) ∧
      (UpdateMessageStatus healthy (atInstant 1) onePending 99999 StatusSent none none).2 =
          onePending ∧
      (healthy.execErr = none → healthy.resultErr = none →
        (UpdateMessageStatus healthy (atInstant 1) onePending 99999 StatusSent none none).1 =
            some ("no message found with ID: " ++ toString (99999 : Int)))) :=
  ⟨C20_rejected_mutates_nothing.1 healthy (atInstant 0) emptyDB "+905551234567" longContent
      (by simp [longContent, String.length]),
   C20_rejected_mutates_nothing.2 healthy (atInstant 1)
      onePending 99999 StatusSent none none
      (by decide)⟩

/-! ## Claims about the merge of cache and store -/

/-- C11, as stated, fails: when the cache's answer lists message 1 twice and the store's answer
holds message 1 as well, the returned list has two entries for id 1, not a single one. -/
theorem C11_counterexample :
    (ListSentMessages insertionSort noFormat (fun _ => .ok [cacheEntry 1 5, cacheEntry 1 5])
        (fun _ => .ok [storeRecord 1 5]) 10).result =
      .ok [(fromCache noFormat (cacheEntry 1 5)).response,
           (fromCache noFormat (cacheEntry 1 5)).response] ∧
    ([(fromCache noFormat (cacheEntry 1 5)).response,
      (fromCache noFormat (cacheEntry 1 5)).response].filter
        (fun r => r.MessageID = 1)).length = 2 := by
  decide

/-- C11, amended. Cache wins on conflict: when a message id occurs in the cache result (of
fewer than `limit` entries) and the store is asked, the entries of the returned list with that
id are exactly the views of the cache entries with that id, whatever the store's answer holds
for it; so when the cache result lists the id once, the returned list has a single entry for
that id, and its external id, recipient, content and sent-at are those of the cache entry, not
of the store record. -/
theorem C11_cache_wins (sortSlice : SortFn) (hs : SortSliceSpec sortSlice)
    (format : Time → String) (cacheRepo : CacheRepo) (repo : StoreRepo) (limit : Int)
    (cachedMessages : List SentMessageCache) (dbMessages : List Message) (id : Int)
    (hc : cacheRepo limit = .ok cachedMessages)
    (hk : (cachedMessages.length : Int) < limit)
    (hr : repo (limit - (cachedMessages.length : Int)) = .ok dbMessages)
    (hid : id ∈ cachedMessages.map (fun c => c.MessageID)) :
    ∃ ss : List sortableMessage,
      (ListSentMessages sortSlice format cacheRepo repo limit).result =
        .ok (ss.map (fun s => s.response)) ∧
      (ss.filter (fun s => s.response.MessageID = id)).Perm
        ((cachedMessages.filter (fun c => c.MessageID = id)).map (fromCache format)) ∧
      ∀ c, cachedMessages.filter (fun c => c.MessageID = id) = [c] →
        (ss.map (fun s => s.response)).filter (fun r => r.MessageID = id) =
          [{ MessageID := id, ExternalMessageID := c.ExternalMessageID, To := c.To,
             Content := c.Content, SentAt := format c.SentAt }] := by
  have hcached : sortableFromCache format cacheRepo limit =
      cachedMessages.map (fromCache format) := sortableFromCache_ok hc
  have hids : (cachedMessages.map (fromCache format)).map (fun s => s.response.MessageID) =
      cachedMessages.map (fun c => c.MessageID) := by
    rw [List.map_map]
    rfl
  have hrun := @listSentSortable_storeOk sortSlice format cacheRepo repo limit dbMessages
    (by rw [hcached, List.length_map]; exact hk)
    (by rw [hcached, List.length_map]; exact hr)
  rw [hcached] at hrun
  simp only [List.length_map] at hrun
  rw [hids] at hrun
  have hperm := (hs lessAfter (cachedMessages.map (fromCache format) ++
    (appended (cachedMessages.map (fun c => c.MessageID))
      (limit.toNat - cachedMessages.length) dbMessages).map (fromStore format))
    lessAfter_strictWeak).1
  have hfilter : List.Perm
      ((sortSlice lessAfter (cachedMessages.map (fromCache format) ++
        (appended (cachedMessages.map (fun c => c.MessageID))
          (limit.toNat - cachedMessages.length) dbMessages).map (fromStore format))).filter
          (fun s => s.response.MessageID = id))
      ((cachedMessages.filter (fun c => c.MessageID = id)).map (fromCache format)) := by
    refine (hperm.filter _).trans ?_
    rw [List.filter_append]
    have hnone : ((appended (cachedMessages.map (fun c => c.MessageID))
        (limit.toNat - cachedMessages.length) dbMessages).map (fromStore format)).filter
          (fun s => decide (s.response.MessageID = id)) = [] := by
      rw [List.filter_eq_nil_iff]
      intro s hsmem
      obtain ⟨m, hm, rfl⟩ := List.mem_map.mp hsmem
      have hnot := appended_not_cached hm
      simp only [decide_eq_true_eq]
      intro heq
      have hmid : m.ID = id := heq
      exact hnot (hmid ▸ hid)
    rw [hnone, List.append_nil, List.filter_map]
    exact List.Perm.of_eq rfl
  refine ⟨_, ?_, hfilter, ?_⟩
  · rw [ListSentMessages_result, hrun]
    rfl
  · intro c hone
    rw [hone] at hfilter
    have hsingle := List.perm_singleton.mp hfilter
    rw [List.filter_map]
    have hcid : c.MessageID = id := by
      have hmem : c ∈ cachedMessages.filter (fun c => c.MessageID = id) := by
        rw [hone]; exact List.mem_singleton_self c
      simpa using (List.mem_filter.mp hmem).2
    have hcomp : ((fun r : SentMessageResponse => decide (r.MessageID = id)) ∘
        fun s : sortableMessage => s.response) =
        fun s : sortableMessage => decide (s.response.MessageID = id) := rfl
    rw [hcomp, hsingle]
    simp [fromCache, hcid]

/-- C11 amended, at a cache holding messages 1 and 2 and a store whose answer holds message 1
with another external id and sent-at: the single entry returned for id 1 is the cache's. -/
theorem C11_cache_wins_witness :
    (ListSentMessages insertionSort noFormat (fun _ => .ok [cacheEntry 1 5, cacheEntry 2 4])
        (fun _ => .ok [storeRecord 1 6, storeRecord 3 3]) 10).result.map
          (List.map (fun r => (r.MessageID, r.ExternalMessageID))) =
      .ok [(1, "c"), (2, "c"), (3, "d")] ∧
    ∃ ss : List sortableMessage,
      (ListSentMessages insertionSort noFormat (fun _ => .ok [cacheEntry 1 5, cacheEntry 2 4])
        (fun _ => .ok [storeRecord 1 6, storeRecord 3 3]) 10).result =
        .ok (ss.map (fun s => s.response)) ∧
      (ss.filter (fun s => s.response.MessageID = 1)).Perm
        (([cacheEntry 1 5, cacheEntry 2 4].filter (fun c => c.MessageID = 1)).map
          (fromCache noFormat)) ∧
      ∀ c, [cacheEntry 1 5, cacheEntry 2 4].filter (fun c => c.MessageID = 1) = [c] →
        (ss.map (fun s => s.response)).filter (fun r => r.MessageID = 1) =
          [{ MessageID := 1, ExternalMessageID := c.ExternalMessageID, To := c.To,
             Content := c.Content, SentAt := noFormat c.SentAt }] :=
  ⟨by decide,
   C11_cache_wins insertionSort insertionSort_spec noFormat
     (fun _ => .ok [cacheEntry 1 5, cacheEntry 2 4])
     (fun _ => .ok [storeRecord 1 6, storeRecord 3 3]) 10
     [cacheEntry 1 5, cacheEntry 2 4] [storeRecord 1 6, storeRecord 3 3] 1 rfl (by decide) rfl
     (by decide)⟩

/-- C12, as stated, fails: the cache holds message 1 and the store holds the sent messages 1
(the most recent), 2, 3 and 4.  For limit 3 the store is asked for its 2 most recent, answers
with 1 and 2, message 1 is skipped as cached, and two entries are returned although four sent
messages exist. -/
theorem C12_counterexample :
    (GetSentMessages healthy fourSent 2).map (List.map (fun m => m.ID)) = .ok [1, 2] ∧
    (ListSentMessages insertionSort noFormat (fun _ => .ok [cacheEntry 1 9])
        (GetSentMessages healthy fourSent) 3).result.map ids = .ok [1, 2] ∧
    (([cacheEntry 1 9].map (fun c => c.MessageID) ++
        fourSent.rows.map (fun r => r.id)).dedup).length = 4 ∧
    ([1, 2] : List Int).length ≠ min 3 4 := by
  decide

theorem length_le_dedup_of_subset {l : List Int} (l' : List Int) (hn : l.Nodup)
    (hsub : l ⊆ l') :
    l.length ≤ l'.dedup.length :=
  (List.subperm_of_subset hn (fun _ hx => List.mem_dedup.mpr (hsub hx))).length_le

/-- C12, amended. For every cache list C of k entries with distinct ids and every store
holding the sent messages S (most recently sent first, distinct ids) whose getSent(n) returns
the n most recently sent, `ListSentMessages(limit)` returns `limit` entries when k >= limit,
and otherwise k entries plus one for each of the store's limit - k most recently sent messages
that is not cached.  This is min(limit, number of distinct ids in C and S together) when none
of those limit - k messages is cached; a cached message among them leaves the result short
even though more sent messages exist. -/
theorem C12_result_size (sortSlice : SortFn) (hs : SortSliceSpec sortSlice)
    (format : Time → String) (cacheRepo : CacheRepo) (repo : StoreRepo) (limit : Int)
    (hl : 0 < limit) (C : List SentMessageCache) (S : List Message)
    (hc : cacheRepo limit = .ok C)
    (hcn : (C.map (fun c => c.MessageID)).Nodup) (hsn : (S.map (fun m => m.ID)).Nodup)
    (hstore : ∀ n : Int, 0 ≤ n → repo n = .ok (S.take n.toNat)) :
    ∃ rs : List SentMessageResponse,
      (ListSentMessages sortSlice format cacheRepo repo limit).result = .ok rs ∧
      rs.length =
        (if limit ≤ (C.length : Int) then limit.toNat
         else C.length + ((S.take (limit - (C.length : Int)).toNat).filter
           (fun m => !(C.map (fun c => c.MessageID)).contains m.ID)).length) ∧
      ((∀ m ∈ S.take (limit - (C.length : Int)).toNat, m.ID ∉ C.map (fun c => c.MessageID)) →
        rs.length =
          min limit.toNat ((C.map (fun c => c.MessageID) ++ S.map (fun m => m.ID)).dedup.length)) := by
  have hcached : sortableFromCache format cacheRepo limit = C.map (fromCache format) :=
    sortableFromCache_ok hc
  have hids : (C.map (fromCache format)).map (fun s => s.response.MessageID) =
      C.map (fun c => c.MessageID) := by
    rw [List.map_map]
    rfl
  have hCle : C.length ≤ ((C.map (fun c => c.MessageID) ++
      S.map (fun m => m.ID)).dedup).length := by
    have := length_le_dedup_of_subset (C.map (fun c => c.MessageID) ++
      S.map (fun m => m.ID)) hcn (List.subset_append_left _ _)
    simpa using this
  by_cases hfull : limit ≤ (C.length : Int)
  · have hrun := listSentSortable_cacheFull hs format cacheRepo repo hl.le
      (by rw [hcached, List.length_map]; exact hfull)
    rw [hcached] at hrun
    have hlen : ((sortSlice lessAfter (C.map (fromCache format))).take limit.toNat).length =
        limit.toNat := by
      rw [List.length_take, sortSlice_length hs, List.length_map]
      omega
    refine ⟨_, by rw [ListSentMessages_result, hrun]; rfl, ?_, ?_⟩
    · rw [List.length_map, hlen, if_pos hfull]
    · intro _
      rw [List.length_map, hlen]
      omega
  · have hlt := not_le.mp hfull
    have hplaces : (limit - (C.length : Int)).toNat = limit.toNat - C.length := by omega
    have hrepo := hstore (limit - (C.length : Int)) (by omega)
    have hrun := @listSentSortable_storeOk sortSlice format cacheRepo repo limit
      (S.take (limit - (C.length : Int)).toNat)
      (by rw [hcached, List.length_map]; exact hlt)
      (by rw [hcached, List.length_map]; exact hrepo)
    rw [hcached] at hrun
    simp only [List.length_map] at hrun
    rw [hids, appended_of_fits _ (by rw [List.length_take]; omega)] at hrun
    have hlen : (sortSlice lessAfter (C.map (fromCache format) ++
        ((S.take (limit - (C.length : Int)).toNat).filter
          (fun msg => !(C.map (fun c => c.MessageID)).contains msg.ID)).map
            (fromStore format))).length =
        C.length + ((S.take (limit - (C.length : Int)).toNat).filter
          (fun m => !(C.map (fun c => c.MessageID)).contains m.ID)).length := by
      rw [sortSlice_length hs]
      simp
    refine ⟨_, by rw [ListSentMessages_result, hrun]; rfl, ?_, ?_⟩
    · rw [List.length_map, hlen, if_neg hfull]
    · intro hdisj
      rw [List.length_map, hlen]
      have hall : (S.take (limit - (C.length : Int)).toNat).filter
          (fun m => !(C.map (fun c => c.MessageID)).contains m.ID) =
          S.take (limit - (C.length : Int)).toNat := by
        rw [List.filter_eq_self]
        intro m hm
        simpa using hdisj m hm
      rw [hall]
      have htopn : ((S.take (limit - (C.length : Int)).toNat).map (fun m => m.ID)).Nodup :=
        List.Nodup.sublist ((List.take_sublist _ _).map _) hsn
      have hboth : (C.map (fun c => c.MessageID) ++
          (S.take (limit - (C.length : Int)).toNat).map (fun m => m.ID)).Nodup := by
        refine List.nodup_append.mpr ⟨hcn, htopn, ?_⟩
        intro id hid hid'
        obtain ⟨m, hm, rfl⟩ := List.mem_map.mp hid'
        exact hdisj m hm hid
      have hlow := length_le_dedup_of_subset (C.map (fun c => c.MessageID) ++
        S.map (fun m => m.ID)) hboth (by
          intro id hid
          rcases List.mem_append.mp hid with h | h
          · exact List.mem_append_left _ h
          · refine List.mem_append_right _ ?_
            obtain ⟨m, hm, rfl⟩ := List.mem_map.mp h
            exact List.mem_map_of_mem _ (List.mem_of_mem_take hm))
      simp only [List.length_append, List.length_map] at hlow
      have htake : (S.take (limit - (C.length : Int)).toNat).length =
          min (limit - (C.length : Int)).toNat S.length := List.length_take _ _
      by_cases hshort : S.length ≤ (limit - (C.length : Int)).toNat
      · have hup : ((C.map (fun c => c.MessageID) ++ S.map (fun m => m.ID)).dedup).length ≤
            C.length + S.length := by
          have := (List.dedup_sublist (C.map (fun c => c.MessageID) ++
            S.map (fun m => m.ID))).length_le
          simpa using this
        omega
      · omega

/-- C12 amended, at a cache holding message 5 and a store holding the sent messages 1, 2, 3
and 4, none of them cached: limit 3 returns three entries. -/
theorem C12_result_size_witness :
    (ListSentMessages insertionSort noFormat (fun _ => .ok [cacheEntry 5 10])
        (fun n => .ok ([storeRecord 1 9, storeRecord 2 8, storeRecord 3 7, storeRecord 4 6].take
          n.toNat)) 3).result.map ids = .ok [5, 1, 2] ∧
    ∃ rs : List SentMessageResponse,
      (ListSentMessages insertionSort noFormat (fun _ => .ok [cacheEntry 5 10])
        (fun n => .ok ([storeRecord 1 9, storeRecord 2 8, storeRecord 3 7, storeRecord 4 6].take
          n.toNat)) 3).result = .ok rs ∧
      rs.length =
        (if (3 : Int) ≤ (([cacheEntry 5 10].length : Nat) : Int) then (3 : Int).toNat
         else [cacheEntry 5 10].length +
          (([storeRecord 1 9, storeRecord 2 8, storeRecord 3 7, storeRecord 4 6].take
            ((3 : Int) - (([cacheEntry 5 10].length : Nat) : Int)).toNat).filter
              (fun m => !([cacheEntry 5 10].map (fun c => c.MessageID)).contains m.ID)).length) ∧
      ((∀ m ∈ [storeRecord 1 9, storeRecord 2 8, storeRecord 3 7, storeRecord 4 6].take
          ((3 : Int) - (([cacheEntry 5 10].length : Nat) : Int)).toNat,
          m.ID ∉ [cacheEntry 5 10].map (fun c => c.MessageID)) →
        rs.length =
          min (3 : Int).toNat (([cacheEntry 5 10].map (fun c => c.MessageID) ++
            [storeRecord 1 9, storeRecord 2 8, storeRecord 3 7, storeRecord 4 6].map
              (fun m => m.ID)).dedup.length)) :=
  ⟨by decide,
   C12_result_size insertionSort insertionSort_spec noFormat (fun _ => .ok [cacheEntry 5 10])
     (fun n => .ok ([storeRecord 1 9, storeRecord 2 8, storeRecord 3 7, storeRecord 4 6].take
       n.toNat)) 3 (by decide) [cacheEntry 5 10]
     [storeRecord 1 9, storeRecord 2 8, storeRecord 3 7, storeRecord 4 6] rfl (by decide)
     (by decide) (fun _ _ => rfl)⟩

/-! ## One tick of the scheduler -/

theorem UpdateMessageStatus_db (driver : Driver) (now : Time) (db : DB) (messageID : Int)
    (status : Status) (ext : String) (sentAt : Option Time) :
    (UpdateMessageStatus driver now db messageID status (some ext) sentAt).2 =
      match driver.execErr with
      | some _ => db
      | none => { db with rows := db.rows.map (updateRow messageID status ext sentAt now) } := by
  unfold UpdateMessageStatus
  cases driver.execErr with
  | some e => rfl
  | none =>
    cases driver.resultErr with
    | some e => rfl
    | none =>
      simp only
      split <;> rfl

theorem processMessage_eq (env : TickEnv) (s : messageScheduler) (w : World) (msg : Message) :
    processMessage env s w msg =
      { db := { w.db with rows := w.db.rows.map (rowStep env msg) },
        cache := cacheStep env s msg w.cache,
        events := w.events ++ newEvents env s msg } := by
  have hid : ∀ rows : List Row, rows.map (fun r => r) = rows := fun rows => List.map_id' rows
  unfold processMessage rowStep cacheStep newEvents
  cases hsend : env.send msg with
  | error e => simp [hid]
  | ok resp =>
    simp only [UpdateMessageStatus_db]
    cases hexec : (env.driverUpdate msg).execErr with
    | some e => cases hc : s.hasCache <;> simp [hid]
    | none => cases hc : s.hasCache <;> simp

theorem foldl_processMessage (env : TickEnv) (s : messageScheduler) :
    ∀ (messages : List Message) (w : World),
      messages.foldl (processMessage env s) w =
        { db := { w.db with rows := w.db.rows.map (rowFold env messages) },
          cache := cacheFold env s messages w.cache,
          events := w.events ++ batchEvents env s messages }
  | [], w => by
    have hrow : rowFold env [] = id := rfl
    simp [hrow, cacheFold, batchEvents]
  | msg :: rest, w => by
    rw [List.foldl_cons, foldl_processMessage env s rest, processMessage_eq]
    simp [rowFold, cacheFold, batchEvents, Function.comp_def]

theorem scanUnsent_ok (driver : Driver) :
    ∀ (rows : List Row) (messages : List Message),
      scanUnsent driver rows = .ok messages → messages = rows.map messageOfRow
  | [], messages, h => by
    simp only [scanUnsent, Except.ok.injEq] at h
    simp [← h]
  | r :: rest, messages, h => by
    unfold scanUnsent at h
    cases hscan : driver.scanErr r.id with
    | some e => rw [hscan] at h; cases h
    | none =>
      rw [hscan] at h
      cases hrest : scanUnsent driver rest with
      | error e => rw [hrest] at h; cases h
      | ok ms =>
        rw [hrest] at h
        simp only [Except.ok.injEq] at h
        rw [← h, scanUnsent_ok driver rest ms hrest]
        rfl

theorem scanUnsent_healthy : ∀ rows : List Row,
    scanUnsent healthy rows = .ok (rows.map messageOfRow)
  | [] => rfl
  | r :: rest => by
    unfold scanUnsent
    rw [scanUnsent_healthy rest]
    rfl

/-- The rows a fetch of pending messages reads, in the order it reads them. -/
theorem GetUnsentMessages_ok {driver : Driver} {db : DB} {limit : Int}
    {messages : List Message} (h : GetUnsentMessages driver db limit = .ok messages) :
    messages = (sqlLimit limit
      ((db.rows.filter (fun r => r.status = StatusPending)).insertionSort
        createdAtAsc)).map messageOfRow := by
  unfold GetUnsentMessages at h
  cases hexec : driver.execErr with
  | some e => rw [hexec] at h; cases h
  | none =>
    rw [hexec] at h
    simp only at h
    cases hscan : scanUnsent driver (sqlLimit limit
      ((db.rows.filter (fun r => r.status = StatusPending)).insertionSort
        createdAtAsc)) with
    | error e => rw [hscan] at h; cases h
    | ok ms =>
      rw [hscan] at h
      cases hres : driver.resultErr with
      | some e => rw [hres] at h; cases h
      | none =>
        rw [hres] at h
        simp only [Except.ok.injEq] at h
        rw [← h]
        exact scanUnsent_ok driver _ ms hscan

theorem GetUnsentMessages_healthy (db : DB) (limit : Int) :
    GetUnsentMessages healthy db limit = .ok ((sqlLimit limit
      ((db.rows.filter (fun r => r.status = StatusPending)).insertionSort
        createdAtAsc)).map messageOfRow) := by
  unfold GetUnsentMessages
  simp only [healthy, scanUnsent_healthy]
  rw [show ({ execErr := none, resultErr := none, scanErr := fun _ => none } : Driver) = healthy
    from rfl, scanUnsent_healthy]

/-- The effect of a tick whose fetch succeeds. -/
theorem tick_eq (env : TickEnv) (s : messageScheduler) (w : World) {messages : List Message}
    (hfetch : GetUnsentMessages env.driverFetch w.db s.bacthSize = .ok messages) :
    tick env s w =
      { db := { w.db with rows := w.db.rows.map (rowFold env messages) },
        cache := cacheFold env s messages w.cache,
        events := w.events ++ .GetUnsentMessages s.bacthSize :: batchEvents env s messages } := by
  unfold tick
  simp only [hfetch, foldl_processMessage, List.append_assoc, List.singleton_append]

theorem sends_append : ∀ (xs ys : List Event), sends (xs ++ ys) = sends xs ++ sends ys
  | [], ys => rfl
  | .GetUnsentMessages _ :: xs, ys => by
    simp only [List.cons_append, sends]; exact sends_append xs ys
  | .Send _ _ :: xs, ys => by
    simp only [List.cons_append, sends]; exact congrArg _ (sends_append xs ys)
  | .UpdateMessageStatus _ _ _ _ :: xs, ys => by
    simp only [List.cons_append, sends]; exact sends_append xs ys
  | .CacheSentMessage _ :: xs, ys => by
    simp only [List.cons_append, sends]; exact sends_append xs ys

theorem sends_newEvents (env : TickEnv) (s : messageScheduler) (msg : Message) :
    sends (newEvents env s msg) = [(msg.To, msg.Content)] := by
  unfold newEvents
  cases env.send msg with
  | error e => rfl
  | ok resp => cases s.hasCache <;> rfl

theorem sends_batchEvents (env : TickEnv) (s : messageScheduler) :
    ∀ messages : List Message,
      sends (batchEvents env s messages) = messages.map (fun m => (m.To, m.Content))
  | [] => rfl
  | msg :: rest => by
    simp only [batchEvents, sends_append, sends_newEvents, sends_batchEvents env s rest,
      List.map_cons, List.singleton_append]

/-- C15. In one tick the dispatch client is invoked exactly once for every fetched message, in
fetch order: the sequence of `Send` calls made by the tick equals the fetched list mapped to
its recipient/content pairs, whatever the outcomes of the dispatches, of the status updates
and of the cache writes are; a tick whose fetch fails makes no `Send` call. -/
theorem C15_sends_in_fetch_order (env : TickEnv) (s : messageScheduler) (w : World) :
    (∀ messages, GetUnsentMessages env.driverFetch w.db s.bacthSize = .ok messages →
      sends (tick env s w).events =
        sends w.events ++ messages.map (fun m => (m.To, m.Content))) ∧
    (∀ e, GetUnsentMessages env.driverFetch w.db s.bacthSize = .error e →
      sends (tick env s w).events = sends w.events) := by
  refine ⟨?_, ?_⟩
  · intro messages hfetch
    rw [tick_eq env s w hfetch]
    simp only [sends_append, sends, sends_batchEvents]
  · intro e hfetch
    unfold tick
    simp only [hfetch, sends_append, sends, List.append_nil]

/-- C15, at a store holding three pending messages and a client that refuses the second:
all three are dispatched, in creation order. -/
theorem C15_sends_in_fetch_order_witness :
    sends (tick (refusing 2) { bacthSize := 10, hasCache := true }
        (freshWorld threePending)).events =
      [("+905551111111", "Message 1"), ("+905552222222", "Message 2"),
       ("+905553333333", "Message 3")] :=
  (C15_sends_in_fetch_order (refusing 2) { bacthSize := 10, hasCache := true }
    (freshWorld threePending)).1
    [messageOfRow (pendingRow 1 "+905551111111" "Message 1"),
     messageOfRow (pendingRow 2 "+905552222222" "Message 2"),
     messageOfRow (pendingRow 3 "+905553333333" "Message 3")] (by decide)

/-- C16, where the code departs from it: the dispatch of the only pending message is accepted
and the `UPDATE` of its status fails, yet the tick writes the cache entry for it; after the
tick the cache holds message 1 while its store record is unchanged, with status PENDING. -/
theorem C16_cached_without_store_write :
    (UpdateMessageStatus (storeDown.driverUpdate (messageOfRow (row 1 StatusPending none)))
        (atInstant 101) onePending 1 StatusSent (some "ext-1") (some (atInstant 100))).1 =
      some "failed to update message status: database is locked" ∧
    tick storeDown { bacthSize := 2, hasCache := true } (freshWorld onePending) =
      { db := onePending,
        cache := [(1, { MessageID := 1, ExternalMessageID := "ext-1", To := "r", Content := "m",
                        SentAt := atInstant 100 })],
        events := [.GetUnsentMessages 2, .Send "r" "m",
                   .UpdateMessageStatus 1 StatusSent (some "ext-1") (some (atInstant 100)),
                   .CacheSentMessage { MessageID := 1, ExternalMessageID := "ext-1", To := "r",
                                       Content := "m", SentAt := atInstant 100 }] } ∧
    onePending.rows.map (fun r => (r.id, r.status)) = [(1, StatusPending)] := by
  decide

/-! ### Lists: stable sorting, limits and keys -/

theorem filter_orderedInsert {α : Type} (r : α → α → Prop) [DecidableRel r] [IsTrans α r]
    (p : α → Bool) (a : α) :
    ∀ l : List α, l.Sorted r →
      (l.orderedInsert r a).filter p =
        if p a then (l.filter p).orderedInsert r a else l.filter p
  | [], _ => by
    cases hp : p a <;> simp [hp]
  | b :: l, hsorted => by
    have hb := List.sorted_cons.mp hsorted
    by_cases hab : r a b
    · have hall : ∀ x ∈ (b :: l).filter p, r a x := by
        intro x hx
        rcases List.mem_cons.mp (List.mem_of_mem_filter hx) with rfl | hxl
        · exact hab
        · exact IsTrans.trans _ _ _ hab (hb.1 x hxl)
      have hins : ((b :: l).filter p).orderedInsert r a = a :: (b :: l).filter p := by
        cases hf : (b :: l).filter p with
        | nil => rfl
        | cons y ys =>
          have hy : r a y := hall y (by rw [hf]; exact List.mem_cons_self _ _)
          simp [List.orderedInsert, hy]
      rw [hins]
      simp only [List.orderedInsert, if_pos hab]
      cases hp : p a <;> simp [List.filter_cons, hp]
    · have ih := filter_orderedInsert r p a l hb.2
      simp only [List.orderedInsert, if_neg hab, List.filter_cons]
      cases hpb : p b <;> cases hpa : p a <;> simp [hpa, ih, List.orderedInsert, hab]

/-- Filtering commutes with the stable sort. -/
theorem filter_insertionSort {α : Type} (r : α → α → Prop) [DecidableRel r] [IsTrans α r]
    [IsTotal α r] (p : α → Bool) :
    ∀ l : List α, (l.insertionSort r).filter p = (l.filter p).insertionSort r
  | [] => rfl
  | a :: l => by
    rw [List.insertionSort_cons_eq_take_drop, ← List.orderedInsert_eq_take_drop,
      filter_orderedInsert r p a _ (List.sorted_insertionSort r l), filter_insertionSort r p l]
    cases hp : p a <;> simp [List.filter_cons, hp]

theorem mem_take_filter {α : Type} (p : α → Bool) {x : α} (hx : p x = true) :
    ∀ (n : Nat) (l : List α), x ∈ l.take n → x ∈ (l.filter p).take n
  | 0, l, h => by simp at h
  | _ + 1, [], h => by simp at h
  | n + 1, y :: l, h => by
    rw [List.take_succ_cons] at h
    rcases List.mem_cons.mp h with rfl | hmem
    · simp [List.filter_cons, hx]
    · have ih := mem_take_filter p hx n l hmem
      cases hy : p y
      · rw [List.filter_cons, hy]
        exact (List.take_subset_take_left _ (Nat.le_succ n)) ih
      · rw [List.filter_cons, hy]
        simp only [if_true, List.take_succ_cons]
        exact List.mem_cons_of_mem _ ih

theorem sqlLimit_sublist {α : Type} (limit : Int) (rows : List α) :
    (sqlLimit limit rows).Sublist rows := by
  unfold sqlLimit
  split
  · exact List.Sublist.refl _
  · exact List.take_sublist _ _

theorem mem_sqlLimit_filter {α : Type} (p : α → Bool) {x : α} (hx : p x = true) (limit : Int)
    (rows : List α) (h : x ∈ sqlLimit limit rows) : x ∈ sqlLimit limit (rows.filter p) := by
  unfold sqlLimit at h ⊢
  split
  · rename_i hneg
    rw [if_pos hneg] at h
    exact List.mem_filter.mpr ⟨h, hx⟩
  · rename_i hneg
    rw [if_neg hneg] at h
    exact mem_take_filter p hx _ _ h

/-- A key that occurs once in the table selects one row. -/
theorem filter_id_eq_singleton {r : Row} :
    ∀ rows : List Row, (rows.map (fun x => x.id)).Nodup → r ∈ rows →
      rows.filter (fun x => x.id = r.id) = [r]
  | [], _, h => by cases h
  | x :: rows, hn, h => by
    rw [List.map_cons, List.nodup_cons] at hn
    rcases List.mem_cons.mp h with rfl | hmem
    · have hnone : rows.filter (fun x => decide (x.id = r.id)) = [] := by
        rw [List.filter_eq_nil_iff]
        intro y hy
        simp only [decide_eq_true_eq]
        intro heq
        exact hn.1 (List.mem_map.mpr ⟨y, hy, heq⟩)
      simp [List.filter_cons, hnone]
    · have hne : x.id ≠ r.id := by
        intro heq
        exact hn.1 (List.mem_map.mpr ⟨r, hmem, heq.symm⟩)
      simp [List.filter_cons, hne, filter_id_eq_singleton rows hn.2 hmem]

/-! ### What a batch does to a row and to the cache -/

theorem updateRow_id (messageID : Int) (status : Status) (ext : String) (sentAt : Option Time)
    (now : Time) (r : Row) : (updateRow messageID status ext sentAt now r).id = r.id := by
  unfold updateRow
  split <;> rfl

theorem rowStep_id (env : TickEnv) (msg : Message) (r : Row) : (rowStep env msg r).id = r.id := by
  unfold rowStep
  cases env.send msg with
  | error e => rfl
  | ok resp =>
    cases (env.driverUpdate msg).execErr with
    | some e => rfl
    | none => exact updateRow_id _ _ _ _ _ r

theorem rowStep_untouched (env : TickEnv) (msg : Message) (r : Row)
    (h : msg.ID ≠ r.id ∨ ∃ e, env.send msg = .error e) : rowStep env msg r = r := by
  unfold rowStep
  rcases h with hne | ⟨e, he⟩
  · cases env.send msg with
    | error e => rfl
    | ok resp =>
      cases (env.driverUpdate msg).execErr with
      | some e => rfl
      | none => simp [updateRow, Ne.symm hne]
  · rw [he]

theorem rowFold_cons (env : TickEnv) (msg : Message) (rest : List Message) (r : Row) :
    rowFold env (msg :: rest) r = rowFold env rest (rowStep env msg r) := rfl

theorem rowFold_id (env : TickEnv) : ∀ (messages : List Message) (r : Row),
    (rowFold env messages r).id = r.id
  | [], _ => rfl
  | msg :: rest, r => by
    rw [rowFold_cons, rowFold_id env rest, rowStep_id]

/-- A row is left as it is by a batch in which every message with its id fails to dispatch. -/
theorem rowFold_untouched (env : TickEnv) : ∀ (messages : List Message) (r : Row),
    (∀ m ∈ messages, m.ID ≠ r.id ∨ ∃ e, env.send m = .error e) → rowFold env messages r = r
  | [], _, _ => rfl
  | msg :: rest, r, h => by
    rw [rowFold_cons, rowStep_untouched env msg r (h msg (List.mem_cons_self _ _))]
    exact rowFold_untouched env rest r (fun m hm => h m (List.mem_cons_of_mem _ hm))

/-- A row whose message is dispatched and updated ends as that update leaves it. -/
theorem rowFold_updated (env : TickEnv) {m : Message} {resp : WebhookResponse}
    (hsend : env.send m = .ok resp) (hexec : (env.driverUpdate m).execErr = none) :
    ∀ (messages : List Message) (r : Row),
      (messages.map (fun x => x.ID)).Nodup → m ∈ messages → m.ID = r.id →
      rowFold env messages r =
        updateRow m.ID StatusSent resp.MessageID (some (env.now m)) (env.updateNow m) r
  | [], _, _, hm, _ => by cases hm
  | msg :: rest, r, hn, hm, hid => by
    rw [List.map_cons, List.nodup_cons] at hn
    rw [rowFold_cons]
    rcases List.mem_cons.mp hm with rfl | hmem
    · have hstep : rowStep env m r =
          updateRow m.ID StatusSent resp.MessageID (some (env.now m)) (env.updateNow m) r := by
        unfold rowStep
        rw [hsend, hexec]
      rw [hstep]
      refine rowFold_untouched env rest _ (fun x hx => Or.inl ?_)
      rw [updateRow_id, ← hid]
      intro heq
      exact hn.1 (List.mem_map.mpr ⟨x, hx, heq⟩)
    · have hne : msg.ID ≠ r.id := by
        rw [← hid]
        intro heq
        exact hn.1 (List.mem_map.mpr ⟨m, hmem, heq.symm⟩)
      rw [rowStep_untouched env msg r (Or.inl hne)]
      exact rowFold_updated env hsend hexec rest r hn.2 hmem hid

theorem filter_map_rowFold (env : TickEnv) (messages : List Message) (rows : List Row)
    (id : Int) :
    (rows.map (rowFold env messages)).filter (fun r => r.id = id) =
      (rows.filter (fun r => r.id = id)).map (rowFold env messages) := by
  rw [List.filter_map]
  congr 2
  funext r
  simp [rowFold_id]

theorem cacheStep_other (env : TickEnv) (s : messageScheduler) (msg : Message) (cache : Cache)
    (id : Int) (hne : msg.ID ≠ id) :
    (cacheStep env s msg cache).filter (fun entry => entry.1 = id) =
      cache.filter (fun entry => entry.1 = id) := by
  unfold cacheStep CacheSentMessage
  cases env.send msg with
  | error e => rfl
  | ok resp =>
    cases s.hasCache with
    | false => rfl
    | true =>
      cases env.marshalErr msg with
      | some e => rfl
      | none =>
        cases env.setErr msg with
        | some e => rfl
        | none =>
          simp only [if_true, List.filter_append, List.filter_filter]
          have hlast : ∀ c : SentMessageCache,
              [(msg.ID, c)].filter (fun entry => decide (entry.1 = id)) = [] := by
            intro c
            simp [hne]
          rw [hlast, List.append_nil]
          apply List.filter_congr
          intro entry _
          by_cases h : entry.1 = id
          · simp [h, Ne.symm hne]
          · simp [h]

theorem cacheFold_cons (env : TickEnv) (s : messageScheduler) (msg : Message)
    (rest : List Message) (cache : Cache) :
    cacheFold env s (msg :: rest) cache = cacheFold env s rest (cacheStep env s msg cache) := rfl

theorem cacheFold_other (env : TickEnv) (s : messageScheduler) (id : Int) :
    ∀ (messages : List Message) (cache : Cache), (∀ m ∈ messages, m.ID ≠ id) →
      (cacheFold env s messages cache).filter (fun entry => entry.1 = id) =
        cache.filter (fun entry => entry.1 = id)
  | [], _, _ => rfl
  | msg :: rest, cache, h => by
    rw [cacheFold_cons, cacheFold_other env s id rest _
      (fun m hm => h m (List.mem_cons_of_mem _ hm)),
      cacheStep_other env s msg cache id (h msg (List.mem_cons_self _ _))]

theorem cacheStep_written (env : TickEnv) (s : messageScheduler) (m : Message)
    (resp : WebhookResponse) (cache : Cache) (hsend : env.send m = .ok resp)
    (hcache : s.hasCache = true) (hmarshal : env.marshalErr m = none)
    (hset : env.setErr m = none) :
    (cacheStep env s m cache).filter (fun entry => entry.1 = m.ID) =
      [(m.ID, { MessageID := m.ID, ExternalMessageID := resp.MessageID, To := m.To,
                Content := m.Content, SentAt := env.now m })] := by
  unfold cacheStep CacheSentMessage
  rw [hsend, hmarshal, hset]
  simp only [hcache, if_true, List.filter_append, List.filter_filter]
  have hnone : cache.filter (fun entry => decide (entry.1 = m.ID) && decide (entry.1 ≠ m.ID)) =
      [] := by
    rw [List.filter_eq_nil_iff]
    intro entry _
    by_cases h : entry.1 = m.ID <;> simp [h]
  rw [hnone]
  simp

/-- The cache holds exactly one entry for a message that was dispatched and cached. -/
theorem cacheFold_written (env : TickEnv) (s : messageScheduler) {m : Message}
    {resp : WebhookResponse} (hsend : env.send m = .ok resp) (hcache : s.hasCache = true)
    (hmarshal : env.marshalErr m = none) (hset : env.setErr m = none) :
    ∀ (messages : List Message) (cache : Cache),
      (messages.map (fun x => x.ID)).Nodup → m ∈ messages →
      (cacheFold env s messages cache).filter (fun entry => entry.1 = m.ID) =
        [(m.ID, { MessageID := m.ID, ExternalMessageID := resp.MessageID, To := m.To,
                  Content := m.Content, SentAt := env.now m })]
  | [], _, _, hm => by cases hm
  | msg :: rest, cache, hn, hm => by
    rw [List.map_cons, List.nodup_cons] at hn
    rw [cacheFold_cons]
    rcases List.mem_cons.mp hm with rfl | hmem
    · rw [cacheFold_other env s m.ID rest _ (fun x hx heq =>
        hn.1 (List.mem_map.mpr ⟨x, hx, heq⟩))]
      exact cacheStep_written env s m resp cache hsend hcache hmarshal hset
    · exact cacheFold_written env s hsend hcache hmarshal hset rest _ hn.2 hmem

/-- The rows behind a successful fetch: every fetched message is the scan of a PENDING row of
the table that lies within the limit, and no two fetched messages share an id. -/
theorem fetched_rows {driver : Driver} {db : DB} {limit : Int} {messages : List Message}
    (hids : (db.rows.map (fun r => r.id)).Nodup)
    (hfetch : GetUnsentMessages driver db limit = .ok messages) :
    (messages.map (fun m => m.ID)).Nodup ∧
    ∀ m ∈ messages, ∃ r ∈ db.rows, r.status = StatusPending ∧ messageOfRow r = m ∧
      r ∈ sqlLimit limit ((db.rows.filter (fun r => r.status = StatusPending)).insertionSort
        createdAtAsc) := by
  have hms := GetUnsentMessages_ok hfetch
  have hsub := sqlLimit_sublist limit
    ((db.rows.filter (fun r => r.status = StatusPending)).insertionSort
      createdAtAsc)
  have hperm := List.perm_insertionSort createdAtAsc (db.rows.filter (fun r => r.status = StatusPending))
  constructor
  · rw [hms, List.map_map]
    refine List.Nodup.sublist (hsub.map _) ?_
    rw [(hperm.map _).nodup_iff]
    exact List.Nodup.sublist ((List.filter_sublist _).map _) hids
  · intro m hm
    rw [hms] at hm
    obtain ⟨r, hr, rfl⟩ := List.mem_map.mp hm
    have hmem := (hperm.mem_iff).mp (hsub.subset hr)
    have hf := List.mem_filter.mp hmem
    exact ⟨r, hf.1, by simpa using hf.2, rfl, hr⟩

/-- C13. If a tick fetches N pending messages and, for each of them, the dispatch, the status
update and the cache write succeed, then after the tick each of the N records has status SENT
in the store, with the external id returned by the dispatch and the sent-at taken after it,
and the cache holds exactly one entry for each of the N message ids, carrying the message's
recipient and content and the same external id and sent-at that were written to its store
record.  (`hids` is the primary key constraint of the table.) -/
theorem C13_tick_all_succeed (env : TickEnv) (s : messageScheduler) (w : World)
    (messages : List Message)
    (hids : (w.db.rows.map (fun r => r.id)).Nodup)
    (hcache : s.hasCache = true)
    (hfetch : GetUnsentMessages env.driverFetch w.db s.bacthSize = .ok messages)
    (hsend : ∀ m ∈ messages, ∃ resp, env.send m = .ok resp)
    (hupdate : ∀ m ∈ messages,
      (env.driverUpdate m).execErr = none ∧ (env.driverUpdate m).resultErr = none)
    (hwrite : ∀ m ∈ messages, env.marshalErr m = none ∧ env.setErr m = none) :
    ∀ m ∈ messages, ∃ resp, env.send m = .ok resp ∧
      (∃ r ∈ w.db.rows, messageOfRow r = m ∧ r.status = StatusPending ∧
        (tick env s w).db.rows.filter (fun x => x.id = m.ID) =
          [{ r with status := StatusSent, external_message_id := resp.MessageID,
                    sent_at := some (env.now m), updated_at := env.updateNow m }]) ∧
      (tick env s w).cache.filter (fun entry => entry.1 = m.ID) =
        [(m.ID, { MessageID := m.ID, ExternalMessageID := resp.MessageID, To := m.To,
                  Content := m.Content, SentAt := env.now m })] := by
  intro m hm
  obtain ⟨resp, hresp⟩ := hsend m hm
  obtain ⟨hnodup, hrows⟩ := fetched_rows hids hfetch
  obtain ⟨r, hr, hpending, hrm, -⟩ := hrows m hm
  have hid : m.ID = r.id := by rw [← hrm]; rfl
  refine ⟨resp, hresp, ⟨r, hr, hrm, hpending, ?_⟩, ?_⟩
  · rw [tick_eq env s w hfetch]
    simp only
    rw [filter_map_rowFold, hid, filter_id_eq_singleton w.db.rows hids hr, List.map_singleton,
      rowFold_updated env hresp (hupdate m hm).1 messages r hnodup hm hid]
    simp [updateRow, hid]
  · rw [tick_eq env s w hfetch]
    exact cacheFold_written env s hresp hcache (hwrite m hm).1 (hwrite m hm).2 messages _
      hnodup hm

/-- C13, at a store holding three pending messages with every dispatch accepted as `ext-1` at
instant 100: the three records end SENT and the cache holds one entry for each. -/
theorem C13_tick_all_succeed_witness :
    ((tick (accepting "ext-1") batchOfTen (freshWorld threePending)).db.rows.map
        (fun r => (r.id, r.status, r.external_message_id, r.sent_at)) =
      [(1, StatusSent, "ext-1", some (atInstant 100)),
       (2, StatusSent, "ext-1", some (atInstant 100)),
       (3, StatusSent, "ext-1", some (atInstant 100))] ∧
     (tick (accepting "ext-1") batchOfTen (freshWorld threePending)).cache.map
        (fun entry => (entry.1, entry.2.ExternalMessageID, entry.2.To, entry.2.SentAt)) =
      [(1, "ext-1", "+905551111111", atInstant 100),
       (2, "ext-1", "+905552222222", atInstant 100),
       (3, "ext-1", "+905553333333", atInstant 100)]) ∧
    ∀ m ∈ threeMessages, ∃ resp, (accepting "ext-1").send m = .ok resp ∧
      (∃ r ∈ (freshWorld threePending).db.rows, messageOfRow r = m ∧
        r.status = StatusPending ∧
        (tick (accepting "ext-1") batchOfTen (freshWorld threePending)).db.rows.filter
            (fun x => x.id = m.ID) =
          [{ r with status := StatusSent, external_message_id := resp.MessageID,
                    sent_at := some ((accepting "ext-1").now m),
                    updated_at := (accepting "ext-1").updateNow m }]) ∧
      (tick (accepting "ext-1") batchOfTen (freshWorld threePending)).cache.filter
          (fun entry => entry.1 = m.ID) =
        [(m.ID, { MessageID := m.ID, ExternalMessageID := resp.MessageID, To := m.To,
                  Content := m.Content, SentAt := (accepting "ext-1").now m })] :=
  ⟨by decide,
   C13_tick_all_succeed (accepting "ext-1") batchOfTen (freshWorld threePending) threeMessages
     (by decide) rfl (by decide) (fun _ _ => ⟨_, rfl⟩) (fun _ _ => ⟨rfl, rfl⟩)
     (fun _ _ => ⟨rfl, rfl⟩)⟩

theorem mem_batchEvents (env : TickEnv) (s : messageScheduler) {ev : Event} :
    ∀ messages : List Message, ev ∈ batchEvents env s messages →
      ∃ m ∈ messages, ev ∈ newEvents env s m
  | [], h => by cases h
  | msg :: rest, h => by
    rcases List.mem_append.mp h with h | h
    · exact ⟨msg, List.mem_cons_self _ _, h⟩
    · obtain ⟨m, hm, hev⟩ := mem_batchEvents env s rest h
      exact ⟨m, List.mem_cons_of_mem _ hm, hev⟩

/-- A status update or a cache write is made for a message only after its dispatch was
accepted. -/
theorem newEvents_write (env : TickEnv) (s : messageScheduler) (m : Message) {ev : Event}
    (h : ev ∈ newEvents env s m) :
    (∀ id st ext t, ev = .UpdateMessageStatus id st ext t →
      id = m.ID ∧ ∃ resp, env.send m = .ok resp) ∧
    (∀ c, ev = .CacheSentMessage c → c.MessageID = m.ID ∧ ∃ resp, env.send m = .ok resp) := by
  unfold newEvents at h
  cases hsend : env.send m with
  | error e =>
    rw [hsend] at h
    simp only [List.mem_singleton] at h
    subst h
    exact ⟨fun _ _ _ _ hx => (by cases hx), fun _ hx => (by cases hx)⟩
  | ok resp =>
    rw [hsend] at h
    cases hc : s.hasCache <;> rw [hc] at h <;> simp at h
    · rcases h with rfl | rfl
      · exact ⟨fun _ _ _ _ hx => (by cases hx), fun _ hx => (by cases hx)⟩
      · exact ⟨fun _ _ _ _ hx => (by cases hx; exact ⟨rfl, resp, rfl⟩),
          fun _ hx => (by cases hx)⟩
    · rcases h with rfl | rfl | rfl
      · exact ⟨fun _ _ _ _ hx => (by cases hx), fun _ hx => (by cases hx)⟩
      · exact ⟨fun _ _ _ _ hx => (by cases hx; exact ⟨rfl, resp, rfl⟩),
          fun _ hx => (by cases hx)⟩
      · exact ⟨fun _ _ _ _ hx => (by cases hx),
          fun _ hx => (by cases hx; exact ⟨rfl, resp, rfl⟩)⟩

theorem rowStep_status (env : TickEnv) (msg : Message) (r : Row) :
    rowStep env msg r = r ∨ (rowStep env msg r).status = StatusSent := by
  unfold rowStep
  cases env.send msg with
  | error e => exact Or.inl rfl
  | ok resp =>
    cases (env.driverUpdate msg).execErr with
    | some e => exact Or.inl rfl
    | none =>
      by_cases h : r.id = msg.ID
      · exact Or.inr (by simp [updateRow, h])
      · exact Or.inl (by simp [updateRow, h])

theorem rowFold_sent (env : TickEnv) : ∀ (messages : List Message) (r : Row),
    r.status = StatusSent → (rowFold env messages r).status = StatusSent
  | [], _, h => h
  | msg :: rest, r, h => by
    rw [rowFold_cons]
    refine rowFold_sent env rest _ ?_
    rcases rowStep_status env msg r with hsame | hsent
    · rw [hsame]; exact h
    · exact hsent

/-- A batch leaves a row as it is or leaves it with status SENT. -/
theorem rowFold_status (env : TickEnv) : ∀ (messages : List Message) (r : Row),
    rowFold env messages r = r ∨ (rowFold env messages r).status = StatusSent
  | [], _ => Or.inl rfl
  | msg :: rest, r => by
    rw [rowFold_cons]
    rcases rowStep_status env msg r with hsame | hsent
    · rw [hsame]; exact rowFold_status env rest r
    · exact Or.inr (rowFold_sent env rest _ hsent)

theorem sent_ne_pending : StatusSent ≠ StatusPending := by decide

/-- The pending rows after a batch are the pending rows from before that the batch left
pending, in the same order. -/
theorem pending_after_batch (env : TickEnv) (messages : List Message) (rows : List Row) :
    (rows.map (rowFold env messages)).filter (fun r => r.status = StatusPending) =
      (rows.filter (fun r => r.status = StatusPending)).filter
        (fun r => (rowFold env messages r).status = StatusPending) := by
  have hkeep : ∀ r : Row, (rowFold env messages r).status = StatusPending →
      rowFold env messages r = r := by
    intro r hr
    rcases rowFold_status env messages r with h | h
    · exact h
    · exact absurd (h.symm.trans hr) sent_ne_pending
  induction rows with
  | nil => rfl
  | cons r rows ih =>
    rw [List.map_cons, List.filter_cons, List.filter_cons, ih]
    by_cases hr : (rowFold env messages r).status = StatusPending
    · have hsame := hkeep r hr
      have hr' : r.status = StatusPending := by rw [← hsame]; exact hr
      simp [hr, hr', hsame, List.filter_cons]
    · by_cases hr' : r.status = StatusPending
      · simp [hr, hr', List.filter_cons]
      · simp [hr, hr']

/-- C14. If the dispatch client fails for a fetched message, the tick performs no status
update and no cache write for that message: its store record is unchanged, with status
PENDING, and the message is returned again by the next `GetUnsentMessages` call made with the
same batch size.  (`hids` is the primary key constraint of the table.) -/
theorem C14_failed_dispatch_stays_pending (env : TickEnv) (s : messageScheduler) (w : World)
    (messages : List Message) (m : Message) (e : Error)
    (hids : (w.db.rows.map (fun r => r.id)).Nodup)
    (hfetch : GetUnsentMessages env.driverFetch w.db s.bacthSize = .ok messages)
    (hm : m ∈ messages) (hfail : env.send m = .error e) :
    (∃ made, (tick env s w).events = w.events ++ made ∧
      ∀ ev ∈ made, (∀ st ext t, ev ≠ .UpdateMessageStatus m.ID st ext t) ∧
        (∀ c, ev = .CacheSentMessage c → c.MessageID ≠ m.ID)) ∧
    (tick env s w).db.rows.filter (fun r => r.id = m.ID) =
      w.db.rows.filter (fun r => r.id = m.ID) ∧
    (∃ r ∈ (tick env s w).db.rows, messageOfRow r = m ∧ r.status = StatusPending) ∧
    (∃ next, GetUnsentMessages healthy (tick env s w).db s.bacthSize = .ok next ∧
      m ∈ next) := by
  obtain ⟨hnodup, hrows⟩ := fetched_rows hids hfetch
  obtain ⟨r, hr, hpending, hrm, hlimit⟩ := hrows m hm
  have hid : m.ID = r.id := by rw [← hrm]; rfl
  have honly : ∀ m' ∈ messages, m'.ID = m.ID → m' = m := fun m' hm' heq =>
    List.inj_on_of_nodup_map hnodup hm' hm heq
  have hkeep : ∀ x : Row, x.id = m.ID → rowFold env messages x = x := by
    intro x hx
    refine rowFold_untouched env messages x (fun m' hm' => ?_)
    by_cases heq : m'.ID = m.ID
    · rw [honly m' hm' heq]
      exact Or.inr ⟨e, hfail⟩
    · exact Or.inl (fun h => heq (h.trans hx))
  have hdb : (tick env s w).db.rows = w.db.rows.map (rowFold env messages) := by
    rw [tick_eq env s w hfetch]
  refine ⟨?_, ?_, ?_, ?_⟩
  · refine ⟨.GetUnsentMessages s.bacthSize :: batchEvents env s messages, ?_, ?_⟩
    · rw [tick_eq env s w hfetch]
    · intro ev hev
      rcases List.mem_cons.mp hev with rfl | hev
      · exact ⟨fun _ _ _ hx => (by cases hx), fun _ hx => (by cases hx)⟩
      · obtain ⟨m', hm', hnew⟩ := mem_batchEvents env s messages hev
        have hwrite := newEvents_write env s m' hnew
        constructor
        · intro st ext t hx
          obtain ⟨hid', resp, hresp⟩ := hwrite.1 m.ID st ext t hx
          rw [honly m' hm' hid'.symm, hfail] at hresp
          cases hresp
        · intro c hx hc
          obtain ⟨hid', resp, hresp⟩ := hwrite.2 c hx
          rw [honly m' hm' (hid'.symm.trans hc), hfail] at hresp
          cases hresp
  · rw [hdb, filter_map_rowFold]
    refine (List.map_congr_left ?_).trans (List.map_id _)
    intro x hx
    exact hkeep x (by simpa using (List.mem_filter.mp hx).2)
  · refine ⟨r, ?_, hrm, hpending⟩
    rw [hdb]
    exact List.mem_map.mpr ⟨r, hr, hkeep r hid.symm⟩
  · refine ⟨_, GetUnsentMessages_healthy _ _, ?_⟩
    rw [hdb, pending_after_batch]
    rw [← filter_insertionSort]
    refine List.mem_map.mpr ⟨r, ?_, hrm⟩
    refine mem_sqlLimit_filter _ ?_ _ _ hlimit
    rw [hkeep r hid.symm]
    simpa using hpending

/-- C14, at a store holding three pending messages, batch size two and a client that refuses
message 2: after the tick message 1 is SENT, message 2 is untouched and the next fetch returns
messages 2 and 3. -/
theorem C14_failed_dispatch_stays_pending_witness :
    ((GetUnsentMessages healthy (tick (refusing 2) batchOfTwo (freshWorld threePending)).db
        batchOfTwo.bacthSize).map (List.map (fun m => m.ID)) = .ok [2, 3] ∧
     (tick (refusing 2) batchOfTwo (freshWorld threePending)).db.rows.map
        (fun r => (r.id, r.status)) =
       [(1, StatusSent), (2, StatusPending), (3, StatusPending)]) ∧
    ((∃ made, (tick (refusing 2) batchOfTwo (freshWorld threePending)).events =
        (freshWorld threePending).events ++ made ∧
      ∀ ev ∈ made, (∀ st ext t, ev ≠ .UpdateMessageStatus secondMessage.ID st ext t) ∧
        (∀ c, ev = .CacheSentMessage c → c.MessageID ≠ secondMessage.ID)) ∧
    (tick (refusing 2) batchOfTwo (freshWorld threePending)).db.rows.filter
        (fun r => r.id = secondMessage.ID) =
      (freshWorld threePending).db.rows.filter (fun r => r.id = secondMessage.ID) ∧
    (∃ r ∈ (tick (refusing 2) batchOfTwo (freshWorld threePending)).db.rows,
      messageOfRow r = secondMessage ∧ r.status = StatusPending) ∧
    (∃ next, GetUnsentMessages healthy
        (tick (refusing 2) batchOfTwo (freshWorld threePending)).db batchOfTwo.bacthSize =
          .ok next ∧
      secondMessage ∈ next)) :=
  ⟨by decide,
   C14_failed_dispatch_stays_pending (refusing 2) batchOfTwo (freshWorld threePending)
     [messageOfRow (pendingRow 1 "+905551111111" "Message 1"), secondMessage] secondMessage
     "failed to send message, status code: 500" (by decide) (by decide) (by decide) rfl⟩

/-! ## The scheduler lifecycle -/

theorem settled_new : Settled newLifecycle := by
  constructor <;> intro h <;> simp [newLifecycle] at h ⊢

theorem settled_Start {s : Lifecycle} (h : Settled s) : Settled (Start s) := by
  unfold Start
  cases hr : s.running with
  | true => simpa [hr] using h
  | false =>
    have h0 := h.2 hr
    constructor <;> intro h' <;> simp [h0] at h' ⊢

theorem settled_Stop {s : Lifecycle} (h : Settled s) : ∃ s', Stop s = some s' ∧ Settled s' := by
  unfold Stop
  cases hr : s.running with
  | false => exact ⟨s, by simp, h⟩
  | true =>
    obtain ⟨h1, hchan⟩ := h.1 hr
    refine ⟨loopReturn { s with stopChan := some true }, by simp [hchan, h1, hr], ?_⟩
    constructor <;> intro h' <;> simp [loopReturn, h1] at h' ⊢

theorem settled_control : ∀ (calls : List Control) (s : Lifecycle), Settled s →
    ∃ s', control calls s = some s' ∧ Settled s'
  | [], s, h => ⟨s, rfl, h⟩
  | .start :: rest, s, h => by
    simpa [control] using settled_control rest (Start s) (settled_Start h)
  | .stop :: rest, s, h => by
    obtain ⟨s', hs', hsettled⟩ := settled_Stop h
    simpa [control, hs'] using settled_control rest s' hsettled

/-- C17. The scheduler is a two-state machine, Stopped initially: `Start` on a Running
scheduler changes nothing and launches no loop, `Start` on a Stopped scheduler moves it to
Running and launches exactly one loop, `Stop` on a Stopped scheduler changes nothing; every
sequence of `Start` and `Stop` calls runs to completion, and in the state it reaches at most
one loop instance exists (exactly one when Running, none when Stopped). -/
theorem C17_lifecycle :
    (∀ s : Lifecycle, s.running = true → Start s = s) ∧
    (∀ s : Lifecycle, s.running = false →
      (Start s).running = true ∧ (Start s).loops = s.loops + 1) ∧
    (∀ s : Lifecycle, s.running = false → Stop s = some s) ∧
    newLifecycle.running = false ∧
    (∀ calls : List Control, ∃ s, control calls newLifecycle = some s ∧ s.loops ≤ 1 ∧
      (s.running = true ↔ s.loops = 1)) := by
  refine ⟨?_, ?_, ?_, rfl, ?_⟩
  · intro s h
    simp [Start, h]
  · intro s h
    simp [Start, h]
  · intro s h
    simp [Stop, h]
  · intro calls
    obtain ⟨s, hs, hsettled⟩ := settled_control calls newLifecycle settled_new
    refine ⟨s, hs, ?_, ?_⟩
    · cases hr : s.running with
      | true => exact le_of_eq (hsettled.1 hr).1
      | false => rw [hsettled.2 hr]; exact Nat.zero_le 1
    · constructor
      · intro hr
        exact (hsettled.1 hr).1
      · intro h1
        cases hr : s.running with
        | true => rfl
        | false =>
          have h0 := hsettled.2 hr
          omega

/-- C17, at the calls Start, Start, Stop, Stop, Start: the second Start and the second Stop
change nothing, and one loop is alive at the end. -/
theorem C17_lifecycle_witness :
    Start (Start newLifecycle) = Start newLifecycle ∧
    ((Start newLifecycle).running = true ∧ (Start newLifecycle).loops = newLifecycle.loops + 1) ∧
    Stop newLifecycle = some newLifecycle ∧
    control [.start, .start, .stop, .stop, .start] newLifecycle =
      some { running := true, stopChan := some false, doneChan := some false, loops := 1 } :=
  ⟨C17_lifecycle.1 (Start newLifecycle) (by decide),
   C17_lifecycle.2.1 newLifecycle (by decide),
   C17_lifecycle.2.2.1 newLifecycle (by decide),
   by decide⟩

/-! ## Stop racing with the loop -/

theorem step_sent_of_ended {a : Action} {s s' : Race} (hended : s.loop = .ended)
    (h : step a s = some s') : s'.loop = .ended ∧ s'.sent = s.sent := by
  cases a <;> simp only [step, hended] at h
  case loopSend => simp at h
  case loopTickDone => simp at h
  case loopTimer => simp at h
  case loopSeeStop => simp at h
  case loopDeferred => simp at h
  case stopEnter i =>
    split at h
    · split at h
      · cases h; exact ⟨rfl, rfl⟩
      · split at h <;> cases h <;> exact ⟨rfl, rfl⟩
    · cases h
  case stopWake i =>
    split at h
    · cases h; exact ⟨rfl, rfl⟩
    · cases h

theorem steps_sent_of_ended : ∀ (schedule : List Action) (s s' : Race),
    s.loop = .ended → steps schedule s = some s' → s'.loop = .ended ∧ s'.sent = s.sent
  | [], s, s', hended, h => by
    simp only [steps, Option.some.injEq] at h
    subst h
    exact ⟨hended, rfl⟩
  | a :: rest, s, s', hended, h => by
    unfold steps at h
    cases hstep : step a s with
    | none => rw [hstep] at h; cases h
    | some s₁ =>
      rw [hstep] at h
      obtain ⟨h₁, hsent⟩ := step_sent_of_ended hended hstep
      obtain ⟨h₂, hsent'⟩ := steps_sent_of_ended rest s₁ s' h₁ h
      exact ⟨h₂, hsent'.trans hsent⟩

theorem set_returned {l : List StopAt} {i j : Nat} {x : StopAt}
    (h : (l.set i x)[j]? = some .returned) :
    x = .returned ∨ l[j]? = some .returned := by
  rw [List.getElem?_set] at h
  split at h
  · split at h
    · left
      simpa using h
    · cases h
  · exact Or.inr h

theorem raceInv_racing (n : Nat) : RaceInv (racing n) := by
  constructor
  · intro _
    exact ⟨rfl, rfl⟩
  · intro i h
    simp only [racing] at h
    rw [List.getElem?_replicate] at h
    split at h <;> cases h

theorem step_inv {a : Action} {s s' : Race} (hinv : RaceInv s) (h : step a s = some s') :
    RaceInv s' := by
  obtain ⟨hlive, hret⟩ := hinv
  cases a <;> simp only [step] at h
  case loopSend =>
    split at h
    · rename_i hl
      cases h
      exact ⟨fun _ => hlive (by rw [hl]; decide), fun i hi => hret i hi⟩
    · cases h
  case loopTickDone =>
    split at h
    · rename_i hl
      cases h
      refine ⟨fun _ => hlive (by rw [hl]; decide), fun i hi => ?_⟩
      have := hret i hi
      rw [hl] at this
      cases this
    · cases h
  case loopTimer =>
    split at h
    · rename_i hl
      cases h
      refine ⟨fun _ => hlive (by rw [hl]; decide), fun i hi => ?_⟩
      have := hret i hi
      rw [hl] at this
      cases this
    · cases h
  case loopSeeStop =>
    split at h
    · rename_i hl
      cases h
      refine ⟨fun _ => hlive (by rw [hl.1]; decide), fun i hi => ?_⟩
      have := hret i hi
      rw [hl.1] at this
      cases this
    · cases h
  case loopDeferred =>
    split at h
    · cases h
      exact ⟨fun hne => absurd rfl hne, fun _ _ => rfl⟩
    · cases h
  case stopEnter i =>
    split at h
    · split at h
      · rename_i hrun
        cases h
        have hended : s.loop = .ended := by
          by_contra hne
          have := (hlive hne).1
          simp [this] at hrun
        exact ⟨fun hne => absurd hended hne, fun _ _ => hended⟩
      · split at h
        · cases h
          refine ⟨hlive, fun j hj => ?_⟩
          rcases set_returned hj with hx | hold
          · cases hx
          · exact hret j hold
        · cases h
          refine ⟨hlive, fun j hj => ?_⟩
          rcases set_returned hj with hx | hold
          · cases hx
          · exact hret j hold
    · cases h
  case stopWake i =>
    split at h
    · rename_i hw
      cases h
      have hended : s.loop = .ended := by
        by_contra hne
        have := (hlive hne).2
        rw [hw.2] at this
        cases this
      exact ⟨fun hne => absurd hended hne, fun _ _ => hended⟩
    · cases h

theorem steps_inv : ∀ (schedule : List Action) (s s' : Race),
    RaceInv s → steps schedule s = some s' → RaceInv s'
  | [], s, s', hinv, h => by
    simp only [steps, Option.some.injEq] at h
    exact h ▸ hinv
  | a :: rest, s, s', hinv, h => by
    unfold steps at h
    cases hstep : step a s with
    | none => rw [hstep] at h; cases h
    | some s₁ =>
      rw [hstep] at h
      exact steps_inv rest s₁ s' (step_inv hinv hstep) h

/-- C18. `Stop` called on a Running scheduler returns only after the loop has fully exited:
in every interleaving of the loop with any number of concurrent `Stop` calls, whenever one of
the calls has returned the loop has ended, and no `Send` call is made from then on. -/
theorem C18_stop_returns_after_loop (n : Nat) (schedule : List Action) (s : Race)
    (hrun : steps schedule (racing n) = some s) (i : Nat)
    (hreturned : s.stops[i]? = some .returned) :
    s.loop = .ended ∧
    ∀ (later : List Action) (s' : Race), steps later s = some s' →
      s'.sent = s.sent ∧ s'.loop = .ended := by
  have hinv := steps_inv schedule (racing n) s (raceInv_racing n) hrun
  have hended := hinv.2 i hreturned
  refine ⟨hended, fun later s' hlater => ?_⟩
  obtain ⟨h₁, h₂⟩ := steps_sent_of_ended later s s' hended hlater
  exact ⟨h₂, h₁⟩

/-- C18, at the schedule `oneStop`; and, with two concurrent calls, the second one to enter
closes the closed channel and panics while it holds the lock, so that neither call returns. -/
theorem C18_stop_returns_after_loop_witness :
    steps oneStop (racing 1) = some afterOneStop ∧
    steps [.stopEnter 0, .stopEnter 1] (racing 2) =
      some { running := true, stopClosed := true, doneClosed := false, muStuck := true,
             loop := .ticking, stops := [.waiting, .panicked], sent := 0 } ∧
    (afterOneStop.loop = .ended ∧
      ∀ (later : List Action) (s' : Race), steps later afterOneStop = some s' →
        s'.sent = afterOneStop.sent ∧ s'.loop = .ended) :=
  ⟨by decide, by decide,
   C18_stop_returns_after_loop 1 oneStop afterOneStop (by decide) 0 (by decide)⟩

/-! ## The store query of `ListSentMessages` -/

/-- C27. When the cache yields `k < limit` entries (`k = 0` when the cache read failed or
returned nothing), `ListSentMessages(limit)` queries the store exactly once, with the argument
`limit - k`, which is at least 1; this holds whether the store answers or fails. -/
theorem C27_store_queried_once (sortSlice : SortFn) (format : Time → String)
    (cacheRepo : CacheRepo) (repo : StoreRepo) (limit : Int)
    (hk : (cacheYield cacheRepo limit : Int) < limit) :
    storeQueries (ListSentMessages sortSlice format cacheRepo repo limit).calls =
      [limit - (cacheYield cacheRepo limit : Int)] ∧
    (ListSentMessages sortSlice format cacheRepo repo limit).calls =
      [.GetAllSentMessages limit,
       .GetSentMessages (limit - (cacheYield cacheRepo limit : Int))] ∧
    1 ≤ limit - (cacheYield cacheRepo limit : Int) := by
  have hlen := sortableFromCache_length format cacheRepo limit
  have hlt : ((sortableFromCache format cacheRepo limit).length : Int) < limit := by
    rw [hlen]; exact hk
  have hcalls : (ListSentMessages sortSlice format cacheRepo repo limit).calls =
      [.GetAllSentMessages limit,
       .GetSentMessages (limit - (cacheYield cacheRepo limit : Int))] := by
    rw [ListSentMessages_calls]
    cases hrepo : repo (limit - ((sortableFromCache format cacheRepo limit).length : Int)) with
    | error e =>
      rw [listSentSortable_storeError sortSlice format cacheRepo repo hlt hrepo, hlen]
    | ok dbMessages =>
      rw [listSentSortable_storeOk sortSlice format cacheRepo repo hlt hrepo, hlen]
  refine ⟨?_, hcalls, by omega⟩
  rw [hcalls]
  rfl

/-- C27, at limit 10 with two cached messages: the store is asked once, for 8 messages; and at
limit 10 with a failing cache it is asked once, for 10. -/
theorem C27_store_queried_once_witness :
    (storeQueries (ListSentMessages insertionSort noFormat
        (fun _ => .ok [cacheEntry 1 (-1), cacheEntry 2 (-2)])
        (fun _ => .ok [storeRecord 3 (-3)]) 10).calls = [8] ∧
     storeQueries (ListSentMessages insertionSort noFormat
        (fun _ => .error "cache down") (fun _ => .error "store down") 10).calls = [10]) ∧
    (storeQueries (ListSentMessages insertionSort noFormat
        (fun _ => .ok [cacheEntry 1 (-1), cacheEntry 2 (-2)])
        (fun _ => .ok [storeRecord 3 (-3)]) 10).calls =
      [10 - (cacheYield (fun _ => .ok [cacheEntry 1 (-1), cacheEntry 2 (-2)]) 10 : Int)] ∧
    (ListSentMessages insertionSort noFormat
        (fun _ => .ok [cacheEntry 1 (-1), cacheEntry 2 (-2)])
        (fun _ => .ok [storeRecord 3 (-3)]) 10).calls =
      [.GetAllSentMessages 10,
       .GetSentMessages
        (10 - (cacheYield (fun _ => .ok [cacheEntry 1 (-1), cacheEntry 2 (-2)]) 10 : Int))] ∧
    1 ≤ 10 - (cacheYield (fun _ => .ok [cacheEntry 1 (-1), cacheEntry 2 (-2)]) 10 : Int)) :=
  ⟨⟨by decide, by decide⟩,
   C27_store_queried_once insertionSort noFormat
     (fun _ => .ok [cacheEntry 1 (-1), cacheEntry 2 (-2)])
     (fun _ => .ok [storeRecord 3 (-3)]) 10 (by decide)⟩

/-- C29. If the message ids in the cache's answer are pairwise distinct and the message ids in
the store's answer to the one query made are pairwise distinct, then no two entries of a
successful `ListSentMessages(limit)` result, `limit > 0`, carry the same message id: a store
record is appended only when its id is not in the set built from the cache, and that set is
not extended while store records are appended. -/
theorem C29_result_ids_pairwise_distinct (sortSlice : SortFn) (hs : SortSliceSpec sortSlice)
    (format : Time → String) (cacheRepo : CacheRepo) (repo : StoreRepo) (limit : Int)
    (hl : 0 < limit) (rs : List SentMessageResponse)
    (hcache : ∀ cs, cacheRepo limit = .ok cs →
      cs.Pairwise (fun a b => a.MessageID ≠ b.MessageID))
    (hstore : ∀ db, repo (limit - (cacheYield cacheRepo limit : Int)) = .ok db →
      db.Pairwise (fun a b => a.ID ≠ b.ID))
    (h : (ListSentMessages sortSlice format cacheRepo repo limit).result = .ok rs) :
    rs.Pairwise (fun a b => a.MessageID ≠ b.MessageID) := by
  obtain ⟨ss, hss, rfl⟩ := ListSentMessages_ok h
  obtain ⟨extra, hextra, rfl⟩ := listSentSortable_ok hs format cacheRepo repo hl hss
  rw [sortableFromCache_length] at hextra
  have hnodup : ((((sortSlice lessAfter (sortableFromCache format cacheRepo limit ++
      extra.map (fromStore format))).take limit.toNat).map (fun s => s.response)).map
        (fun r => r.MessageID)).Nodup := by
    rw [List.map_map]
    refine List.Nodup.sublist ((List.take_sublist _ _).map _) ?_
    rw [((hs lessAfter _ lessAfter_strictWeak).1.map _).nodup_iff, List.map_append,
      List.map_map]
    refine List.nodup_append.mpr ⟨sortableFromCache_ids_nodup (fun cs hcs => ?_), ?_, ?_⟩
    · exact (List.pairwise_map.mpr (hcache cs hcs))
    · rcases hextra with rfl | ⟨db, hdb, rfl⟩
      · exact List.nodup_nil
      · exact List.Nodup.sublist ((appended_sublist _ _ db).map _)
          (List.pairwise_map.mpr (hstore db hdb))
    · rcases hextra with rfl | ⟨db, hdb, rfl⟩
      · simp
      · intro id hid hid'
        obtain ⟨msg, hmsg, rfl⟩ := List.mem_map.mp hid'
        exact appended_not_cached hmsg hid
  exact List.pairwise_map.mp hnodup

/-- C29, at a cache holding messages 1 and 2 and a store answering the query for 3 messages
with 2 and 3: the result holds 1, 2 and 3 once each. -/
theorem C29_result_ids_pairwise_distinct_witness :
    (ListSentMessages insertionSort noFormat (fun _ => .ok [cacheEntry 1 9, cacheEntry 2 8])
      (fun _ => .ok [storeRecord 2 8, storeRecord 3 7]) 5).result.map ids = .ok [1, 2, 3] ∧
    List.Pairwise (fun a b : SentMessageResponse => a.MessageID ≠ b.MessageID)
      [(fromCache noFormat (cacheEntry 1 9)).response,
       (fromCache noFormat (cacheEntry 2 8)).response,
       (fromStore noFormat (storeRecord 3 7)).response] :=
  ⟨by decide,
   C29_result_ids_pairwise_distinct insertionSort insertionSort_spec noFormat
     (fun _ => .ok [cacheEntry 1 9, cacheEntry 2 8])
     (fun _ => .ok [storeRecord 2 8, storeRecord 3 7]) 5 (by decide) _
     (fun cs hcs => by cases hcs; decide)
     (fun db hdb => by cases hdb; decide)
     (by decide)⟩

/-! ## Reading the store after a status update -/

theorem scanSent_ok (driver : Driver) :
    ∀ (rows : List Row) (messages : List Message),
      scanSent driver rows = .ok messages → messages = rows.map messageOfRow
  | [], messages, h => by
    simp only [scanSent, Except.ok.injEq] at h
    simp [← h]
  | r :: rest, messages, h => by
    unfold scanSent at h
    cases hscan : driver.scanErr r.id with
    | some e => rw [hscan] at h; cases h
    | none =>
      rw [hscan] at h
      cases hsent : r.sent_at with
      | none => rw [hsent] at h; cases h
      | some t =>
        rw [hsent] at h
        cases hrest : scanSent driver rest with
        | error e => rw [hrest] at h; cases h
        | ok ms =>
          rw [hrest] at h
          simp only [Except.ok.injEq] at h
          rw [← h, scanSent_ok driver rest ms hrest]
          simp [messageOfRow, hsent]

theorem scanSent_healthy : ∀ rows : List Row, (∀ r ∈ rows, r.sent_at ≠ none) →
    scanSent healthy rows = .ok (rows.map messageOfRow)
  | [], _ => rfl
  | r :: rest, h => by
    unfold scanSent
    cases hsent : r.sent_at with
    | none => exact absurd hsent (h r (List.mem_cons_self _ _))
    | some t =>
      rw [scanSent_healthy rest (fun x hx => h x (List.mem_cons_of_mem _ hx))]
      simp [healthy, messageOfRow, hsent]

/-- The rows a read of the sent messages returns, in the order it returns them. -/
theorem GetSentMessages_ok {driver : Driver} {db : DB} {limit : Int}
    {messages : List Message} (h : GetSentMessages driver db limit = .ok messages) :
    messages = (sqlLimit limit
      ((db.rows.filter (fun r => r.status = StatusSent)).insertionSort sentAtDesc)).map
        messageOfRow := by
  unfold GetSentMessages at h
  cases hexec : driver.execErr with
  | some e => rw [hexec] at h; cases h
  | none =>
    rw [hexec] at h
    simp only at h
    cases hscan : scanSent driver (sqlLimit limit
      ((db.rows.filter (fun r => r.status = StatusSent)).insertionSort sentAtDesc)) with
    | error e => rw [hscan] at h; cases h
    | ok ms =>
      rw [hscan] at h
      cases hres : driver.resultErr with
      | some e => rw [hres] at h; cases h
      | none =>
        rw [hres] at h
        simp only [Except.ok.injEq] at h
        rw [← h]
        exact scanSent_ok driver _ ms hscan

/-- A read of the sent messages succeeds when no SENT row lacks its sent-at. -/
theorem GetSentMessages_healthy (db : DB) (limit : Int)
    (h : ∀ r ∈ db.rows, r.status = StatusSent → r.sent_at ≠ none) :
    GetSentMessages healthy db limit = .ok ((sqlLimit limit
      ((db.rows.filter (fun r => r.status = StatusSent)).insertionSort sentAtDesc)).map
        messageOfRow) := by
  have hrows : ∀ r ∈ sqlLimit limit
      ((db.rows.filter (fun r => r.status = StatusSent)).insertionSort sentAtDesc),
      r.sent_at ≠ none := by
    intro r hr
    have hmem := (List.perm_insertionSort _ _).subset ((sqlLimit_sublist _ _).subset hr)
    obtain ⟨hin, hst⟩ := List.mem_filter.mp hmem
    exact h r hin (by simpa using hst)
  unfold GetSentMessages
  simp only [healthy]
  rw [show ({ execErr := none, resultErr := none, scanErr := fun _ => none } : Driver) = healthy
    from rfl, scanSent_healthy _ hrows]

/-- The store cuts its answer: a read of the sent messages with a limit that is not negative
returns at most that many records. -/
theorem GetSentMessages_length_le {driver : Driver} {db : DB} {limit : Int}
    {messages : List Message} (h0 : 0 ≤ limit)
    (h : GetSentMessages driver db limit = .ok messages) : (messages.length : Int) ≤ limit := by
  rw [GetSentMessages_ok h, List.length_map]
  unfold sqlLimit
  rw [if_neg (by omega), List.length_take]
  omega

/-- The sent messages are ordered by the text stored in `sent_at`, which begins with the
wall-clock reading in the zone of the time: message 1, sent at 12:00 +03:00, comes before
message 2, sent an hour later at 10:00 UTC. -/
theorem GetSentMessages_stored_text_order :
    (GetSentMessages healthy sentAcrossOffsets 1).map (List.map (fun m => m.ID)) = .ok [1] ∧
    (GetSentMessages healthy sentAcrossOffsets 10).map (List.map (fun m => m.ID)) =
      .ok [1, 2] := by
  decide

/-- A successful status update ran the `UPDATE`, and the id it names is stored. -/
theorem UpdateMessageStatus_success {driver : Driver} {now : Time} {db : DB} {id : Int}
    {status : Status} {ext : String} {sentAt : Option Time}
    (h : (UpdateMessageStatus driver now db id status (some ext) sentAt).1 = none) :
    (UpdateMessageStatus driver now db id status (some ext) sentAt).2 =
      { db with rows := db.rows.map (updateRow id status ext sentAt now) } ∧
    ∃ r ∈ db.rows, r.id = id := by
  unfold UpdateMessageStatus at h ⊢
  cases hexec : driver.execErr with
  | some e => rw [hexec] at h; cases h
  | none =>
    rw [hexec] at h
    cases hres : driver.resultErr with
    | some e => rw [hres] at h; cases h
    | none =>
      rw [hres] at h
      simp only at h ⊢
      by_cases hzero : (db.rows.filter (fun r => decide (r.id = id))).length = 0
      · rw [if_pos hzero] at h; cases h
      · rw [if_neg hzero]
        refine ⟨rfl, ?_⟩
        obtain ⟨r, hr⟩ := List.exists_mem_of_length_pos (Nat.pos_of_ne_zero hzero)
        obtain ⟨hin, hid⟩ := List.mem_filter.mp hr
        exact ⟨r, hin, by simpa using hid⟩

/-- The pending rows after an update to SENT: the pending rows before it, without the rows of
the updated id. -/
theorem pending_after_update (id : Int) (ext : String) (sentAt : Option Time) (now : Time) :
    ∀ rows : List Row,
      (rows.map (updateRow id StatusSent ext sentAt now)).filter
          (fun r => r.status = StatusPending) =
        (rows.filter (fun r => r.status = StatusPending)).filter (fun r => r.id ≠ id)
  | [] => rfl
  | r :: rows => by
    rw [List.map_cons, List.filter_cons, List.filter_cons, pending_after_update id ext sentAt now rows]
    by_cases hid : r.id = id
    · have hst : (updateRow id StatusSent ext sentAt now r).status = StatusSent := by
        simp [updateRow, hid]
      rw [hst]
      by_cases hp : r.status = StatusPending
      · simp [hp, hid, sent_ne_pending]
      · simp [hp, sent_ne_pending]
    · have hsame : updateRow id StatusSent ext sentAt now r = r := by
        simp [updateRow, hid]
      rw [hsame]
      by_cases hp : r.status = StatusPending
      · simp [hp, hid]
      · simp [hp]

theorem sqlLimit_of_length_le {α : Type} {limit : Int} {rows : List α}
    (h : (rows.length : Int) ≤ limit) : sqlLimit limit rows = rows := by
  unfold sqlLimit
  have h0 : ¬ limit < 0 := by omega
  rw [if_neg h0]
  exact List.take_of_length_le (by omega)

/-- C21. After a successful `UpdateMessageStatus(id, SENT, ext, t)`: no result of
`GetUnsentMessages` contains `id`, and such a result is the first `limit` entries of the
pending list as it was ordered before the update with `id` removed, so the other pending
messages keep their relative order; every result of `GetSentMessages(n)` with `n` at least the
number of sent messages contains `id` with status SENT, external id `ext` and sent-at `t`; and
the read of the sent messages does return a result when no other SENT record lacks its
sent-at. -/
theorem C21_sent_after_update (driver : Driver) (now : Time) (db : DB) (id : Int)
    (ext : String) (t : Time)
    (hsucc : (UpdateMessageStatus driver now db id StatusSent (some ext) (some t)).1 = none) :
    (∀ (reader : Driver) (limit : Int) (ms : List Message),
      GetUnsentMessages reader
        (UpdateMessageStatus driver now db id StatusSent (some ext) (some t)).2 limit = .ok ms →
      (∀ m ∈ ms, m.ID ≠ id) ∧
      ms = (sqlLimit limit
        (((db.rows.filter (fun r => r.status = StatusPending)).insertionSort
          createdAtAsc).filter
            (fun r => r.id ≠ id))).map messageOfRow) ∧
    (∀ (reader : Driver) (n : Int) (ms : List Message),
      GetSentMessages reader
        (UpdateMessageStatus driver now db id StatusSent (some ext) (some t)).2 n = .ok ms →
      ((((UpdateMessageStatus driver now db id StatusSent (some ext) (some t)).2.rows.filter
        (fun r => r.status = StatusSent)).length : Nat) : Int) ≤ n →
      ∃ m ∈ ms, m.ID = id ∧ m.Status = StatusSent ∧ m.ExternalMessageID = ext ∧ m.SentAt = t) ∧
    ((∀ r ∈ db.rows, r.status = StatusSent → r.id ≠ id → r.sent_at ≠ none) →
      ∀ n : Int, ∃ ms : List Message,
        GetSentMessages healthy
          (UpdateMessageStatus driver now db id StatusSent (some ext) (some t)).2 n = .ok ms) := by
  obtain ⟨hdb, r₀, hr₀, hid₀⟩ := UpdateMessageStatus_success hsucc
  rw [hdb]
  refine ⟨fun reader limit ms hun => ?_, fun reader n ms hsent hn => ?_, fun hvalid n => ?_⟩
  · have hms := GetUnsentMessages_ok hun
    simp only at hms
    rw [pending_after_update, ← filter_insertionSort] at hms
    refine ⟨fun m hm => ?_, hms⟩
    rw [hms] at hm
    obtain ⟨r, hr, rfl⟩ := List.mem_map.mp hm
    have hne := (List.mem_filter.mp ((sqlLimit_sublist _ _).subset hr)).2
    simpa [messageOfRow] using hne
  · have hms := GetSentMessages_ok hsent
    simp only at hms hn
    rw [sqlLimit_of_length_le (by rw [List.length_insertionSort]; exact hn)] at hms
    refine ⟨messageOfRow (updateRow id StatusSent ext (some t) now r₀), ?_, ?_⟩
    · rw [hms]
      refine List.mem_map_of_mem _ ((List.perm_insertionSort _ _).mem_iff.mpr ?_)
      refine List.mem_filter.mpr ⟨List.mem_map_of_mem _ hr₀, ?_⟩
      simp [updateRow, hid₀]
    · simp [messageOfRow, updateRow, hid₀]
  · refine ⟨_, GetSentMessages_healthy _ n (fun r' hr' hst => ?_)⟩
    simp only at hr'
    obtain ⟨r, hr, rfl⟩ := List.mem_map.mp hr'
    by_cases hid : r.id = id
    · simp [updateRow, hid]
    · have hsame : updateRow id StatusSent ext (some t) now r = r := by simp [updateRow, hid]
      rw [hsame] at hst ⊢
      exact hvalid r hr hst hid

/-- C21, at the messages A, B and C created in this order with B then marked SENT: the sent
messages are B alone, the pending ones are A and C in this order. -/
theorem C21_sent_after_update_witness :
    ((GetSentMessages healthy sentB 10).map (List.map (fun m => m.Content)) = .ok ["B"] ∧
     (GetUnsentMessages healthy sentB 10).map (List.map (fun m => m.Content)) =
       .ok ["A", "C"]) ∧
    ((∀ (reader : Driver) (limit : Int) (ms : List Message),
      GetUnsentMessages reader
        (UpdateMessageStatus healthy (atInstant 51) createdABC 2 StatusSent (some "ext-B")
          (some (atInstant 50))).2 limit = .ok ms →
      (∀ m ∈ ms, m.ID ≠ 2) ∧
      ms = (sqlLimit limit
        (((createdABC.rows.filter (fun r => r.status = StatusPending)).insertionSort
          createdAtAsc).filter
            (fun r => r.id ≠ 2))).map messageOfRow) ∧
    (∀ (reader : Driver) (n : Int) (ms : List Message),
      GetSentMessages reader
        (UpdateMessageStatus healthy (atInstant 51) createdABC 2 StatusSent (some "ext-B")
          (some (atInstant 50))).2 n = .ok ms →
      ((((UpdateMessageStatus healthy (atInstant 51) createdABC 2 StatusSent (some "ext-B")
          (some (atInstant 50))).2.rows.filter
        (fun r => r.status = StatusSent)).length : Nat) : Int) ≤ n →
      ∃ m ∈ ms, m.ID = 2 ∧ m.Status = StatusSent ∧ m.ExternalMessageID = "ext-B" ∧
        m.SentAt = atInstant 50) ∧
    ((∀ r ∈ createdABC.rows, r.status = StatusSent → r.id ≠ 2 → r.sent_at ≠ none) →
      ∀ n : Int, ∃ ms : List Message,
        GetSentMessages healthy
          (UpdateMessageStatus healthy (atInstant 51) createdABC 2 StatusSent (some "ext-B")
            (some (atInstant 50))).2 n = .ok ms)) :=
  ⟨⟨by decide, by decide⟩,
   C21_sent_after_update healthy (atInstant 51) createdABC 2 "ext-B" (atInstant 50)
     (by decide)⟩

/-- C22, as stated, fails.  A negative limit cuts nothing: `GetUnsentMessages(-1)` returns the
three pending messages.  And the rows are ordered by the text stored in `created_at`, which
begins with the local wall-clock reading: of two messages created forty minutes apart, the
second after the zone offset went from +02:00 to +01:00, `GetUnsentMessages(1)` returns the
second, not the oldest. -/
theorem C22_counterexample :
    (GetUnsentMessages healthy threePending (-1)).map (List.map (fun m => m.ID)) =
      .ok [1, 2, 3] ∧
    createdAcrossOffsetChange.rows.map (fun r => (r.id, r.status, r.created_at.instant)) =
      [(1, StatusPending, 0), (2, StatusPending, 2400000000000)] ∧
    (GetUnsentMessages healthy createdAcrossOffsetChange 1).map
      (List.map (fun m => (m.ID, m.CreatedAt.instant))) = .ok [(2, 2400000000000)] := by
  decide

/-- C22, amended. `GetUnsentMessages(limit)` returns the PENDING messages in the order in which
the store sorts `created_at` (the order of the stored texts), cut to the first `limit` of them
when `limit` is not negative and not cut at all when it is negative.  There is such an
ordering of the PENDING rows; it is oldest first whenever the PENDING rows were stored under one
zone offset; the call returns it cut in this way when the driver reports no error, and any
successful call returns the same list, all of whose messages are PENDING and which has at most
`limit` messages when `limit` is not negative. -/
theorem C22_first_pending_in_store_order (db : DB) (limit : Int) :
    ∃ ordered : List Row,
      ordered.Perm (db.rows.filter (fun r => r.status = StatusPending)) ∧
      ordered.Pairwise createdAtAsc ∧
      ((∀ a ∈ db.rows, ∀ b ∈ db.rows, a.status = StatusPending → b.status = StatusPending →
          a.created_at.zone = b.created_at.zone) →
        ordered.Pairwise (fun a b => a.created_at.instant ≤ b.created_at.instant)) ∧
      GetUnsentMessages healthy db limit = .ok ((sqlLimit limit ordered).map messageOfRow) ∧
      (0 ≤ limit → sqlLimit limit ordered = ordered.take limit.toNat) ∧
      (limit < 0 → sqlLimit limit ordered = ordered) ∧
      ∀ (driver : Driver) (ms : List Message), GetUnsentMessages driver db limit = .ok ms →
        ms = (sqlLimit limit ordered).map messageOfRow ∧
        (0 ≤ limit → (ms.length : Int) ≤ limit) ∧
        (∀ m ∈ ms, m.Status = StatusPending) := by
  have hsorted := List.sorted_insertionSort createdAtAsc
    (db.rows.filter (fun r => r.status = StatusPending))
  have hperm := List.perm_insertionSort createdAtAsc
    (db.rows.filter (fun r => r.status = StatusPending))
  refine ⟨_, hperm, hsorted, fun hzone => ?_, GetUnsentMessages_healthy db limit,
    fun h0 => ?_, fun hneg => ?_, fun driver ms hms => ?_⟩
  · refine List.Pairwise.imp_of_mem ?_ hsorted
    intro a b ha hb hab
    obtain ⟨hain, hast⟩ := List.mem_filter.mp (hperm.subset ha)
    obtain ⟨hbin, hbst⟩ := List.mem_filter.mp (hperm.subset hb)
    have hz := hzone a hain b hbin (by simpa using hast) (by simpa using hbst)
    unfold createdAtAsc Time.storedLE Time.wall at hab
    rw [hz] at hab
    omega
  · unfold sqlLimit
    rw [if_neg (by omega)]
  · unfold sqlLimit
    rw [if_pos hneg]
  · have heq := GetUnsentMessages_ok hms
    refine ⟨heq, fun h0 => ?_, fun m hm => ?_⟩
    · rw [heq, List.length_map]
      unfold sqlLimit
      rw [if_neg (by omega), List.length_take]
      omega
    · rw [heq] at hm
      obtain ⟨r, hr, rfl⟩ := List.mem_map.mp hm
      have hmem := hperm.subset ((sqlLimit_sublist _ _).subset hr)
      simpa [messageOfRow] using (List.mem_filter.mp hmem).2

/-- C22 amended, at three pending messages created in the order 1, 2, 3 under one zone offset
and the limit 2: the call returns the messages 1 and 2, in this order. -/
theorem C22_first_pending_in_store_order_witness :
    (GetUnsentMessages healthy threePending 2).map (List.map (fun m => m.ID)) = .ok [1, 2] ∧
    ∃ ordered : List Row,
      ordered.Perm (threePending.rows.filter (fun r => r.status = StatusPending)) ∧
      ordered.Pairwise createdAtAsc ∧
      ((∀ a ∈ threePending.rows, ∀ b ∈ threePending.rows, a.status = StatusPending →
          b.status = StatusPending → a.created_at.zone = b.created_at.zone) →
        ordered.Pairwise (fun a b => a.created_at.instant ≤ b.created_at.instant)) ∧
      GetUnsentMessages healthy threePending 2 =
        .ok ((sqlLimit 2 ordered).map messageOfRow) ∧
      ((0 : Int) ≤ 2 → sqlLimit 2 ordered = ordered.take (2 : Int).toNat) ∧
      ((2 : Int) < 0 → sqlLimit 2 ordered = ordered) ∧
      ∀ (driver : Driver) (ms : List Message),
        GetUnsentMessages driver threePending 2 = .ok ms →
        ms = (sqlLimit 2 ordered).map messageOfRow ∧
        ((0 : Int) ≤ 2 → (ms.length : Int) ≤ 2) ∧
        (∀ m ∈ ms, m.Status = StatusPending) :=
  ⟨by decide, C22_first_pending_in_store_order threePending 2⟩

/-- C23, where the code departs from it: `UpdateMessageStatus` called with no external id and
no sent-at does not leave the stored values as they are.  The `UPDATE` it runs always assigns
both columns, so the record with the given id ends with an empty external id and no sent-at
(together with the new status and updated-at), and every other record is left as it is.  On a
record sent with external id `d` at instant 9, a successful update to FAILED with neither
argument erases both. -/
theorem C23_update_clears_when_not_provided :
    UpdateMessageStatus healthy (atInstant 20) oneSent 1 StatusFailed none none =
      (none,
       { rows := [{ id := 1, recipient := "r", content := "m", status := StatusFailed,
                    external_message_id := "", sent_at := none, created_at := atInstant 1,
                    updated_at := atInstant 20 }],
         seq := 1 }) ∧
    (oneSent.rows.map (fun r => (r.external_message_id, r.sent_at)) =
      [("d", some (atInstant 9))]) ∧
    ∀ (now : Time) (db : DB) (id : Int) (status : Status),
      (UpdateMessageStatus healthy now db id status none none).2.rows =
        db.rows.map (fun r =>
          if r.id = id then
            { r with status := status, external_message_id := "", sent_at := none,
                     updated_at := now }
          else r) := by
  refine ⟨by decide, by decide, fun now db id status => ?_⟩
  unfold UpdateMessageStatus
  simp only [healthy]
  split <;> rfl

/-! ## The reachable stores -/

theorem CreateMessage_rows (driver : Driver) (now : Time) (db : DB) (recipient content : String) :
    (CreateMessage driver now db recipient content).2 = db ∨
    (CreateMessage driver now db recipient content).2.rows =
      db.rows ++ [{ id := nextID db, recipient := recipient, content := content,
                    status := StatusPending, external_message_id := "", sent_at := none,
                    created_at := now, updated_at := now }] := by
  unfold CreateMessage
  split
  · exact Or.inl rfl
  · cases driver.execErr with
    | some e => exact Or.inl rfl
    | none =>
      cases driver.resultErr with
      | some e => exact Or.inr rfl
      | none => exact Or.inr rfl

theorem rowStep_inv (idOK : String → Prop) (env : TickEnv)
    (hid : ∀ m resp, env.send m = .ok resp → idOK resp.MessageID) (msg : Message) (r : Row)
    (h : RowInv idOK r) : RowInv idOK (rowStep env msg r) := by
  unfold rowStep
  cases hsend : env.send msg with
  | error e => exact h
  | ok resp =>
    cases (env.driverUpdate msg).execErr with
    | some e => exact h
    | none =>
      by_cases hmatch : r.id = msg.ID
      · exact Or.inl (by simpa [updateRow, hmatch] using hid msg resp hsend)
      · simpa [updateRow, hmatch] using h

theorem rowFold_inv (idOK : String → Prop) (env : TickEnv)
    (hid : ∀ m resp, env.send m = .ok resp → idOK resp.MessageID) :
    ∀ (messages : List Message) (r : Row), RowInv idOK r → RowInv idOK (rowFold env messages r)
  | [], _, h => h
  | msg :: rest, r, h => by
    rw [rowFold_cons]
    exact rowFold_inv idOK env hid rest _ (rowStep_inv idOK env hid msg r h)

/-- A tick whose fetch fails leaves the store and the cache as they are. -/
theorem tick_fetch_failed (env : TickEnv) (s : messageScheduler) (w : World) {e : Error}
    (hfetch : GetUnsentMessages env.driverFetch w.db s.bacthSize = .error e) :
    tick env s w = { w with events := w.events ++ [.GetUnsentMessages s.bacthSize] } := by
  unfold tick
  simp only [hfetch]

/-- Every row of a reachable store is SENT with a sent-at and a returned external id, or
PENDING with neither. -/
theorem reachable_inv (idOK : String → Prop) (db : DB) (h : Reachable idOK db) :
    ∀ r ∈ db.rows, RowInv idOK r := by
  induction h with
  | empty => intro r hr; cases hr
  | created driver now db recipient content _ ih =>
    rcases CreateMessage_rows driver now db recipient content with hsame | hrows
    · rw [hsame]; exact ih
    · rw [hrows]
      intro r hr
      rcases List.mem_append.mp hr with hold | hnew
      · exact ih r hold
      · rw [List.mem_singleton] at hnew
        rw [hnew]
        exact Or.inr ⟨rfl, rfl, rfl⟩
  | ticked env s w _ hid ih =>
    cases hfetch : GetUnsentMessages env.driverFetch w.db s.bacthSize with
    | error e => rw [tick_fetch_failed env s w hfetch]; exact ih
    | ok messages =>
      rw [tick_eq env s w hfetch]
      intro r hr
      obtain ⟨r₀, hr₀, rfl⟩ := List.mem_map.mp hr
      exact rowFold_inv idOK env hid messages r₀ (ih r₀ hr₀)

/-- C24, as stated, fails: three messages are created and one tick dispatches them to a client
whose accepted responses carry no message id; the reachable store then holds records with
status SENT, a sent-at and an empty external id. -/
theorem C24_counterexample :
    Reachable (fun _ => True) sentWithoutID ∧
    sentWithoutID.rows.map (fun r => (r.status, r.external_message_id, r.sent_at)) =
      [(StatusSent, "", some (atInstant 100)), (StatusSent, "", some (atInstant 100)),
       (StatusSent, "", some (atInstant 100))] ∧
    ¬ ∀ r ∈ sentWithoutID.rows,
      (r.external_message_id ≠ "" ∧ r.sent_at ≠ none) ↔ r.status = StatusSent := by
  refine ⟨?_, by decide, by decide⟩
  exact Reachable.ticked (accepting "") batchOfTen (freshWorld createdABC)
    (Reachable.created _ _ _ _ _ (Reachable.created _ _ _ _ _
      (Reachable.created _ _ _ _ _ Reachable.empty)))
    (fun _ _ _ => trivial)

/-- C24, amended. In every store reached from the empty store through `CreateMessage` calls and
ticks, with any driver and dispatch outcomes: a message has a sent-at exactly when its status
is SENT, its status is SENT or PENDING, a message that is not SENT has an empty external id,
and the external id of a SENT message is one the dispatch client returned; hence, when every
accepted dispatch returns a non-empty id, a message has a non-empty external id and a sent-at
exactly when its status is SENT. -/
theorem C24_sent_iff_sent_at (idOK : String → Prop) (db : DB) (h : Reachable idOK db) :
    ∀ r ∈ db.rows,
      (r.sent_at ≠ none ↔ r.status = StatusSent) ∧
      (r.status = StatusSent ∨ r.status = StatusPending) ∧
      (r.status ≠ StatusSent → r.external_message_id = "") ∧
      (r.status = StatusSent → idOK r.external_message_id) ∧
      ((∀ id, idOK id → id ≠ "") →
        ((r.external_message_id ≠ "" ∧ r.sent_at ≠ none) ↔ r.status = StatusSent)) := by
  intro r hr
  rcases reachable_inv idOK db h r hr with ⟨hs, ht, hi⟩ | ⟨hp, ht, hi⟩
  · exact ⟨⟨fun _ => hs, fun _ => ht⟩, Or.inl hs, fun hne => absurd hs hne, fun _ => hi,
      fun hok => ⟨fun _ => hs, fun _ => ⟨hok _ hi, ht⟩⟩⟩
  · have hne : r.status ≠ StatusSent := by
      rw [hp]; exact fun heq => sent_ne_pending heq.symm
    exact ⟨⟨fun hsome => absurd ht hsome, fun hsent => absurd hsent hne⟩, Or.inr hp,
      fun _ => hi, fun hsent => absurd hsent hne,
      fun _ => ⟨fun hboth => absurd ht hboth.2, fun hsent => absurd hsent hne⟩⟩

/-- C24 amended, at the store reached by creating A, B and C and running one tick whose
dispatches are accepted with the external id `ext-1`. -/
theorem C24_sent_iff_sent_at_witness :
    (tick (accepting "ext-1") batchOfTen (freshWorld createdABC)).db.rows.map
        (fun r => (r.status, r.external_message_id, r.sent_at)) =
      [(StatusSent, "ext-1", some (atInstant 100)), (StatusSent, "ext-1", some (atInstant 100)),
       (StatusSent, "ext-1", some (atInstant 100))] ∧
    ∀ r ∈ (tick (accepting "ext-1") batchOfTen (freshWorld createdABC)).db.rows,
      (r.sent_at ≠ none ↔ r.status = StatusSent) ∧
      (r.status = StatusSent ∨ r.status = StatusPending) ∧
      (r.status ≠ StatusSent → r.external_message_id = "") ∧
      (r.status = StatusSent → r.external_message_id = "ext-1") ∧
      ((∀ id, id = "ext-1" → id ≠ "") →
        ((r.external_message_id ≠ "" ∧ r.sent_at ≠ none) ↔ r.status = StatusSent)) :=
  ⟨by decide,
   C24_sent_iff_sent_at (fun id => id = "ext-1") _
     (Reachable.ticked (accepting "ext-1") batchOfTen (freshWorld createdABC)
       (Reachable.created _ _ _ _ _ (Reachable.created _ _ _ _ _
         (Reachable.created _ _ _ _ _ Reachable.empty)))
       (fun _ resp hresp => by
         simp only [accepting, Except.ok.injEq] at hresp
         rw [← hresp]))⟩

/-! ## Ticks that dispatch nothing -/

theorem cacheFold_failed (env : TickEnv) (s : messageScheduler) :
    ∀ (messages : List Message) (cache : Cache),
      (∀ m ∈ messages, ∃ e, env.send m = .error e) → cacheFold env s messages cache = cache
  | [], _, _ => rfl
  | msg :: rest, cache, h => by
    obtain ⟨e, he⟩ := h msg (List.mem_cons_self _ _)
    have hstep : cacheStep env s msg cache = cache := by
      unfold cacheStep
      rw [he]
    rw [cacheFold_cons, hstep]
    exact cacheFold_failed env s rest cache (fun m hm => h m (List.mem_cons_of_mem _ hm))

/-- One tick whose fetch fails, or whose dispatches all fail: the store and the cache are left
as they are, and the calls made are the fetch and one `Send` for each message of the batch. -/
theorem tick_stalled (env : TickEnv) (s : messageScheduler) (w : World)
    (h : (∃ e, GetUnsentMessages env.driverFetch w.db s.bacthSize = .error e) ∨
      ∀ m ∈ pendingBatch w.db s.bacthSize, ∃ e, env.send m = .error e) :
    (tick env s w).db = w.db ∧ (tick env s w).cache = w.cache ∧
    ∃ made, (tick env s w).events = w.events ++ made ∧
      ∀ ev ∈ made, ev = .GetUnsentMessages s.bacthSize ∨
        ∃ m ∈ pendingBatch w.db s.bacthSize, ev = .Send m.To m.Content := by
  cases hfetch : GetUnsentMessages env.driverFetch w.db s.bacthSize with
  | error e =>
    rw [tick_fetch_failed env s w hfetch]
    exact ⟨rfl, rfl, _, rfl, fun ev hev => Or.inl (List.mem_singleton.mp hev)⟩
  | ok messages =>
    have hbatch : messages = pendingBatch w.db s.bacthSize := GetUnsentMessages_ok hfetch
    have hfail : ∀ m ∈ messages, ∃ e, env.send m = .error e := by
      rcases h with ⟨e, he⟩ | hall
      · rw [hfetch] at he; cases he
      · rw [hbatch]; exact hall
    rw [tick_eq env s w hfetch]
    refine ⟨?_, cacheFold_failed env s messages w.cache hfail, _, rfl, fun ev hev => ?_⟩
    · have hrows : w.db.rows.map (rowFold env messages) = w.db.rows := by
        refine (List.map_congr_left ?_).trans (List.map_id _)
        intro r _
        exact rowFold_untouched env messages r (fun m hm => Or.inr (hfail m hm))
      simp only [hrows]
    · rcases List.mem_cons.mp hev with hev | hev
      · exact Or.inl hev
      · obtain ⟨m, hm, hnew⟩ := mem_batchEvents env s messages hev
        obtain ⟨e, he⟩ := hfail m hm
        refine Or.inr ⟨m, hbatch ▸ hm, ?_⟩
        unfold newEvents at hnew
        rw [he] at hnew
        exact List.mem_singleton.mp hnew

/-- C30. Through any number of ticks in each of which `GetUnsentMessages` fails or every
dispatch of the batch fails, the store and the cache stay exactly as they were, every fetch
that succeeds returns the identical batch, and the only calls made are the fetches and `Send`
calls for messages of that batch: with batch size `b`, while the `b` oldest pending messages
keep failing to dispatch, no later pending message is handed to the dispatch client. -/
theorem C30_head_of_line_blocking (s : messageScheduler) (envs : List TickEnv) (w : World)
    (hstall : ∀ env ∈ envs,
      (∃ e, GetUnsentMessages env.driverFetch w.db s.bacthSize = .error e) ∨
      ∀ m ∈ pendingBatch w.db s.bacthSize, ∃ e, env.send m = .error e) :
    (ticks s envs w).db = w.db ∧ (ticks s envs w).cache = w.cache ∧
    (∀ (reader : Driver) (ms : List Message),
      GetUnsentMessages reader (ticks s envs w).db s.bacthSize = .ok ms →
      ms = pendingBatch w.db s.bacthSize) ∧
    ∃ made, (ticks s envs w).events = w.events ++ made ∧
      ∀ ev ∈ made, ev = .GetUnsentMessages s.bacthSize ∨
        ∃ m ∈ pendingBatch w.db s.bacthSize, ev = .Send m.To m.Content := by
  have hmain : ∀ (envs : List TickEnv) (w' : World), w'.db = w.db →
      (∀ env ∈ envs,
        (∃ e, GetUnsentMessages env.driverFetch w.db s.bacthSize = .error e) ∨
        ∀ m ∈ pendingBatch w.db s.bacthSize, ∃ e, env.send m = .error e) →
      (ticks s envs w').db = w.db ∧ (ticks s envs w').cache = w'.cache ∧
      ∃ made, (ticks s envs w').events = w'.events ++ made ∧
        ∀ ev ∈ made, ev = .GetUnsentMessages s.bacthSize ∨
          ∃ m ∈ pendingBatch w.db s.bacthSize, ev = .Send m.To m.Content := by
    intro envs
    induction envs with
    | nil =>
      intro w' hdb _
      exact ⟨hdb, rfl, [], (List.append_nil _).symm, fun ev hev => by cases hev⟩
    | cons env rest ih =>
      intro w' hdb hall
      have hone := tick_stalled env s w' (by
        rw [hdb]; exact hall env (List.mem_cons_self _ _))
      rw [hdb] at hone
      obtain ⟨hdb₁, hcache₁, made₁, hev₁, hmade₁⟩ := hone
      obtain ⟨hdb₂, hcache₂, made₂, hev₂, hmade₂⟩ :=
        ih (tick env s w') hdb₁ (fun e he => hall e (List.mem_cons_of_mem _ he))
      refine ⟨hdb₂, hcache₂.trans hcache₁, made₁ ++ made₂, ?_, fun ev hev => ?_⟩
      · show (ticks s rest (tick env s w')).events = _
        rw [hev₂, hev₁, List.append_assoc]
      · rcases List.mem_append.mp hev with h₁ | h₂
        · exact hmade₁ ev h₁
        · exact hmade₂ ev h₂
  obtain ⟨hdb, hcache, hmade⟩ := hmain envs w rfl hstall
  refine ⟨hdb, hcache, fun reader ms hms => ?_, hmade⟩
  rw [hdb] at hms
  exact GetUnsentMessages_ok hms

/-- C30, at three pending messages and batch size two: after two ticks whose dispatches are
all refused and one tick whose fetch fails, the store is as it was and the messages 1 and 2
were handed to the dispatch client twice each, message 3 never. -/
theorem C30_head_of_line_blocking_witness :
    sends (ticks batchOfTwo [refusingAll, refusingAll, fetchDown]
        (freshWorld threePending)).events =
      [("+905551111111", "Message 1"), ("+905552222222", "Message 2"),
       ("+905551111111", "Message 1"), ("+905552222222", "Message 2")] ∧
    ((ticks batchOfTwo [refusingAll, refusingAll, fetchDown] (freshWorld threePending)).db =
        (freshWorld threePending).db ∧
     (ticks batchOfTwo [refusingAll, refusingAll, fetchDown] (freshWorld threePending)).cache =
        (freshWorld threePending).cache ∧
     (∀ (reader : Driver) (ms : List Message),
      GetUnsentMessages reader
        (ticks batchOfTwo [refusingAll, refusingAll, fetchDown] (freshWorld threePending)).db
        batchOfTwo.bacthSize = .ok ms →
      ms = pendingBatch (freshWorld threePending).db batchOfTwo.bacthSize) ∧
     ∃ made,
      (ticks batchOfTwo [refusingAll, refusingAll, fetchDown] (freshWorld threePending)).events =
        (freshWorld threePending).events ++ made ∧
      ∀ ev ∈ made, ev = .GetUnsentMessages batchOfTwo.bacthSize ∨
        ∃ m ∈ pendingBatch (freshWorld threePending).db batchOfTwo.bacthSize,
          ev = .Send m.To m.Content) :=
  ⟨by decide,
   C30_head_of_line_blocking batchOfTwo [refusingAll, refusingAll, fetchDown]
     (freshWorld threePending) (fun env henv => by
       simp only [List.mem_cons, List.mem_singleton, List.not_mem_nil, or_false] at henv
       rcases henv with rfl | rfl | rfl
       · exact Or.inr (fun _ _ => ⟨_, rfl⟩)
       · exact Or.inr (fun _ _ => ⟨_, rfl⟩)
       · exact Or.inl ⟨_, rfl⟩)⟩

/-! ## The first tick of the loop -/

theorem loopStep_fetched (a : LoopAction) (s s' : LoopRun) (h : loopStep a s = some s')
    (hinv : s.point ≠ LoopPoint.entry → 1 ≤ s.fetches) :
    s'.point ≠ LoopPoint.entry ∧ 1 ≤ s'.fetches ∨
      s'.point = LoopPoint.entry ∧ s.point = LoopPoint.entry := by
  cases a <;> simp only [loopStep] at h <;> split at h <;>
    simp only [Option.some.injEq, reduceCtorEq] at h
  all_goals subst h
  all_goals rename_i hp
  · exact Or.inl ⟨by simp, by simp⟩
  · exact Or.inl ⟨by simp [hp], hinv (by simp [hp])⟩
  · exact Or.inl ⟨by simp, hinv (by simp [hp])⟩
  · exact Or.inl ⟨by simp, by simp⟩
  · exact Or.inl ⟨by simp, hinv (by simp [hp.1])⟩
  · by_cases he : s.point = LoopPoint.entry
    · exact Or.inr ⟨he, he⟩
    · exact Or.inl ⟨he, hinv he⟩

theorem loopSteps_fetched : ∀ (schedule : List LoopAction) (s s' : LoopRun),
    loopSteps schedule s = some s' → (s.point ≠ LoopPoint.entry → 1 ≤ s.fetches) →
    (s'.point ≠ LoopPoint.entry → 1 ≤ s'.fetches)
  | [], s, s', h, hinv => by
    simp only [loopSteps, Option.some.injEq] at h
    rw [← h]; exact hinv
  | a :: rest, s, s', h, hinv => by
    simp only [loopSteps] at h
    cases hstep : loopStep a s with
    | none => rw [hstep] at h; cases h
    | some mid =>
      rw [hstep] at h
      refine loopSteps_fetched rest mid s' h (fun hmid => ?_)
      rcases loopStep_fetched a s mid hstep hinv with ⟨_, hf⟩ | ⟨he, _⟩
      · exact hf
      · exact absurd he hmid

/-- C28, as stated, fails: with the stop signal raised before the loop has executed anything, the
stop case cannot be taken (nor any step but the first tick), and the loop runs its first tick,
with a call of `GetUnsentMessages` and a `Send`, before it returns. -/
theorem C28_counterexample :
    loopStep .seeStop (atEntry true) = none ∧
    [LoopAction.firstTick, .dispatch, .tickDone, .timer, .seeStop, .raiseStop].filter
      (fun a => (loopStep a (atEntry true)).isSome) = [.firstTick] ∧
    loopSteps [.firstTick, .dispatch, .tickDone, .seeStop] (atEntry true) =
      some { point := .returned, stopRaised := true, fetches := 1, dispatches := 1 } := by
  decide

/-- C28, amended. Whether or not the stop signal is raised before the loop has executed a tick,
every run of the loop that returns has run at least one tick: the loop calls `tick` once
before its first `select`, and the stop signal is looked at only there. -/
theorem C28_first_tick_always_runs (stopRaised : Bool) (schedule : List LoopAction)
    (s : LoopRun) (hrun : loopSteps schedule (atEntry stopRaised) = some s)
    (hexit : s.point = .returned) : 1 ≤ s.fetches := by
  refine loopSteps_fetched schedule (atEntry stopRaised) s hrun (fun h => absurd rfl h) ?_
  rw [hexit]
  decide

/-- C28 amended, at the run that takes the stop case at the first `select`: one call of
`GetUnsentMessages` was made. -/
theorem C28_first_tick_always_runs_witness :
    1 ≤ ({ point := .returned, stopRaised := true, fetches := 1, dispatches := 0 } :
      LoopRun).fetches :=
  C28_first_tick_always_runs true [.firstTick, .tickDone, .seeStop] _ (by decide) rfl

/-! ## The dispatch client -/

/-- C25, as stated, fails: an exchange that completes with status code 202 and the body of an
empty JSON object, which carries no `messageId`, is decoded without error, and `Send` returns a
response, with an empty external id. -/
theorem C25_counterexample :
    (answering 202 emptyObjectBody).roundTrip
        (sendRequest (answering 202 emptyObjectBody) webhookSender "+905551234567"
          "Hello World") =
      .ok { StatusCode := 202, Body := emptyObjectBody } ∧
    (answering 202 emptyObjectBody).inspect emptyObjectBody = .object none none ∧
    Send (answering 202 emptyObjectBody) webhookSender "+905551234567" "Hello World" =
      .ok { Message := "", MessageID := "" } ∧
    ¬ ∃ message id,
      (answering 202 emptyObjectBody).inspect emptyObjectBody = .object message (some id) := by
  refine ⟨by decide, by decide, by decide, ?_⟩
  rintro ⟨message, id, h⟩
  have hshape : (answering 202 emptyObjectBody).inspect emptyObjectBody = .object none none := by
    decide
  rw [hshape] at h
  cases h

/-- C25, amended. `Send` returns a response exactly when the request is built, the exchange
completes with status code 202 and the body is decoded: it is `null`, or an object whose
members `message` and `messageId`, where present, are strings or `null`.  The returned external
id is then the body's `messageId`, and it is empty when the body has none.  For any other
status code `N` it returns the error `failed to send message, status code: N`; and when the
request cannot be built, the exchange fails or the body cannot be decoded, it returns that
error and no response. -/
theorem C25_send_outcomes (env : SendEnv) (s : messageSenderService)
    (recipient content : String) :
    (∀ w : WebhookResponse, Send env s recipient content = .ok w ↔
      env.newRequestErr s.webHookURL = none ∧
      ∃ resp, env.roundTrip (sendRequest env s recipient content) = .ok resp ∧
        resp.StatusCode = 202 ∧
        (env.inspect resp.Body = .null ∧ w = { Message := "", MessageID := "" } ∨
         ∃ message messageId, env.inspect resp.Body = .object message messageId ∧
           w = { Message := message.getD "", MessageID := messageId.getD "" })) ∧
    (∀ resp message id, env.newRequestErr s.webHookURL = none →
      env.roundTrip (sendRequest env s recipient content) = .ok resp →
      resp.StatusCode = 202 → env.inspect resp.Body = .object message (some id) →
      ∃ w, Send env s recipient content = .ok w ∧ w.MessageID = id) ∧
    (∀ resp message, env.newRequestErr s.webHookURL = none →
      env.roundTrip (sendRequest env s recipient content) = .ok resp →
      resp.StatusCode = 202 →
      env.inspect resp.Body = .object message none ∨ env.inspect resp.Body = .null →
      ∃ w, Send env s recipient content = .ok w ∧ w.MessageID = "") ∧
    (∀ resp, env.newRequestErr s.webHookURL = none →
      env.roundTrip (sendRequest env s recipient content) = .ok resp →
      resp.StatusCode ≠ 202 →
      Send env s recipient content =
        .error ("failed to send message, status code: " ++ toString resp.StatusCode)) ∧
    (∀ err, env.newRequestErr s.webHookURL = none →
      env.roundTrip (sendRequest env s recipient content) = .error err →
      Send env s recipient content = .error err) ∧
    (∀ resp err, env.newRequestErr s.webHookURL = none →
      env.roundTrip (sendRequest env s recipient content) = .ok resp →
      resp.StatusCode = 202 → env.inspect resp.Body = .undecodable err →
      Send env s recipient content = .error err) ∧
    (∀ err, env.newRequestErr s.webHookURL = some err →
      Send env s recipient content = .error err) := by
  refine ⟨fun w => ⟨fun h => ?_, fun h => ?_⟩, fun resp message id hreq hdo hcode hshape => ?_,
    fun resp message hreq hdo hcode hshape => ?_, fun resp hreq hdo hcode => ?_,
    fun err hreq hdo => ?_, fun resp err hreq hdo hcode hshape => ?_, fun err hreq => ?_⟩
  · unfold Send at h
    cases hreq : env.newRequestErr s.webHookURL with
    | some e => rw [hreq] at h; cases h
    | none =>
      rw [hreq] at h
      cases hdo : env.roundTrip (sendRequest env s recipient content) with
      | error e => rw [hdo] at h; cases h
      | ok resp =>
        rw [hdo] at h
        by_cases hcode : resp.StatusCode = 202
        · simp only [hcode, ne_eq, not_true_eq_false, if_false] at h
          refine ⟨rfl, resp, rfl, hcode, ?_⟩
          cases hshape : env.inspect resp.Body with
          | undecodable e => rw [hshape] at h; cases h
          | null =>
            rw [hshape] at h
            simp only [decodeWebhookResponse, Except.ok.injEq] at h
            exact Or.inl ⟨rfl, h.symm⟩
          | object message messageId =>
            rw [hshape] at h
            simp only [decodeWebhookResponse, Except.ok.injEq] at h
            exact Or.inr ⟨message, messageId, rfl, h.symm⟩
        · simp only [ne_eq, hcode, not_false_eq_true, if_true] at h
          cases h
  · obtain ⟨hreq, resp, hdo, hcode, hshape⟩ := h
    unfold Send
    rcases hshape with ⟨hnull, rfl⟩ | ⟨message, messageId, hobj, rfl⟩
    · simp [hreq, hdo, hcode, hnull, decodeWebhookResponse]
    · simp [hreq, hdo, hcode, hobj, decodeWebhookResponse]
  · refine ⟨{ Message := message.getD "", MessageID := id }, ?_, rfl⟩
    unfold Send
    simp [hreq, hdo, hcode, hshape, decodeWebhookResponse]
  · rcases hshape with hobj | hnull
    · refine ⟨{ Message := message.getD "", MessageID := "" }, ?_, rfl⟩
      unfold Send
      simp [hreq, hdo, hcode, hobj, decodeWebhookResponse]
    · refine ⟨{ Message := "", MessageID := "" }, ?_, rfl⟩
      unfold Send
      simp [hreq, hdo, hcode, hnull, decodeWebhookResponse]
  · unfold Send
    simp [hreq, hdo, hcode]
  · unfold Send
    simp [hreq, hdo]
  · unfold Send
    simp [hreq, hdo, hcode, hshape, decodeWebhookResponse]
  · unfold Send
    simp [hreq]

/-- C25 amended, at the exchanges of the tests: status 202 with the accepted body gives the
external id `ext-12345`; status 500 gives the error naming 500; an unreachable server and a
body that is not JSON give an error. -/
theorem C25_send_outcomes_witness :
    Send (answering 202 acceptedBody) webhookSender "+905551234567" "Hello World" =
      .ok { Message := "Accepted", MessageID := "ext-12345" } ∧
    (∃ w, Send (answering 202 acceptedBody) webhookSender "+905551234567" "Hello World" =
      .ok w ∧ w.MessageID = "ext-12345") ∧
    Send (answering 500 "internal error") webhookSender "+905551234567" "Hello World" =
      .error ("failed to send message, status code: " ++ toString (500 : Int)) ∧
    "failed to send message, status code: " ++ toString (500 : Int) =
      "failed to send message, status code: 500" ∧
    Send serverUnreachable webhookSender "+905551234567" "Hello World" =
      .error "dial tcp: connect: connection refused" ∧
    Send (answering 202 "invalid json") webhookSender "+905551234567" "Hello World" =
      .error "invalid character in the response body" :=
  ⟨((C25_send_outcomes (answering 202 acceptedBody) webhookSender "+905551234567"
      "Hello World").1 _).mpr ⟨rfl, _, rfl, rfl, Or.inr ⟨_, _, rfl, rfl⟩⟩,
   (C25_send_outcomes (answering 202 acceptedBody) webhookSender "+905551234567"
      "Hello World").2.1 _ _ _ rfl rfl rfl rfl,
   (C25_send_outcomes (answering 500 "internal error") webhookSender "+905551234567"
      "Hello World").2.2.2.1 _ rfl rfl (by decide),
   by decide,
   (C25_send_outcomes serverUnreachable webhookSender "+905551234567"
      "Hello World").2.2.2.2.1 _ rfl rfl,
   (C25_send_outcomes (answering 202 "invalid json") webhookSender "+905551234567"
      "Hello World").2.2.2.2.2.1 _ _ rfl rfl rfl rfl⟩

/-! ## The read side of the cache -/

theorem readKeys_full (unmarshal : String → Except Error SentMessageCache) {limit : Int}
    {messages : List SentMessageCache} (hfull : limit ≤ (messages.length : Int)) :
    ∀ keys, readKeys unmarshal limit messages keys = messages
  | [] => rfl
  | (_, _) :: _ => by
    unfold readKeys
    rw [if_pos hfull]

theorem readKeys_length (unmarshal : String → Except Error SentMessageCache) (limit : Int) :
    ∀ (keys : List (String × Except Error String)) (messages : List SentMessageCache),
      (messages.length : Int) ≤ limit →
      ((readKeys unmarshal limit messages keys).length : Int) ≤ limit
  | [], _, h => h
  | (key, got) :: rest, messages, h => by
    unfold readKeys
    by_cases hfull : limit ≤ (messages.length : Int)
    · rw [if_pos hfull]; exact h
    · rw [if_neg hfull]
      cases got with
      | error e => exact readKeys_length unmarshal limit rest messages h
      | ok result =>
        cases hdec : unmarshal result with
        | error e =>
          simp only [hdec]
          exact readKeys_length unmarshal limit rest messages h
        | ok cacheData =>
          simp only [hdec]
          refine readKeys_length unmarshal limit rest _ ?_
          rw [List.length_append, List.length_singleton]
          push_cast
          omega

theorem readKeys_mem (unmarshal : String → Except Error SentMessageCache) (limit : Int)
    {m : SentMessageCache} :
    ∀ (keys : List (String × Except Error String)) (messages : List SentMessageCache),
      m ∈ readKeys unmarshal limit messages keys →
      m ∈ messages ∨ ∃ key result, (key, Except.ok result) ∈ keys ∧ unmarshal result = .ok m
  | [], _, h => Or.inl h
  | (key, got) :: rest, messages, h => by
    unfold readKeys at h
    by_cases hfull : limit ≤ (messages.length : Int)
    · rw [if_pos hfull] at h; exact Or.inl h
    · rw [if_neg hfull] at h
      have hrest : ∀ ms, m ∈ readKeys unmarshal limit ms rest →
          m ∈ ms ∨ ∃ key' result, (key', Except.ok result) ∈ (key, got) :: rest ∧
            unmarshal result = .ok m := by
        intro ms hms
        rcases readKeys_mem unmarshal limit rest ms hms with hin | ⟨k, r, hk, hr⟩
        · exact Or.inl hin
        · exact Or.inr ⟨k, r, List.mem_cons_of_mem _ hk, hr⟩
      cases got with
      | error e => exact hrest messages h
      | ok result =>
        cases hdec : unmarshal result with
        | error e =>
          simp only [hdec] at h
          exact hrest messages h
        | ok cacheData =>
          simp only [hdec] at h
          rcases hrest _ h with hin | hex
          · rcases List.mem_append.mp hin with hold | hnew
            · exact Or.inl hold
            · rw [List.mem_singleton] at hnew
              exact Or.inr ⟨key, result, List.mem_cons_self _ _, by rw [hdec, hnew]⟩
          · exact Or.inr hex

/-- The keys that cannot be read or decoded do not change what the loop over a page collects. -/
theorem readKeys_filter (unmarshal : String → Except Error SentMessageCache) (limit : Int) :
    ∀ (keys : List (String × Except Error String)) (messages : List SentMessageCache),
      readKeys unmarshal limit messages (keys.filter (readable unmarshal)) =
        readKeys unmarshal limit messages keys
  | [], _ => rfl
  | (key, got) :: rest, messages => by
    by_cases hfull : limit ≤ (messages.length : Int)
    · rw [readKeys_full unmarshal hfull, readKeys_full unmarshal hfull]
    · cases got with
      | error e =>
        have hbad : readable unmarshal (key, Except.error e) = false := rfl
        rw [List.filter_cons_of_neg (by simp [hbad]), readKeys_filter unmarshal limit rest]
        conv_rhs => unfold readKeys
        rw [if_neg hfull]
      | ok result =>
        cases hdec : unmarshal result with
        | error e =>
          have hbad : readable unmarshal (key, Except.ok result) = false := by
            simp [readable, hdec]
          rw [List.filter_cons_of_neg (by simp [hbad]), readKeys_filter unmarshal limit rest]
          conv_rhs => unfold readKeys
          rw [if_neg hfull]
          simp only [hdec]
        | ok cacheData =>
          have hgood : readable unmarshal (key, Except.ok result) = true := by
            simp [readable, hdec]
          rw [List.filter_cons_of_pos hgood]
          conv_lhs => unfold readKeys
          conv_rhs => unfold readKeys
          rw [if_neg hfull, if_neg hfull]
          simp only [hdec]
          exact readKeys_filter unmarshal limit rest _

theorem scanLoop_length (unmarshal : String → Except Error SentMessageCache) (limit : Int) :
    ∀ (pages : List (Except Error ScanPage)) (messages out : List SentMessageCache),
      (messages.length : Int) ≤ limit →
      scanLoop unmarshal limit messages pages = some (.ok out) → (out.length : Int) ≤ limit
  | [], _, _, _, h => by cases h
  | .error err :: _, _, _, _, h => by
    simp only [scanLoop, Option.some.injEq, reduceCtorEq] at h
  | .ok page :: rest, messages, out, hlen, h => by
    have hpage := readKeys_length unmarshal limit page.keys messages hlen
    simp only [scanLoop] at h
    split at h
    · simp only [Option.some.injEq, Except.ok.injEq] at h
      rw [← h]; exact hpage
    · exact scanLoop_length unmarshal limit rest _ out hpage h

theorem scanLoop_mem (unmarshal : String → Except Error SentMessageCache) (limit : Int)
    {m : SentMessageCache} :
    ∀ (pages : List (Except Error ScanPage)) (messages out : List SentMessageCache),
      scanLoop unmarshal limit messages pages = some (.ok out) → m ∈ out →
      m ∈ messages ∨ ∃ page, Except.ok page ∈ pages ∧
        ∃ key result, (key, Except.ok result) ∈ page.keys ∧ unmarshal result = .ok m
  | [], _, _, h, _ => by cases h
  | .error err :: _, _, _, h, _ => by
    simp only [scanLoop, Option.some.injEq, reduceCtorEq] at h
  | .ok page :: rest, messages, out, h, hm => by
    have hhere : ∀ x, x ∈ readKeys unmarshal limit messages page.keys →
        x = m → m ∈ messages ∨ ∃ page', Except.ok page' ∈ Except.ok page :: rest ∧
          ∃ key result, (key, Except.ok result) ∈ page'.keys ∧ unmarshal result = .ok m := by
      intro x hx hxm
      rw [hxm] at hx
      rcases readKeys_mem unmarshal limit page.keys messages hx with hin | hex
      · exact Or.inl hin
      · exact Or.inr ⟨page, List.mem_cons_self _ _, hex⟩
    simp only [scanLoop] at h
    split at h
    · simp only [Option.some.injEq, Except.ok.injEq] at h
      rw [← h] at hm
      exact hhere m hm rfl
    · rcases scanLoop_mem unmarshal limit rest _ out h hm with hin | ⟨p, hp, hex⟩
      · exact hhere m hin rfl
      · exact Or.inr ⟨p, List.mem_cons_of_mem _ hp, hex⟩

theorem scanLoop_dropUnreadable (unmarshal : String → Except Error SentMessageCache)
    (limit : Int) :
    ∀ (pages : List (Except Error ScanPage)) (messages : List SentMessageCache),
      scanLoop unmarshal limit messages (pages.map (dropUnreadable unmarshal)) =
        scanLoop unmarshal limit messages pages
  | [], _ => rfl
  | .error err :: _, _ => rfl
  | .ok page :: rest, messages => by
    simp only [List.map_cons, dropUnreadable, scanLoop, readKeys_filter]
    split
    · rfl
    · exact scanLoop_dropUnreadable unmarshal limit rest _

theorem scanLoop_returns (unmarshal : String → Except Error SentMessageCache) (limit : Int) :
    ∀ (pages : List (Except Error ScanPage)) (messages : List SentMessageCache),
      (∃ p ∈ pages, lastPage p = true) →
      ∃ outcome, scanLoop unmarshal limit messages pages = some outcome
  | [], _, h => by
    obtain ⟨p, hp, _⟩ := h
    cases hp
  | .error err :: _, _, _ => ⟨_, rfl⟩
  | .ok page :: rest, messages, h => by
    simp only [scanLoop]
    split
    · exact ⟨_, rfl⟩
    · rename_i hgo
      refine scanLoop_returns unmarshal limit rest _ ?_
      obtain ⟨p, hp, hlast⟩ := h
      rcases List.mem_cons.mp hp with rfl | hrest
      · exact absurd (Or.inl (by simpa [lastPage] using hlast)) hgo
      · exact ⟨p, hrest, hlast⟩

/-- C26. For every limit of at least 1 and every sequence of answers of the backend to the
successive scans: a successful `GetAllSentMessages(limit)` returns at most `limit` entries, and
every returned entry is the decoded value of a key of one of the pages; the keys whose value
cannot be read or decoded are skipped without failing the call, the outcome being the one for
the pages without these keys; and the call does return once an answer carries the cursor 0 or
is a failed scan. -/
theorem C26_cache_scan (unmarshal : String → Except Error SentMessageCache)
    (pages : List (Except Error ScanPage)) (limit : Int) (hl : 1 ≤ limit) :
    (∀ messages : List SentMessageCache,
      GetAllSentMessages unmarshal pages limit = some (.ok messages) →
      (messages.length : Int) ≤ limit ∧
      ∀ m ∈ messages, ∃ page, Except.ok page ∈ pages ∧
        ∃ key result, (key, Except.ok result) ∈ page.keys ∧ unmarshal result = .ok m) ∧
    GetAllSentMessages unmarshal (pages.map (dropUnreadable unmarshal)) limit =
      GetAllSentMessages unmarshal pages limit ∧
    ((∃ p ∈ pages, lastPage p = true) →
      ∃ outcome, GetAllSentMessages unmarshal pages limit = some outcome) := by
  refine ⟨fun messages h => ⟨?_, fun m hm => ?_⟩, ?_, ?_⟩
  · exact scanLoop_length unmarshal limit pages [] messages (by simp; omega) h
  · rcases scanLoop_mem unmarshal limit pages [] messages h hm with hin | hex
    · cases hin
    · exact hex
  · exact scanLoop_dropUnreadable unmarshal limit pages []
  · exact scanLoop_returns unmarshal limit pages []

/-- C26, at two pages of keys and the limit 2: key 2 (not read) and key 3 (not decoded) are
skipped, and the call returns the entries of the keys 1 and 4. -/
theorem C26_cache_scan_witness :
    GetAllSentMessages decodeEntry twoPages 2 = some (.ok [cacheEntry 1 1, cacheEntry 4 4]) ∧
    ((∀ messages : List SentMessageCache,
      GetAllSentMessages decodeEntry twoPages 2 = some (.ok messages) →
      (messages.length : Int) ≤ 2 ∧
      ∀ m ∈ messages, ∃ page, Except.ok page ∈ twoPages ∧
        ∃ key result, (key, Except.ok result) ∈ page.keys ∧ decodeEntry result = .ok m) ∧
    GetAllSentMessages decodeEntry (twoPages.map (dropUnreadable decodeEntry)) 2 =
      GetAllSentMessages decodeEntry twoPages 2 ∧
    ((∃ p ∈ twoPages, lastPage p = true) →
      ∃ outcome, GetAllSentMessages decodeEntry twoPages 2 = some outcome)) :=
  ⟨by decide, C26_cache_scan decodeEntry twoPages 2 (by decide)⟩

end MessageWebhook
